import Mathlib

/-! opentxs: the server's reply construction, the storage tree's unit index, the
client's record list and `str_dup2`

A shallow embedding of `opentxs::ReplyMessage` (`src/server/ReplyMessage.cpp`: the
constructor, the setters a command handler calls, and the destructor that commits
the reply), of `storage::Units` (`src/storage/tree/Units.cpp`), of parts of
`OTRecordList` (`src/client/OTRecordList.cpp`) and of `str_dup2`
(`src/core/util/StringUtils.cpp`), with the transaction-number pool and the
message buffer of the spec, and with `std::sort` as the GNU C++ library
implements it.  State that the C++ keeps behind references (the output
`Message`, the `OTServer`, the `Editor<ClientContext>`) is passed explicitly.
-/

namespace opentxs

/-- An `Identifier` is represented by its string form; equality is equality of
that string. -/
abbrev Identifier := String

/-- An `OTASCIIArmor` is represented by the text it encodes: `SetString` stores
the text, `Release` leaves the empty armor. -/
structure OTASCIIArmor where
  text : String
deriving DecidableEq, Repr

/-- The armor after `Release()`. -/
def OTASCIIArmor.Release : OTASCIIArmor := ⟨""⟩

/-- The armor after `SetString(s)`. -/
def OTASCIIArmor.SetString (s : String) : OTASCIIArmor := ⟨s⟩

/-- An armor is empty when it encodes no text. -/
def OTASCIIArmor.empty (a : OTASCIIArmor) : Bool := a.text == ""

/-- The request types named by the `switch` statements of `ReplyMessage.cpp`.
`badID` stands for every enumerator of `MessageType` they do not name, all of
which fall under `default:`. -/
inductive MessageType
  | badID
  | pingNotary
  | registerNym
  | unregisterNym
  | getRequestNumber
  | getTransactionNumbers
  | processNymbox
  | checkNym
  | sendNymMessage
  | sendNymInstrument
  | unregisterAccount
  | registerAccount
  | registerInstrumentDefinition
  | issueBasket
  | notarizeTransaction
  | getNymbox
  | getBoxReceipt
  | getAccountData
  | processInbox
  | queryInstrumentDefinitions
  | getInstrumentDefinition
  | getMint
  | getMarketList
  | getMarketOffers
  | getMarketRecentTrades
  | getNymMarketOffers
  | triggerClause
  | usageCredits
  | registerContract
  | requestAdmin
  | addClaim
deriving DecidableEq, Repr

/-- Modelled from the spec: the table `Message::message_names_` is not under
src/.  Every request type is named as its enumerator is written. -/
def Message.message_names : List (MessageType × String) :=
  [(.pingNotary, "pingNotary"),
   (.registerNym, "registerNym"),
   (.unregisterNym, "unregisterNym"),
   (.getRequestNumber, "getRequestNumber"),
   (.getTransactionNumbers, "getTransactionNumbers"),
   (.processNymbox, "processNymbox"),
   (.checkNym, "checkNym"),
   (.sendNymMessage, "sendNymMessage"),
   (.sendNymInstrument, "sendNymInstrument"),
   (.unregisterAccount, "unregisterAccount"),
   (.registerAccount, "registerAccount"),
   (.registerInstrumentDefinition, "registerInstrumentDefinition"),
   (.issueBasket, "issueBasket"),
   (.notarizeTransaction, "notarizeTransaction"),
   (.getNymbox, "getNymbox"),
   (.getBoxReceipt, "getBoxReceipt"),
   (.getAccountData, "getAccountData"),
   (.processInbox, "processInbox"),
   (.queryInstrumentDefinitions, "queryInstrumentDefinitions"),
   (.getInstrumentDefinition, "getInstrumentDefinition"),
   (.getMint, "getMint"),
   (.getMarketList, "getMarketList"),
   (.getMarketOffers, "getMarketOffers"),
   (.getMarketRecentTrades, "getMarketRecentTrades"),
   (.getNymMarketOffers, "getNymMarketOffers"),
   (.triggerClause, "triggerClause"),
   (.usageCredits, "usageCredits"),
   (.registerContract, "registerContract"),
   (.requestAdmin, "requestAdmin"),
   (.addClaim, "addClaim")]

/-- Modelled from the spec: `Message::Command` is not under src/.  The name of a
request type is looked up in the table; a type without a name gives the empty
string. -/
def Message.Command (type : MessageType) : String :=
  match Message.message_names.find? (fun p => p.1 == type) with
  | some p => p.2
  | none => ""

/-- Modelled from the spec: `Message::Type` is not under src/.  A command name
gives the request type it is the name of; any other string gives `badID`. -/
def Message.Type (command : String) : MessageType :=
  match Message.message_names.find? (fun p => p.2 == command) with
  | some p => p.1
  | none => .badID

/-- Modelled from the spec: `Message::ReplyCommand` is not under src/.  The spec:
reply commands are named `<original>` followed by `"Response"`. -/
def Message.ReplyCommand (type : MessageType) : String :=
  Message.Command type ++ "Response"

/-- A Nym as far as `ReplyMessage` uses one: its ID and its public credentials
(`asPublicNym`). -/
structure Nym where
  m_nymID : Identifier
  m_credentials : String
deriving DecidableEq, Repr

/-- The accessor `Nym::ID()`. -/
def Nym.ID (n : Nym) : Identifier := n.m_nymID

/-- The server-side `ClientContext` as far as `ReplyMessage` uses it: the local
Nymbox hash, when there is one, and the acknowledged request numbers. -/
structure ClientContext where
  local_nymbox_hash_ : Option Identifier
  acknowledged_request_numbers_ : List Int
deriving DecidableEq, Repr

/-- The accessor `HaveLocalNymboxHash()`. -/
def ClientContext.HaveLocalNymboxHash (c : ClientContext) : Bool :=
  c.local_nymbox_hash_.isSome

/-- The accessor `LocalNymboxHash()`. -/
def ClientContext.LocalNymboxHash (c : ClientContext) : Identifier :=
  c.local_nymbox_hash_.getD ""

/-- The fields of a `Message` that its serialised form covers (the wire format of
the spec, section 6). -/
structure MessageData where
  m_strCommand : String
  m_strNotaryID : String
  m_strNymID : String
  m_strNymID2 : String
  m_strNymboxHash : String
  m_strInboxHash : String
  m_strOutboxHash : String
  m_strAcctID : String
  m_strInstrumentDefinitionID : String
  m_strRequestNum : String
  m_ascInReferenceTo : OTASCIIArmor
  m_ascPayload : OTASCIIArmor
  m_ascPayload2 : OTASCIIArmor
  m_ascPayload3 : OTASCIIArmor
  m_lNewRequestNum : Int
  m_lDepth : Int
  m_lTransactionNum : Int
  m_bSuccess : Bool
  m_AcknowledgedReplies : List Int
deriving DecidableEq, Repr

/-- Modelled from the spec: the signature type is not under src/.  Following the
collaborator interface `Sign(nym, data) -> signature`, a signature records who
signed and the data that was signed. -/
structure OTSignature where
  signer : Identifier
  data : MessageData
deriving DecidableEq, Repr

/-- A `Message`: its fields, and the state it has as a `Contract`, namely the
signatures put on it and the text written by the last save. -/
structure Message extends MessageData where
  m_listSignatures : List OTSignature
  m_strRawFile : String
deriving DecidableEq, Repr

/-- A `replyNotice` transaction of a Nymbox: the copy of the reply it carries,
the request number it answers and the status recorded with it. -/
structure ReplyNotice where
  strMessage : String
  lRequestNum : Int
  bReplyTransSuccess : Bool
deriving DecidableEq, Repr

/-- The part of the `OTServer` a reply can reach: the Nymbox of the Nym the
loaded context belongs to (the sender). -/
structure OTServer where
  nymbox : List ReplyNotice
deriving DecidableEq, Repr

/-- What `ReplyMessage.cpp` calls and the repository's sources under src/ do not
define, taken as parameters: the wallet (`OT::App().Contract()`), the server's
lock setting, `Nym::LoadCredentialIndex`, the serialisation that
`Contract::SaveContract` writes, `String::ToLong`, and what
`drop_reply_notice_to_nymbox` does to the context it is handed. -/
structure Env where
  server_locked : Identifier → Bool
  wallet_Nym : Identifier → Option Nym
  wallet_NymFromCredentials : String → Option Nym
  wallet_mutable_ClientContext : Identifier → Identifier → ClientContext
  LoadCredentialIndex : Nym → String → Bool × Nym
  RewriteContract : MessageData → List OTSignature → String
  ToLong : String → Int
  notice_context : String → Int → Bool → ClientContext → ClientContext

/-- Modelled from the spec: the conversion `String(const Contract&)` is not under
src/.  The text of a message is what its last save wrote. -/
def Message.asString (m : Message) : String := m.m_strRawFile

/-- Modelled from the spec: `Contract::SignContract` is not under src/.  Signing
adds the signer's signature over the message's current fields. -/
def Message.SignContract (m : Message) (nym : Nym) : Message :=
  { m with m_listSignatures := m.m_listSignatures ++ [⟨nym.ID, m.toMessageData⟩] }

/-- Modelled from the spec: `Contract::SaveContract` is not under src/.  Saving
writes the text of the message from its fields and signatures. -/
def Message.SaveContract (E : Env) (m : Message) : Message :=
  { m with m_strRawFile := E.RewriteContract m.toMessageData m.m_listSignatures }

/-- Modelled from the spec: `Message::SetAcknowledgments` is not under src/.  The
acknowledged replies of the message become those the context records. -/
def Message.SetAcknowledgments (m : Message) (context : ClientContext) : Message :=
  { m with m_AcknowledgedReplies := context.acknowledged_request_numbers_ }

/-- Modelled from the spec: `UserCommandProcessor::check_server_lock` is not under
src/.  The check passes when the sender Nym is not server-locked. -/
def UserCommandProcessor.check_server_lock (E : Env) (nymID : Identifier) : Bool :=
  !E.server_locked nymID

/-- Modelled from the spec: `UserCommandProcessor::check_message_notary` is not
under src/.  The check passes when the NotaryID in the message matches this
server. -/
def UserCommandProcessor.check_message_notary
    (notaryID realNotaryID : Identifier) : Bool :=
  notaryID == realNotaryID

/-- Modelled from the spec: `UserCommandProcessor::check_client_isnt_server` is
not under src/.  The check passes when the client Nym is not the server's own
signing Nym. -/
def UserCommandProcessor.check_client_isnt_server
    (nymID : Identifier) (serverNym : Nym) : Bool :=
  !(serverNym.ID == nymID)

/-- Modelled from the spec: `UserCommandProcessor::drop_reply_notice_to_nymbox`
is not under src/.  The spec: a `replyNotice` transaction containing a full copy
of the reply is inserted into the sender's Nymbox.  The routine is handed the
context by reference; what it does to it is `E.notice_context`. -/
def UserCommandProcessor.drop_reply_notice_to_nymbox (E : Env)
    (strMessage : String) (lRequestNum : Int) (bReplyTransSuccess : Bool)
    (context : ClientContext) (server : OTServer) : ClientContext × OTServer :=
  (E.notice_context strMessage lRequestNum bReplyTransSuccess context,
   { server with nymbox := server.nymbox ++ [⟨strMessage, lRequestNum, bReplyTransSuccess⟩] })

/-- The members of `ReplyMessage`.  `message_` and `server_` are references in
the C++; here they hold the state of the object referred to. -/
structure ReplyMessage where
  signer_ : Nym
  original_ : Message
  notary_id_ : Identifier
  message_ : Message
  server_ : OTServer
  nymfile_ : Nym
  init_ : Bool
  drop_ : Bool
  drop_status_ : Bool
  sender_nym_ : Option Nym
  context_ : Option ClientContext
deriving DecidableEq, Repr

namespace ReplyMessage

/-- `ReplyMessage::attach_request` (lines 93-136). -/
def attach_request (r : ReplyMessage) : ReplyMessage :=
  let command := r.original_.m_strCommand
  let type := Message.Type command
  match type with
  | .getMarketOffers
  | .getMarketRecentTrades
  | .getNymMarketOffers
  | .registerContract
  | .registerNym
  | .unregisterNym
  | .checkNym
  | .registerInstrumentDefinition
  | .queryInstrumentDefinitions
  | .issueBasket
  | .registerAccount
  | .getBoxReceipt
  | .getAccountData
  | .unregisterAccount
  | .notarizeTransaction
  | .getNymbox
  | .getInstrumentDefinition
  | .getMint
  | .processInbox
  | .processNymbox
  | .triggerClause
  | .getMarketList
  | .requestAdmin
  | .addClaim =>
    { r with message_ :=
        { r.message_ with
          m_ascInReferenceTo := OTASCIIArmor.SetString r.original_.asString } }
  | .pingNotary
  | .usageCredits
  | .sendNymMessage
  | .sendNymInstrument
  | .getRequestNumber
  | .getTransactionNumbers
  | .badID => r

/-- `ReplyMessage::clear_request` (lines 138-181). -/
def clear_request (r : ReplyMessage) : ReplyMessage :=
  let command := r.original_.m_strCommand
  let type := Message.Type command
  match type with
  | .checkNym
  | .getNymbox
  | .getAccountData
  | .getInstrumentDefinition
  | .getMint =>
    { r with message_ :=
        { r.message_ with m_ascInReferenceTo := OTASCIIArmor.Release } }
  | .getMarketOffers
  | .getMarketRecentTrades
  | .getNymMarketOffers
  | .registerContract
  | .registerNym
  | .unregisterNym
  | .registerInstrumentDefinition
  | .queryInstrumentDefinitions
  | .issueBasket
  | .registerAccount
  | .getBoxReceipt
  | .unregisterAccount
  | .notarizeTransaction
  | .processInbox
  | .processNymbox
  | .triggerClause
  | .getMarketList
  | .requestAdmin
  | .addClaim
  | .pingNotary
  | .usageCredits
  | .sendNymMessage
  | .sendNymInstrument
  | .getRequestNumber
  | .getTransactionNumbers
  | .badID => r

/-- `ReplyMessage::init` (lines 205-223). -/
def init (E : Env) (r : ReplyMessage) : Bool :=
  let senderNymID : Identifier := r.original_.m_strNymID
  let purportedServerID : Identifier := r.original_.m_strNotaryID
  let out := UserCommandProcessor.check_server_lock E senderNymID
  let out :=
    if out then
      out && UserCommandProcessor.check_message_notary purportedServerID r.notary_id_
    else out
  let out :=
    if out then
      out && UserCommandProcessor.check_client_isnt_server senderNymID r.signer_
    else out
  out

/-- The constructor `ReplyMessage::ReplyMessage` (lines 57-83). -/
def ctor (E : Env) (notaryID : Identifier) (signer : Nym) (input : Message)
    (server : OTServer) (type : MessageType) (output : Message) : ReplyMessage :=
  let r : ReplyMessage :=
    { signer_ := signer
      original_ := input
      notary_id_ := notaryID
      message_ := output
      server_ := server
      nymfile_ := ⟨input.m_strNymID, ""⟩
      init_ := false
      drop_ := false
      drop_status_ := false
      sender_nym_ := none
      context_ := none }
  let r := { r with message_ := { r.message_ with m_strRequestNum := r.original_.m_strRequestNum } }
  let r := { r with message_ := { r.message_ with m_strNotaryID := r.original_.m_strNotaryID } }
  let r := { r with message_ := { r.message_ with m_strNymID := r.original_.m_strNymID } }
  let r := { r with message_ := { r.message_ with m_strCommand := Message.ReplyCommand type } }
  let r := { r with message_ := { r.message_ with m_bSuccess := false } }
  let r := r.attach_request
  { r with init_ := r.init E }

/-- `ReplyMessage::ClearRequest` (line 183). -/
def ClearRequest (r : ReplyMessage) : ReplyMessage :=
  { r with message_ := { r.message_ with m_ascInReferenceTo := OTASCIIArmor.Release } }

/-- `ReplyMessage::DropToNymbox` (lines 197-201). -/
def DropToNymbox (r : ReplyMessage) (success : Bool) : ReplyMessage :=
  { r with drop_ := true, drop_status_ := success }

/-- `ReplyMessage::HaveContext` (line 203). -/
def HaveContext (r : ReplyMessage) : Bool := r.context_.isSome

/-- `ReplyMessage::Init` (line 225). -/
def Init (r : ReplyMessage) : Bool := r.init_

/-- `ReplyMessage::Success` (line 355). -/
def Success (r : ReplyMessage) : Bool := r.message_.m_bSuccess

/-- `ReplyMessage::init_nym` (lines 227-232). -/
def init_nym (E : Env) (r : ReplyMessage) : Bool × ReplyMessage :=
  let r := { r with sender_nym_ := E.wallet_Nym r.original_.m_strNymID }
  (r.sender_nym_.isSome, r)

/-- `ReplyMessage::InitNymfileCredentials` (lines 234-242). -/
def InitNymfileCredentials (E : Env) (r : ReplyMessage) : Bool × ReplyMessage :=
  match r.sender_nym_ with
  | none => (false, r)
  | some sender =>
    let (ok, nymfile) := E.LoadCredentialIndex r.nymfile_ sender.m_credentials
    (ok, { r with nymfile_ := nymfile })

/-- `ReplyMessage::LoadContext` (lines 244-256). -/
def LoadContext (E : Env) (r : ReplyMessage) : Bool × ReplyMessage :=
  let (found, r) := r.init_nym E
  if found = false then (false, r)
  else
    match r.sender_nym_ with
    | none => (false, r)
    | some sender =>
      let r := { r with context_ := some (E.wallet_mutable_ClientContext r.signer_.ID sender.ID) }
      (r.context_.isSome, r)

/-- `ReplyMessage::LoadNym` (lines 258-265). -/
def LoadNym (E : Env) (r : ReplyMessage) : Bool × ReplyMessage :=
  let r := { r with sender_nym_ := E.wallet_NymFromCredentials r.original_.m_ascPayload.text }
  (r.sender_nym_.isSome, r)

/-- `ReplyMessage::OverrideType` (lines 271-274). -/
def OverrideType (r : ReplyMessage) (replyCommand : String) : ReplyMessage :=
  { r with message_ := { r.message_ with m_strCommand := replyCommand } }

/-- `ReplyMessage::SetAccount` (lines 276-279). -/
def SetAccount (r : ReplyMessage) (accountID : String) : ReplyMessage :=
  { r with message_ := { r.message_ with m_strAcctID := accountID } }

/-- `ReplyMessage::SetAcknowledgments` (lines 281-284). -/
def SetAcknowledgments (r : ReplyMessage) (context : ClientContext) : ReplyMessage :=
  { r with message_ := r.message_.SetAcknowledgments context }

/-- `ReplyMessage::SetDepth` (lines 286-289). -/
def SetDepth (r : ReplyMessage) (depth : Int) : ReplyMessage :=
  { r with message_ := { r.message_ with m_lDepth := depth } }

/-- `ReplyMessage::SetInboxHash` (lines 291-294). -/
def SetInboxHash (r : ReplyMessage) (hash : Identifier) : ReplyMessage :=
  { r with message_ := { r.message_ with m_strInboxHash := hash } }

/-- `ReplyMessage::SetInstrumentDefinitionID` (lines 296-299). -/
def SetInstrumentDefinitionID (r : ReplyMessage) (id : String) : ReplyMessage :=
  { r with message_ := { r.message_ with m_strInstrumentDefinitionID := id } }

/-- `ReplyMessage::SetNymboxHash` (lines 301-304). -/
def SetNymboxHash (r : ReplyMessage) (hash : Identifier) : ReplyMessage :=
  { r with message_ := { r.message_ with m_strNymboxHash := hash } }

/-- `ReplyMessage::SetOutboxHash` (lines 306-309). -/
def SetOutboxHash (r : ReplyMessage) (hash : Identifier) : ReplyMessage :=
  { r with message_ := { r.message_ with m_strOutboxHash := hash } }

/-- `ReplyMessage::SetPayload(const String&)` (lines 311-314). -/
def SetPayload (r : ReplyMessage) (payload : String) : Bool × ReplyMessage :=
  (true, { r with message_ := { r.message_ with m_ascPayload := OTASCIIArmor.SetString payload } })

/-- `ReplyMessage::SetPayload(const Data&)` (lines 316-319); the data is
represented by its text. -/
def SetPayloadData (r : ReplyMessage) (payload : String) : Bool × ReplyMessage :=
  (true, { r with message_ := { r.message_ with m_ascPayload := OTASCIIArmor.SetString payload } })

/-- `ReplyMessage::SetPayload(const OTASCIIArmor&)` (lines 321-324). -/
def SetPayloadArmor (r : ReplyMessage) (payload : OTASCIIArmor) : ReplyMessage :=
  { r with message_ := { r.message_ with m_ascPayload := payload } }

/-- `ReplyMessage::SetPayload2` (lines 326-329). -/
def SetPayload2 (r : ReplyMessage) (payload : String) : Bool × ReplyMessage :=
  (true, { r with message_ := { r.message_ with m_ascPayload2 := OTASCIIArmor.SetString payload } })

/-- `ReplyMessage::SetPayload3` (lines 331-334). -/
def SetPayload3 (r : ReplyMessage) (payload : String) : Bool × ReplyMessage :=
  (true, { r with message_ := { r.message_ with m_ascPayload3 := OTASCIIArmor.SetString payload } })

/-- `ReplyMessage::SetRequestNumber` (lines 336-339). -/
def SetRequestNumber (r : ReplyMessage) (number : Int) : ReplyMessage :=
  { r with message_ := { r.message_ with m_lNewRequestNum := number } }

/-- `ReplyMessage::SetSuccess` (lines 341-348). -/
def SetSuccess (r : ReplyMessage) (success : Bool) : ReplyMessage :=
  let r := { r with message_ := { r.message_ with m_bSuccess := success } }
  if success then r.clear_request else r

/-- `ReplyMessage::SetTransactionNumber` (lines 350-353). -/
def SetTransactionNumber (r : ReplyMessage) (number : Int) : ReplyMessage :=
  { r with message_ := { r.message_ with m_lTransactionNum := number } }

/-- `ReplyMessage::SetTargetNym` (lines 357-360). -/
def SetTargetNym (r : ReplyMessage) (nymID : String) : ReplyMessage :=
  { r with message_ := { r.message_ with m_strNymID2 := nymID } }

/-- The destructor `ReplyMessage::~ReplyMessage` (lines 362-380).  The result
holds what the destroyed object leaves behind: the output message, the server
and the context as committed. -/
def dtor (E : Env) (r : ReplyMessage) : ReplyMessage :=
  let r := { r with message_ := r.message_.SignContract r.signer_ }
  let r := { r with message_ := r.message_.SaveContract E }
  let r :=
    match r.drop_, r.context_ with
    | true, some context =>
      let (context, server) :=
        UserCommandProcessor.drop_reply_notice_to_nymbox E
          r.message_.asString
          (E.ToLong r.original_.m_strRequestNum)
          r.drop_status_
          context
          r.server_
      { r with context_ := some context, server_ := server }
    | _, _ => r
  match r.context_ with
  | some context =>
    if context.HaveLocalNymboxHash then r.SetNymboxHash context.LocalNymboxHash else r
  | none => r

/-- `ReplyMessage::Context` (lines 185-190): the context a handler may read and
write through the returned reference; `none` when `OT_ASSERT(context_)` fails. -/
def Context (r : ReplyMessage) : Option ClientContext := r.context_

/-- `ReplyMessage::Nymfile` (line 269): the Nym a handler may read and write
through the returned reference. -/
def Nymfile (r : ReplyMessage) : Nym := r.nymfile_

end ReplyMessage

/-- One use of the public interface of a `ReplyMessage` by a command handler
between construction and destruction.  `Context` and `Nymfile` stand for a write
through the reference the accessor returns; the accessors that only read
(`Acknowledged`, `HaveContext`, `Init`, `Original`, `Success`) change nothing and
are left out. -/
inductive Call
  | ClearRequest
  | Context (written : ClientContext)
  | DropToNymbox (success : Bool)
  | InitNymfileCredentials
  | LoadContext
  | LoadNym
  | Nymfile (written : Nym)
  | OverrideType (replyCommand : String)
  | SetAccount (accountID : String)
  | SetAcknowledgments (context : ClientContext)
  | SetDepth (depth : Int)
  | SetInboxHash (hash : Identifier)
  | SetInstrumentDefinitionID (id : String)
  | SetNymboxHash (hash : Identifier)
  | SetOutboxHash (hash : Identifier)
  | SetPayload (payload : String)
  | SetPayloadData (payload : String)
  | SetPayloadArmor (payload : OTASCIIArmor)
  | SetPayload2 (payload : String)
  | SetPayload3 (payload : String)
  | SetRequestNumber (number : Int)
  | SetSuccess (success : Bool)
  | SetTransactionNumber (number : Int)
  | SetTargetNym (nymID : String)
deriving DecidableEq, Repr

namespace ReplyMessage

/-- The state after one call; `none` when the call aborts the process (the
assertion of `Context` on a reply without a context). -/
def apply (E : Env) (c : Call) (r : ReplyMessage) : Option ReplyMessage :=
  match c with
  | .ClearRequest => some r.ClearRequest
  | .Context written =>
    match r.Context with
    | some _ => some { r with context_ := some written }
    | none => none
  | .DropToNymbox success => some (r.DropToNymbox success)
  | .InitNymfileCredentials => some (r.InitNymfileCredentials E).2
  | .LoadContext => some (r.LoadContext E).2
  | .LoadNym => some (r.LoadNym E).2
  | .Nymfile written => some { r with nymfile_ := written }
  | .OverrideType replyCommand => some (r.OverrideType replyCommand)
  | .SetAccount accountID => some (r.SetAccount accountID)
  | .SetAcknowledgments context => some (r.SetAcknowledgments context)
  | .SetDepth depth => some (r.SetDepth depth)
  | .SetInboxHash hash => some (r.SetInboxHash hash)
  | .SetInstrumentDefinitionID id => some (r.SetInstrumentDefinitionID id)
  | .SetNymboxHash hash => some (r.SetNymboxHash hash)
  | .SetOutboxHash hash => some (r.SetOutboxHash hash)
  | .SetPayload payload => some (r.SetPayload payload).2
  | .SetPayloadData payload => some (r.SetPayloadData payload).2
  | .SetPayloadArmor payload => some (r.SetPayloadArmor payload)
  | .SetPayload2 payload => some (r.SetPayload2 payload).2
  | .SetPayload3 payload => some (r.SetPayload3 payload).2
  | .SetRequestNumber number => some (r.SetRequestNumber number)
  | .SetSuccess success => some (r.SetSuccess success)
  | .SetTransactionNumber number => some (r.SetTransactionNumber number)
  | .SetTargetNym nymID => some (r.SetTargetNym nymID)

/-- The state after a sequence of calls, in order. -/
def run (E : Env) : List Call → ReplyMessage → Option ReplyMessage
  | [], r => some r
  | c :: cs, r => (apply E c r).bind (run E cs)

end ReplyMessage

/-! ## Concrete data used by the examples -/

/-- A message with every field empty, as a freshly made output `Message`. -/
def blankMessage : Message :=
  { m_strCommand := "", m_strNotaryID := "", m_strNymID := "", m_strNymID2 := "",
    m_strNymboxHash := "", m_strInboxHash := "", m_strOutboxHash := "",
    m_strAcctID := "", m_strInstrumentDefinitionID := "", m_strRequestNum := "",
    m_ascInReferenceTo := ⟨""⟩, m_ascPayload := ⟨""⟩, m_ascPayload2 := ⟨""⟩,
    m_ascPayload3 := ⟨""⟩, m_lNewRequestNum := 0, m_lDepth := 0,
    m_lTransactionNum := 0, m_bSuccess := false, m_AcknowledgedReplies := [],
    m_listSignatures := [], m_strRawFile := "" }

/-- A signed request from Nym `alice` to notary `notary1` with request number 7
and the given command. -/
def exampleRequest (command : String) : Message :=
  { blankMessage with
    m_strCommand := command, m_strNotaryID := "notary1", m_strNymID := "alice",
    m_strRequestNum := "7",
    m_listSignatures := [],
    m_strRawFile := "signed request 7 of alice: " ++ command }

/-- The server's signing Nym in the examples. -/
def exampleSigner : Nym := ⟨"serverNym", "server credentials"⟩

/-- A server whose sender Nymbox is empty. -/
def exampleServer : OTServer := ⟨[]⟩

/-- A context with the local Nymbox hash `hash1`. -/
def exampleContext : ClientContext := ⟨some "hash1", [3, 5]⟩

/-- An environment for the examples: nobody is locked, the wallet knows `alice`
and holds `exampleContext` for her, a saved message is written as its command
and success flag followed by its signers, `ToLong` reads the request number 7,
and the notice routine leaves the context as it is. -/
def exampleEnv : Env :=
  { server_locked := fun _ => false
    wallet_Nym := fun id => if id = "alice" then some ⟨"alice", "alice credentials"⟩ else none
    wallet_NymFromCredentials := fun _ => none
    wallet_mutable_ClientContext := fun _ _ => exampleContext
    LoadCredentialIndex := fun nymfile credentials => (true, { nymfile with m_credentials := credentials })
    RewriteContract := fun d sigs =>
      d.m_strCommand ++ (if d.m_bSuccess then " success" else " failure") ++
        String.join (sigs.map fun sig => " signed by " ++ sig.signer)
    ToLong := fun s => if s = "7" then 7 else 0
    notice_context := fun _ _ _ context => context }

/-- The commands the spec names as having their request attached to the reply at
construction. -/
def attached_commands : List String :=
  ["getMarketOffers", "getMarketRecentTrades", "getNymMarketOffers", "registerContract",
   "registerNym", "unregisterNym", "checkNym", "registerInstrumentDefinition",
   "queryInstrumentDefinitions", "issueBasket", "registerAccount", "getBoxReceipt",
   "getAccountData", "unregisterAccount", "notarizeTransaction", "getNymbox",
   "getInstrumentDefinition", "getMint", "processInbox", "processNymbox", "triggerClause",
   "getMarketList", "requestAdmin", "addClaim"]

/-- The recognised commands the spec names as having nothing attached. -/
def unattached_commands : List String :=
  ["pingNotary", "usageCredits", "sendNymMessage", "sendNymInstrument",
   "getRequestNumber", "getTransactionNumbers"]

/-- The commands the spec names as having the echoed request stripped on
success. -/
def stripped_commands : List String :=
  ["checkNym", "getNymbox", "getAccountData", "getInstrumentDefinition", "getMint"]

/-! ## The unit index of the storage tree (`src/storage/tree/Units.cpp`) -/

namespace storage

/-- The protobuf `proto::StorageItemHash`: one entry of a serialised index. -/
structure StorageItemHash where
  version : Nat
  itemid : String
  hash : String
  alias_ : String
deriving DecidableEq, Repr

/-- The protobuf `proto::StorageUnits`: the serialised unit index. -/
structure StorageUnits where
  version : Nat
  unit : List StorageItemHash
deriving DecidableEq, Repr

/-- The `Metadata` tuple of the index map: hash, alias, revision, private flag. -/
structure Metadata where
  hash : String
  alias_ : String
  revision : Nat
  isPrivate : Bool
deriving DecidableEq, Repr

/-- A `std::unique_lock<std::mutex>`: the mutex it refers to and whether it owns
the lock. -/
structure Lock where
  mutex : Nat
  owns_lock : Bool
deriving DecidableEq, Repr

/-- What `Units.cpp` calls and the sources under src/ do not define, taken as
parameters: `Node::check_hash`, `Node::BLANK_HASH`, `Node::verify_write_lock`,
`proto::Validate`, and the storage driver's `LoadProto` and `StoreProto` (which
returns success and writes the key of what it stored into its second
argument). -/
structure Driver where
  check_hash : String → Bool
  BLANK_HASH : String
  verify_write_lock : Lock → Bool
  Validate : StorageUnits → Bool
  LoadProto : String → Option StorageUnits
  StoreProto : StorageUnits → String → Bool × String

/-- The members of `storage::Units` (inherited from `Node`): the version, the
root hash and the index map, whose entries are kept in the order of the map. -/
structure Units where
  version_ : Nat
  root_ : String
  item_map_ : List (String × Metadata)
deriving DecidableEq, Repr

/-- The `std::map::emplace` of the index map: a key already present keeps its
entry, a new key is entered at its place in the order of the keys. -/
def map_emplace (key : String) (value : Metadata) :
    List (String × Metadata) → List (String × Metadata)
  | [] => [(key, value)]
  | (k, v) :: rest =>
    if key = k then (k, v) :: rest
    else if key < k then (key, value) :: (k, v) :: rest
    else (k, v) :: map_emplace key value rest

/-- Modelled from the spec: `Node::serialize_index` is not under src/.  It fills
an index entry with the version, the ID, and the hash and alias of the
metadata. -/
def serialize_index (version : Nat) (id : String) (metadata : Metadata) : StorageItemHash :=
  ⟨version, id, metadata.hash, metadata.alias_⟩

namespace Units

/-- `Units::init` (lines 65-87); `none` is `abort()`. -/
def init (D : Driver) (u : Units) (hash : String) : Option Units :=
  match D.LoadProto hash with
  | none => none
  | some serialized =>
    let u := { u with version_ := serialized.version }
    let u := if 2 > u.version_ then { u with version_ := 2 } else u
    some (serialized.unit.foldl
      (fun u it => { u with item_map_ := map_emplace it.itemid ⟨it.hash, it.alias_, 0, false⟩ u.item_map_ })
      u)

/-- The constructor `Units::Units` (lines 50-59), on the node `Node(storage, hash)`
leaves behind; `none` is `abort()`. -/
def ctor (D : Driver) (node : Units) (hash : String) : Option Units :=
  if D.check_hash hash then
    init D node hash
  else
    let u := { node with version_ := 2 }
    some { u with root_ := D.BLANK_HASH }

/-- `Units::serialize` (lines 116-132). -/
def serialize (D : Driver) (u : Units) : StorageUnits :=
  let serialized : StorageUnits := ⟨u.version_, []⟩
  u.item_map_.foldl
    (fun serialized item =>
      let goodID := !item.1.isEmpty
      let goodHash := D.check_hash item.2.hash
      let good := goodID && goodHash
      if good then
        { serialized with unit := serialized.unit ++ [serialize_index u.version_ item.1 item.2] }
      else serialized)
    serialized

/-- What a call of `Units::save` that returns leaves behind: the value returned,
the root hash, and the index files handed to the driver's `StoreProto`. -/
structure Saved where
  result : Bool
  root_ : String
  stored : List StorageUnits
deriving DecidableEq, Repr

/-- `Units::save` (lines 100-114); `none` is `abort()`. -/
def save (D : Driver) (u : Units) (lock : Lock) : Option Saved :=
  if !D.verify_write_lock lock then
    none
  else
    let serialized := u.serialize D
    if !D.Validate serialized then
      some ⟨false, u.root_, []⟩
    else
      let (stored, root) := D.StoreProto serialized u.root_
      some ⟨stored, root, [serialized]⟩

end Units

end storage

/-! ## The transaction-number pool (spec, sections 3 and 4.1) -/

/-- The union of two sets of transaction numbers given as lists: the numbers of
`more` not yet in `numbers` are added at the end. -/
def number_union (numbers more : List Int) : List Int :=
  numbers ++ (more.filter fun n => n ∉ numbers).dedup

/-- Modelled from the spec: the transaction-number pool of one Nym at one Notary
is not under src/.  The spec: two sets, `issued` and `available`; a set of
numbers is represented by the list of its members. -/
structure TransactionNumberPool where
  issued : List Int
  available : List Int
deriving DecidableEq, Repr

namespace TransactionNumberPool

/-- The invariant the spec states for a pool: `available ⊆ issued`. -/
def Invariant (p : TransactionNumberPool) : Prop := p.available ⊆ p.issued

instance (p : TransactionNumberPool) : Decidable p.Invariant := by
  unfold Invariant; infer_instance

/-- Modelled from the spec: `Issue(numbers)` adds the numbers to both sets;
numbers already issued to this Nym are skipped; if a number is issued to a
different Nym at this Notary (`elsewhere`) the operation fails and the pool is
left as it is. -/
def Issue (p : TransactionNumberPool) (numbers elsewhere : List Int) :
    Except String TransactionNumberPool :=
  if numbers.any fun n => n ∈ elsewhere then
    .error "NumberAlreadyIssuedElsewhere"
  else
    .ok { issued := number_union p.issued (numbers.filter fun n => n ∉ p.issued)
          available := number_union p.available (numbers.filter fun n => n ∉ p.issued) }

/-- Modelled from the spec: `Reserve(count)` takes `count` numbers out of
`available` and leaves them in `issued`; it fails with `InsufficientNumbers` when
fewer are available.  The spec leaves the choice of the numbers open; the first
ones of the list are taken here. -/
def Reserve (p : TransactionNumberPool) (count : Nat) :
    Except String (List Int × TransactionNumberPool) :=
  if p.available.length < count then
    .error "InsufficientNumbers"
  else
    let chosen := p.available.take count
    .ok (chosen, { p with available := p.available.filter fun n => n ∉ chosen })

/-- Modelled from the spec: `Harvest(numbers, forRetry)` returns the numbers to
`available` if `forRetry`, and otherwise leaves them in `issued` as they are.
Harvest is a re-add of numbers the Nym holds (section 3: `available` is a subset
of `issued`, and a closed number never leaves that state): a number that is not
issued to this Nym, because it is closed or was never issued to it, is not
returned. -/
def Harvest (p : TransactionNumberPool) (numbers : List Int) (forRetry : Bool) :
    TransactionNumberPool :=
  if forRetry then
    { p with available := number_union p.available (numbers.filter fun n => n ∈ p.issued) }
  else p

/-- Modelled from the spec: `Close(number)` removes the number from `issued`, and
from `available` if still present. -/
def Close (p : TransactionNumberPool) (number : Int) : TransactionNumberPool :=
  { issued := p.issued.filter fun n => n ≠ number
    available := p.available.filter fun n => n ≠ number }

/-- Modelled from the spec: `Count` is the number of available numbers. -/
def Count (p : TransactionNumberPool) : Nat := p.available.length

end TransactionNumberPool

/-- One operation on a transaction-number pool. -/
inductive PoolOperation
  | Issue (numbers elsewhere : List Int)
  | Reserve (count : Nat)
  | Harvest (numbers : List Int) (forRetry : Bool)
  | Close (number : Int)
deriving DecidableEq, Repr

/-- The pool after an operation; an operation that fails leaves the pool as it
is. -/
def TransactionNumberPool.after (p : TransactionNumberPool) :
    PoolOperation → TransactionNumberPool
  | .Issue numbers elsewhere =>
    match p.Issue numbers elsewhere with
    | .ok q => q
    | .error _ => p
  | .Reserve count =>
    match p.Reserve count with
    | .ok (_, q) => q
    | .error _ => p
  | .Harvest numbers forRetry => p.Harvest numbers forRetry
  | .Close number => p.Close number

/-- The transaction numbers a sent message references: the opening numbers and
the closing numbers of the instrument it carries. -/
structure SentNumbers where
  opening : List Int
  closing : List Int
deriving DecidableEq, Repr

/-- Modelled from the spec: `OTAPI_Exec::Msg_HarvestTransactionNumbers` is only
declared under src/.  `THE_MESSAGE` is the sent message as far as it loads, `pool`
the pool of `NYM_ID` as far as the Nym is found; failing either is the error that
returns false.  Following section 4.3 of the spec: if the exchange failed at
message level (the reply was a failure, or no reply arrived and the message is
being retried) the opening and closing numbers are harvested; if the message
succeeded and the transaction failed, the opening numbers are harvested only if
confirmed unconsumed (`openingUnconsumed`) and the closing numbers only if this
Nym owns them; otherwise nothing is harvested.  The harvest is that of the pool
of `NYM_ID` (the header: the numbers are harvested "for NYM_ID"), which returns
to `available` the numbers issued to that Nym and no others. -/
def Msg_HarvestTransactionNumbers
    (THE_MESSAGE : Option SentNumbers) (pool : Option TransactionNumberPool)
    (bHarvestingForRetry bReplyWasSuccess bReplyWasFailure
      bTransactionWasSuccess bTransactionWasFailure : Bool)
    (openingUnconsumed : Bool) : Bool × Option TransactionNumberPool :=
  match THE_MESSAGE, pool with
  | some message, some p =>
    if bReplyWasFailure || (!bReplyWasSuccess && bHarvestingForRetry) then
      (true, some (p.Harvest (message.opening ++ message.closing) true))
    else if bReplyWasSuccess && bTransactionWasFailure then
      let opening := if openingUnconsumed then message.opening else []
      (true, some (p.Harvest (opening ++ message.closing.filter fun n => n ∈ p.issued) true))
    else if bReplyWasSuccess && bTransactionWasSuccess then
      (true, some p)
    else
      (true, some p)
  | _, _ => (false, pool)

/-! ## The incoming message buffer (spec, section 4.5) -/

/-- Modelled from the spec: `OTMessageBuffer::Pop`, which
`OTAPI_Exec::PopMessageBuffer` hands out, is not under src/.  The buffer is gone
through from its front: a reply whose notary ID or Nym ID does not match is kept
for its own waiter; a reply whose IDs match is returned, and removed, if its
request number is the expected one, and is discarded otherwise. -/
def OTMessageBuffer.Pop (ToLong : String → Int) (requestNumber : Int)
    (notaryID nymID : String) : List Message → Option Message × List Message
  | [] => (none, [])
  | m :: rest =>
    if m.m_strNotaryID ≠ notaryID ∨ m.m_strNymID ≠ nymID then
      let (found, kept) := OTMessageBuffer.Pop ToLong requestNumber notaryID nymID rest
      (found, m :: kept)
    else if ToLong m.m_strRequestNum = requestNumber then
      (some m, rest)
    else
      OTMessageBuffer.Pop ToLong requestNumber notaryID nymID rest

/-! ## The record list of the client (`src/client/OTRecordList.cpp`) -/

/-- An `OTLookupCaller`: the object itself, known by its address, and its
`_callback` pointer (`none` is `nullptr`). -/
structure OTLookupCaller where
  address : Nat
  _callback : Option Nat
deriving DecidableEq, Repr

namespace OTLookupCaller

/-- `OTLookupCaller::isCallbackSet` (lines 286-289). -/
def isCallbackSet (c : OTLookupCaller) : Bool :=
  if c._callback = none then false else true

/-- `OTLookupCaller::delCallback` (lines 250-262). -/
def delCallback (c : OTLookupCaller) : OTLookupCaller :=
  { c with _callback := none }

/-- `OTLookupCaller::setCallback` (lines 264-284). -/
def setCallback (c : OTLookupCaller) (cb : Option Nat) : OTLookupCaller :=
  match cb with
  | none => c
  | some _ =>
    let c := c.delCallback
    { c with _callback := cb }

end OTLookupCaller

/-- The members of `OTRecordList` the claims are about.  The record type
`OTRecord` is not under src/; the list is generic in it.  `m_assets` is a map
from instrument definition ID to name, kept as the list of its entries. -/
structure OTRecordList (R : Type) where
  m_servers : List String
  m_assets : List (String × String)
  m_accounts : List String
  m_nyms : List String
  m_contents : List R
  m_bRunFast : Bool
  m_bAutoAcceptCheques : Bool
  m_bAutoAcceptReceipts : Bool
  m_bAutoAcceptTransfers : Bool
  m_bAutoAcceptCash : Bool

namespace OTRecordList

variable {R : Type}

/-- The static `OTRecordList::setAddrBookCaller` (lines 361-397), on the static
pointer `s_pCaller` (`none` is `nullptr`): the value returned and the pointer
afterwards. -/
def setAddrBookCaller (s_pCaller : Option Nat) (theCaller : OTLookupCaller) :
    Bool × Option Nat :=
  if !theCaller.isCallbackSet then
    (false, s_pCaller)
  else
    let s_pCaller := some theCaller.address
    (true, s_pCaller)

/-- The static `OTRecordList::getAddrBookCaller` (line 399). -/
def getAddrBookCaller (s_pCaller : Option Nat) : Option Nat := s_pCaller

/-- `OTRecordList::ClearContents` (line 4566). -/
def ClearContents (r : OTRecordList R) : OTRecordList R :=
  { r with m_contents := [] }

/-- `OTRecordList::AddNotaryID` (lines 412-415). -/
def AddNotaryID (r : OTRecordList R) (str_id : String) : OTRecordList R :=
  { r with m_servers := r.m_servers ++ [str_id] }

/-- `OTRecordList::ClearServers` (lines 419-423). -/
def ClearServers (r : OTRecordList R) : OTRecordList R :=
  let r := r.ClearContents
  { r with m_servers := [] }

/-- `OTRecordList::SetNotaryID` (lines 404-408). -/
def SetNotaryID (r : OTRecordList R) (str_id : String) : OTRecordList R :=
  let r := r.ClearServers
  r.AddNotaryID str_id

/-- `OTRecordList::ClearAssets` (lines 467-471). -/
def ClearAssets (r : OTRecordList R) : OTRecordList R :=
  let r := r.ClearContents
  { r with m_assets := [] }

/-- `OTRecordList::AddNymID` (lines 479-482). -/
def AddNymID (r : OTRecordList R) (str_id : String) : OTRecordList R :=
  { r with m_nyms := r.m_nyms ++ [str_id] }

/-- `OTRecordList::ClearNyms` (lines 484-488). -/
def ClearNyms (r : OTRecordList R) : OTRecordList R :=
  let r := r.ClearContents
  { r with m_nyms := [] }

/-- `OTRecordList::SetNymID` (lines 473-477). -/
def SetNymID (r : OTRecordList R) (str_id : String) : OTRecordList R :=
  let r := r.ClearNyms
  r.AddNymID str_id

/-- `OTRecordList::AddAccountID` (lines 496-499). -/
def AddAccountID (r : OTRecordList R) (str_id : String) : OTRecordList R :=
  { r with m_accounts := r.m_accounts ++ [str_id] }

/-- `OTRecordList::ClearAccounts` (lines 501-505). -/
def ClearAccounts (r : OTRecordList R) : OTRecordList R :=
  let r := r.ClearContents
  { r with m_accounts := [] }

/-- `OTRecordList::SetAccountID` (lines 490-494). -/
def SetAccountID (r : OTRecordList R) (str_id : String) : OTRecordList R :=
  let r := r.ClearAccounts
  r.AddAccountID str_id

/-- `OTRecordList::AcceptChequesAutomatically` (lines 507-510). -/
def AcceptChequesAutomatically (r : OTRecordList R) (bVal : Bool) : OTRecordList R :=
  { r with m_bAutoAcceptCheques := bVal }

/-- `OTRecordList::AcceptReceiptsAutomatically` (lines 511-514). -/
def AcceptReceiptsAutomatically (r : OTRecordList R) (bVal : Bool) : OTRecordList R :=
  { r with m_bAutoAcceptReceipts := bVal }

/-- `OTRecordList::AcceptTransfersAutomatically` (lines 515-518). -/
def AcceptTransfersAutomatically (r : OTRecordList R) (bVal : Bool) : OTRecordList R :=
  { r with m_bAutoAcceptTransfers := bVal }

/-- `OTRecordList::AcceptCashAutomatically` (lines 519-522). -/
def AcceptCashAutomatically (r : OTRecordList R) (bVal : Bool) : OTRecordList R :=
  { r with m_bAutoAcceptCash := bVal }

/-- `OTRecordList::SortRecords` (lines 4381-4401).  `std::sort` is the standard
library's and `OTRecord::operator<` is not under src/; both are parameters
(`std.sort` below is the `std::sort` of the GNU C++ library).  The comparison
handed to `std::sort` is `comp(i, j) = (j < i)`. -/
def SortRecords (std_sort : (R → R → Bool) → List R → List R) (less : R → R → Bool)
    (r : OTRecordList R) : OTRecordList R :=
  { r with m_contents := std_sort (fun i j => less j i) r.m_contents }

end OTRecordList

/-- `OT_API_Set_AddrBookCallback` (lines 114-143), on the static pointer
`s_pCaller`: the value returned and the pointer afterwards. -/
def OT_API_Set_AddrBookCallback (s_pCaller : Option Nat) (theCaller : OTLookupCaller) :
    Bool × Option Nat :=
  if !theCaller.isCallbackSet then
    (false, s_pCaller)
  else
    let (bSuccess, s_pCaller) := OTRecordList.setAddrBookCaller s_pCaller theCaller
    (bSuccess, s_pCaller)

/-- What the C++ standard promises of `std::sort(first, last, comp)` for a
comparison that is a strict weak order: the result is a rearrangement of the
input in which no element compares before an element that precedes it.  The
order of equivalent elements is not promised to be kept. -/
def StdSortContract {R : Type} (std_sort : (R → R → Bool) → List R → List R) : Prop :=
  ∀ comp : R → R → Bool,
    (∀ a, comp a a = false) →
    (∀ a b c, comp a b = true → comp b c = true → comp a c = true) →
    (∀ a b c, comp a b = false → comp b c = false → comp a c = false) →
    ∀ l, (std_sort comp l).Perm l ∧ (std_sort comp l).Pairwise (fun a b => comp b a = false)

/-! ### `std::sort` as the GNU C++ library implements it

`std::sort` is not part of the repository.  It is modelled after `bits/stl_algo.h`
and `bits/stl_heap.h` of the GNU C++ library: a quicksort by the median of three
on the parts longer than 16 elements, which falls back to a heap sort when its
depth limit is used up, followed by an insertion sort of the whole sequence.  The
sequence is a list and an iterator is a position in it.  A loop of the source
that is not guarded against leaving the sequence (that would be undefined
behaviour, and does not happen when the comparison is a strict weak order) ends
here at the start or the end of the sequence. -/

namespace std

variable {R : Type}

/-- The comparison `comp(i, j)` of the elements at two positions of the sequence.
A position outside the sequence compares false. -/
def comp_at (comp : R → R → Bool) (l : List R) (i j : Nat) : Bool :=
  match l[i]?, l[j]? with
  | some a, some b => comp a b
  | _, _ => false

/-- The assignment `*dst = *src`. -/
def assign (l : List R) (dst src : Nat) : List R :=
  match l[src]? with
  | some value => l.set dst value
  | none => l

/-- `std::iter_swap(i, j)`. -/
def iter_swap (l : List R) (i j : Nat) : List R :=
  match l[i]?, l[j]? with
  | some a, some b => (l.set i b).set j a
  | _, _ => l

/-- The loop of `std::__lg`; the first argument bounds the number of rounds. -/
def lg_loop : Nat → Nat → Nat
  | 0, _ => 0
  | fuel + 1, n => if 2 ≤ n then lg_loop fuel (n / 2) + 1 else 0

/-- `std::__lg`: the floor of the binary logarithm. -/
def lg (n : Nat) : Nat := lg_loop n n

/-- `std::__move_median_to_first(result, a, b, c, comp)`. -/
def move_median_to_first (comp : R → R → Bool) (l : List R) (result a b c : Nat) : List R :=
  if comp_at comp l a b then
    if comp_at comp l b c then iter_swap l result b
    else if comp_at comp l a c then iter_swap l result c
    else iter_swap l result a
  else if comp_at comp l a c then iter_swap l result a
  else if comp_at comp l b c then iter_swap l result c
  else iter_swap l result b

/-- The loop `while (comp(first, pivot)) ++first` of `__unguarded_partition`; it
ends at the end of the sequence at the latest. -/
def partition_up (comp : R → R → Bool) (l : List R) (pivot : Nat) : Nat → Nat → Nat
  | 0, first => first
  | fuel + 1, first =>
    if comp_at comp l first pivot then partition_up comp l pivot fuel (first + 1) else first

/-- The loop `while (comp(pivot, last)) --last` of `__unguarded_partition`; it ends
at the start of the sequence at the latest. -/
def partition_down (comp : R → R → Bool) (l : List R) (pivot : Nat) : Nat → Nat
  | 0 => 0
  | last + 1 =>
    if comp_at comp l pivot (last + 1) then partition_down comp l pivot last else last + 1

/-- `std::__unguarded_partition(first, last, pivot, comp)`: the cut and the
sequence.  The first argument bounds the number of rounds of the outer loop; the
length of the sequence is enough. -/
def unguarded_partition (comp : R → R → Bool) (pivot : Nat) :
    Nat → List R → Nat → Nat → Nat × List R
  | 0, l, first, _ => (first, l)
  | fuel + 1, l, first, last =>
    let first := partition_up comp l pivot l.length first
    let last := last - 1
    let last := partition_down comp l pivot last
    if !(first < last) then (first, l)
    else unguarded_partition comp pivot fuel (iter_swap l first last) (first + 1) last

/-- `std::__unguarded_partition_pivot(first, last, comp)`. -/
def unguarded_partition_pivot (comp : R → R → Bool) (l : List R) (first last : Nat) :
    Nat × List R :=
  let mid := first + (last - first) / 2
  let l := move_median_to_first comp l first (first + 1) mid (last - 1)
  unguarded_partition comp first l.length l (first + 1) last

/-- `std::__push_heap(first, holeIndex, topIndex, value, comp)`.  The first
argument bounds the number of rounds of the loop; `holeIndex` is enough. -/
def push_heap (comp : R → R → Bool) (first topIndex : Nat) (value : R) :
    Nat → List R → Nat → List R
  | 0, l, holeIndex => l.set (first + holeIndex) value
  | fuel + 1, l, holeIndex =>
    let parent := (holeIndex - 1) / 2
    match l[first + parent]? with
    | some above =>
      if holeIndex > topIndex && comp above value then
        push_heap comp first topIndex value fuel (l.set (first + holeIndex) above) parent
      else l.set (first + holeIndex) value
    | none => l.set (first + holeIndex) value

/-- The first loop of `std::__adjust_heap`: the hole goes down to the larger
child while there are two children; the sequence, `holeIndex` and `secondChild`
when the loop ends. -/
def adjust_heap_down (comp : R → R → Bool) (first len : Nat) :
    Nat → List R → Nat → Nat → List R × Nat × Nat
  | 0, l, holeIndex, secondChild => (l, holeIndex, secondChild)
  | fuel + 1, l, holeIndex, secondChild =>
    if secondChild < (len - 1) / 2 then
      let secondChild := 2 * (secondChild + 1)
      let secondChild :=
        if comp_at comp l (first + secondChild) (first + (secondChild - 1)) then secondChild - 1
        else secondChild
      adjust_heap_down comp first len fuel (assign l (first + holeIndex) (first + secondChild))
        secondChild secondChild
    else (l, holeIndex, secondChild)

/-- `std::__adjust_heap(first, holeIndex, len, value, comp)`.  The lengths are
signed in the source: for `len = 0` the value of `(len - 2) / 2` is negative and
the second test fails. -/
def adjust_heap (comp : R → R → Bool) (l : List R) (first holeIndex len : Nat) (value : R) :
    List R :=
  let topIndex := holeIndex
  let down := adjust_heap_down comp first len len l holeIndex holeIndex
  let l := down.1
  let holeIndex := down.2.1
  let secondChild := down.2.2
  if len % 2 = 0 ∧ len ≠ 0 ∧ secondChild = (len - 2) / 2 then
    let secondChild := 2 * (secondChild + 1)
    let l := assign l (first + holeIndex) (first + (secondChild - 1))
    let holeIndex := secondChild - 1
    push_heap comp first topIndex value holeIndex l holeIndex
  else push_heap comp first topIndex value holeIndex l holeIndex

/-- `std::__pop_heap(first, last, result, comp)`. -/
def pop_heap (comp : R → R → Bool) (l : List R) (first last result : Nat) : List R :=
  match l[result]? with
  | some value => adjust_heap comp (assign l result first) first 0 (last - first) value
  | none => l

/-- The loop of `std::__make_heap` from `parent` down to 0. -/
def make_heap_from (comp : R → R → Bool) (first len : Nat) : Nat → List R → List R
  | 0, l =>
    match l[first]? with
    | some value => adjust_heap comp l first 0 len value
    | none => l
  | parent + 1, l =>
    match l[first + (parent + 1)]? with
    | some value => make_heap_from comp first len parent
        (adjust_heap comp l first (parent + 1) len value)
    | none => l

/-- `std::__make_heap(first, last, comp)`. -/
def make_heap (comp : R → R → Bool) (l : List R) (first last : Nat) : List R :=
  if last - first < 2 then l
  else
    let len := last - first
    make_heap_from comp first len ((len - 2) / 2) l

/-- The loop of `std::__sort_heap` on a heap of `n` elements. -/
def sort_heap_from (comp : R → R → Bool) (first : Nat) : Nat → List R → List R
  | 0, l => l
  | n + 1, l =>
    if n + 1 > 1 then
      sort_heap_from comp first n (pop_heap comp l first (first + n) (first + n))
    else l

/-- `std::__sort_heap(first, last, comp)`. -/
def sort_heap (comp : R → R → Bool) (l : List R) (first last : Nat) : List R :=
  sort_heap_from comp first (last - first) l

/-- `std::__heap_select(first, middle, last, comp)`. -/
def heap_select (comp : R → R → Bool) (l : List R) (first middle last : Nat) : List R :=
  let l := make_heap comp l first middle
  (List.range' middle (last - middle)).foldl
    (fun l i => if comp_at comp l i first then pop_heap comp l first middle i else l) l

/-- `std::__partial_sort(first, middle, last, comp)`. -/
def partial_sort_range (comp : R → R → Bool) (l : List R) (first middle last : Nat) : List R :=
  let l := heap_select comp l first middle last
  sort_heap comp l first middle

/-- `std::__introsort_loop(first, last, depth_limit, comp)`, with
`_S_threshold = 16`.  After the call for the part from the cut on, the loop goes
on with the part before the cut and the same `depth_limit`. -/
def introsort_loop (comp : R → R → Bool) : Nat → List R → Nat → Nat → List R
  | 0, l, first, last =>
    if last - first > 16 then partial_sort_range comp l first last last else l
  | depth_limit + 1, l, first, last =>
    if last - first > 16 then
      let cut := unguarded_partition_pivot comp l first last
      let l := introsort_loop comp depth_limit cut.2 cut.1 last
      introsort_loop comp depth_limit l first cut.1
    else l

/-- `std::__unguarded_linear_insert(last, comp)` with `val` taken out of the
sequence: the elements before `last` that `val` compares before go up by one
place, and `val` is put below them.  It ends at the start of the sequence at the
latest. -/
def unguarded_linear_insert_value (comp : R → R → Bool) (val : R) : List R → Nat → List R
  | l, 0 => l.set 0 val
  | l, next + 1 =>
    match l[next]? with
    | some below =>
      if comp val below then unguarded_linear_insert_value comp val (l.set (next + 1) below) next
      else l.set (next + 1) val
    | none => l.set (next + 1) val

/-- `std::__unguarded_linear_insert(last, comp)`. -/
def unguarded_linear_insert (comp : R → R → Bool) (l : List R) (last : Nat) : List R :=
  match l[last]? with
  | some val => unguarded_linear_insert_value comp val l last
  | none => l

/-- The first branch of the loop of `std::__insertion_sort`: the element at `i`
is taken out, the elements from `first` up to `i` go up by one place, and it is
put at `first`. -/
def move_to_first (l : List R) (first i : Nat) : List R :=
  match l[i]? with
  | some val => l.take first ++ val :: ((l.drop first).take (i - first) ++ l.drop (i + 1))
  | none => l

/-- `std::__insertion_sort(first, last, comp)`. -/
def insertion_sort (comp : R → R → Bool) (l : List R) (first last : Nat) : List R :=
  if first = last then l
  else
    (List.range' (first + 1) (last - (first + 1))).foldl
      (fun l i =>
        if comp_at comp l i first then move_to_first l first i
        else unguarded_linear_insert comp l i) l

/-- `std::__unguarded_insertion_sort(first, last, comp)`. -/
def unguarded_insertion_sort (comp : R → R → Bool) (l : List R) (first last : Nat) : List R :=
  (List.range' first (last - first)).foldl (fun l i => unguarded_linear_insert comp l i) l

/-- `std::__final_insertion_sort(first, last, comp)`. -/
def final_insertion_sort (comp : R → R → Bool) (l : List R) (first last : Nat) : List R :=
  if last - first > 16 then
    let l := insertion_sort comp l first (first + 16)
    unguarded_insertion_sort comp l (first + 16) last
  else insertion_sort comp l first last

/-- `std::sort(first, last, comp)` on the whole sequence (`std::__sort`). -/
def sort (comp : R → R → Bool) (l : List R) : List R :=
  if l.length ≠ 0 then
    let l := introsort_loop comp (lg l.length * 2) l 0 l.length
    final_insertion_sort comp l 0 l.length
  else l

end std

/-! ### `OTRecordList::PerformAutoAccept` -/

/-- The payment types in the order of the table `Instrument_TypeStrings`; the
enumeration `OTPayment::paymentType` itself is not under src/. -/
inductive paymentType
  | CHEQUE
  | VOUCHER
  | INVOICE
  | PAYMENT_PLAN
  | SMART_CONTRACT
  | PURSE
  | NOTICE
  | ERROR_STATE
deriving DecidableEq, Repr

/-- The value of a payment type as an integer (`static_cast<int32_t>`). -/
def paymentType.toNat : paymentType → Nat
  | .CHEQUE => 0
  | .VOUCHER => 1
  | .INVOICE => 2
  | .PAYMENT_PLAN => 3
  | .SMART_CONTRACT => 4
  | .PURSE => 5
  | .NOTICE => 6
  | .ERROR_STATE => 7

/-- The table `Instrument_TypeStrings` (lines 79-95). -/
def Instrument_TypeStrings : List String :=
  ["cheque", "voucher", "invoice", "payment plan", "smart contract", "cash", "agreement",
   "ERROR_STATE"]

/-- `GetTypeString` (lines 97-100). -/
def GetTypeString (theType : Nat) : String :=
  Instrument_TypeStrings.getD theType ""

/-- An `OTPayment` as far as `PerformAutoAccept` reads it: the results of
`IsValid`, `SetTempValues`, `GetInstrumentDefinitionID`, `GetType`,
`GetPaymentContents`, `GetTransactionNum` and `GetTransNumDisplay`. -/
structure OTPayment where
  IsValid : Bool
  SetTempValues : Bool
  GetInstrumentDefinitionID : Option String
  GetType : paymentType
  GetPaymentContents : Option String
  GetTransactionNum : Option Int
  GetTransNumDisplay : Option Int
deriving DecidableEq, Repr

/-- A payment put on the acceptance list: its index in the payments inbox, the
transaction number of its box receipt, and the payment. -/
structure QueuedPayment where
  nIndex : Nat
  lPaymentBoxTransNum : Int
  payment : OTPayment
deriving DecidableEq, Repr

/-- A loaded payments inbox: for every receipt, in the order of the transaction
map, its transaction number and what `GetInstrument` gives for its index
(`none` is `nullptr`). -/
abbrev PaymentInbox := List (Int × Option OTPayment)

/-- A loaded account as far as `PerformAutoAccept` reads it. -/
structure Account where
  GetNymID : String
  GetPurportedNotaryID : String
  GetInstrumentDefinitionID : String
  GetTypeString : String
deriving DecidableEq, Repr

/-- A transaction of an asset account inbox: whether its type is
`OTTransaction::pending`, and its text. -/
structure InboxTransaction where
  isPending : Bool
  str_trans : String
deriving DecidableEq, Repr

/-- A loaded asset account inbox: its text and its transactions in the order of
the transaction map. -/
structure AccountInbox where
  str_inbox : String
  transactions : List InboxTransaction
deriving DecidableEq, Repr

/-- The calls `PerformAutoAccept` makes into the OT API in its asset-account
pass, with their arguments. -/
inductive ApiCall
  | make_sure_enough_trans_nums (nNumberNeeded : Nat) (notary nym : String)
  | Ledger_CreateResponse (notary nym account inbox : String)
  | Transaction_CreateResponse (notary nym account ledger trans : String) (accept : Bool)
  | Ledger_FinalizeResponse (notary nym account ledger : String)
  | process_inbox (notary nym account ledger : String)
  | InterpretTransactionMsgReply (notary nym account attempt response : String)
  | retrieve_account (notary nym account : String) (bForceDownload : Bool)
deriving DecidableEq, Repr

/-- The OT API and the wallet as `PerformAutoAccept` uses them; none of it is
under src/, so what each call gives back is a parameter. -/
structure OTAPI where
  GetNym : String → Bool
  Server : String → Bool
  LoadPaymentInbox : Bool → String → String → Option PaymentInbox
  GetAccount : String → Option Account
  LoadInbox : Bool → String → String → String → Option AccountInbox
  make_sure_enough_trans_nums : Nat → String → String → Bool
  Ledger_CreateResponse : String → String → String → String → String
  Transaction_CreateResponse : String → String → String → String → String → Bool → String
  Ledger_FinalizeResponse : String → String → String → String → String
  process_inbox : String → String → String → String → String
  InterpretTransactionMsgReply : String → String → String → String → String → Int
  retrieve_account : String → String → String → Bool → Bool

namespace OTRecordList

variable {R : Type}

/-- The test of lines 661-692: a payment with an instrument definition is gone on
with only if that instrument definition is on the map `m_assets`. -/
def asset_cared_about (r : OTRecordList R) (payment : OTPayment) : Bool :=
  match payment.GetInstrumentDefinitionID with
  | some str_inpmt_asset => (r.m_assets.find? fun it => it.1 == str_inpmt_asset).isSome
  | none => true

/-- The test of lines 717-721 on the type string of a payment. -/
def type_enabled (r : OTRecordList R) (str_type : String) : Bool :=
  (r.m_bAutoAcceptCheques && (str_type == "cheque" || str_type == "voucher")) ||
    (r.m_bAutoAcceptCash && str_type == "cash")

/-- The body of the loop over a payments inbox (lines 637-744) for one receipt:
the payment to put on the acceptance list, if any. -/
def payment_to_accept (r : OTRecordList R) (pPayment : Option OTPayment) : Option OTPayment :=
  match pPayment with
  | none => none
  | some payment =>
    if payment.IsValid && payment.SetTempValues then
      if !r.asset_cared_about payment then none
      else
        let nType := payment.GetType.toNat
        let str_type := GetTypeString nType
        if r.type_enabled str_type then some payment else none
    else none

/-- The loop over a loaded payments inbox (lines 628-745): the acceptance list
`thePaymentMap`, with the box transaction numbers of `mapPaymentBoxTransNum`, in
the order of the index. -/
def payment_queue (r : OTRecordList R) (inbox : PaymentInbox) : List QueuedPayment :=
  inbox.enum.filterMap fun entry =>
    match r.payment_to_accept entry.2.2 with
    | some payment => some ⟨entry.1, entry.2.1, payment⟩
    | none => none

/-- The payments part of `PerformAutoAccept` up to the acceptance lists (lines
569-745): for every Nym and server of the lists that the wallet knows, the
acceptance list of the payments inbox, if it loads. -/
def PerformAutoAccept_payment_queues (api : OTAPI) (r : OTRecordList R) :
    List (String × String × List QueuedPayment) :=
  if r.m_bAutoAcceptCheques || r.m_bAutoAcceptCash then
    r.m_nyms.flatMap fun str_nym_id =>
      if !api.GetNym str_nym_id then []
      else
        r.m_servers.flatMap fun str_notary_id =>
          if !api.Server str_notary_id then []
          else
            match api.LoadPaymentInbox r.m_bRunFast str_notary_id str_nym_id with
            | some inbox => [(str_nym_id, str_notary_id, r.payment_queue inbox)]
            | none => [(str_nym_id, str_notary_id, [])]
  else []

/-- The local variables of the loop over an asset account inbox, and the API
calls made so far. -/
structure InboxLoop where
  bFoundAnyToAccept : Bool
  strResponseLedger : String
  calls : List ApiCall
deriving DecidableEq, Repr

/-- The body of the loop over an asset account inbox (lines 1037-1113) for one
transaction.  Each `continue` of the source ends the body for this
transaction. -/
def inbox_step (api : OTAPI) (r : OTRecordList R)
    (str_notary_id str_nym_id str_account_id str_inbox : String)
    (st : InboxLoop) (pBoxTrans : InboxTransaction) : InboxLoop :=
  let bIsTransfer := pBoxTrans.isPending
  let bIsReceipt := !bIsTransfer
  if (r.m_bAutoAcceptReceipts && bIsReceipt) || (r.m_bAutoAcceptTransfers && bIsTransfer) then
    let first : InboxLoop × Bool :=
      if !st.bFoundAnyToAccept then
        let st := { st with bFoundAnyToAccept := true }
        let st := { st with calls := st.calls ++
          [.make_sure_enough_trans_nums 20 str_notary_id str_nym_id] }
        if !api.make_sure_enough_trans_nums 20 str_notary_id str_nym_id then
          (st, false)
        else
          let st := { st with
            strResponseLedger :=
              api.Ledger_CreateResponse str_notary_id str_nym_id str_account_id str_inbox
            calls := st.calls ++
              [.Ledger_CreateResponse str_notary_id str_nym_id str_account_id str_inbox] }
          if st.strResponseLedger.isEmpty then (st, false) else (st, true)
      else (st, true)
    let st := first.1
    if !first.2 then st
    else
      let str_trans := pBoxTrans.str_trans
      let strNEW_ResponseLEDGER :=
        api.Transaction_CreateResponse str_notary_id str_nym_id str_account_id
          st.strResponseLedger str_trans true
      let st := { st with calls := st.calls ++
        [.Transaction_CreateResponse str_notary_id str_nym_id str_account_id
          st.strResponseLedger str_trans true] }
      if strNEW_ResponseLEDGER.isEmpty then st
      else { st with strResponseLedger := strNEW_ResponseLEDGER }
  else st

/-- The processing of one loaded asset account inbox (lines 1030-1166): the loop
over its transactions and then the sending of the response; the result is the
sequence of API calls made. -/
def accept_account_inbox (api : OTAPI) (r : OTRecordList R)
    (str_notary_id str_nym_id str_account_id : String) (inbox : AccountInbox) :
    List ApiCall :=
  let st : InboxLoop := ⟨false, "", []⟩
  let st := inbox.transactions.foldl
    (inbox_step api r str_notary_id str_nym_id str_account_id inbox.str_inbox) st
  if st.bFoundAnyToAccept && !st.strResponseLedger.isEmpty then
    let strFinalizedResponse :=
      api.Ledger_FinalizeResponse str_notary_id str_nym_id str_account_id st.strResponseLedger
    let calls := st.calls ++
      [.Ledger_FinalizeResponse str_notary_id str_nym_id str_account_id st.strResponseLedger]
    if strFinalizedResponse.isEmpty then calls
    else
      let strResponse :=
        api.process_inbox str_notary_id str_nym_id str_account_id strFinalizedResponse
      let calls := calls ++
        [.process_inbox str_notary_id str_nym_id str_account_id strFinalizedResponse]
      let strAttempt := "process_inbox"
      let nInterpretReply :=
        api.InterpretTransactionMsgReply str_notary_id str_nym_id str_account_id
          strAttempt strResponse
      let calls := calls ++
        [.InterpretTransactionMsgReply str_notary_id str_nym_id str_account_id
          strAttempt strResponse]
      if nInterpretReply = 1 then
        calls ++ [.retrieve_account str_notary_id str_nym_id str_account_id true]
      else calls
  else st.calls

/-- The asset-account pass of `PerformAutoAccept` (lines 942-1166): for every
account of the list, the API calls made for it. -/
def PerformAutoAccept_accounts (api : OTAPI) (r : OTRecordList R) :
    List (String × List ApiCall) :=
  if r.m_bAutoAcceptReceipts || r.m_bAutoAcceptTransfers then
    r.m_accounts.flatMap fun str_account_id =>
      match api.GetAccount str_account_id with
      | none => []
      | some pAccount =>
        let str_nym_id := pAccount.GetNymID
        let str_notary_id := pAccount.GetPurportedNotaryID
        let str_instrument_definition_id := pAccount.GetInstrumentDefinitionID
        if str_nym_id ∉ r.m_nyms ∨ str_notary_id ∉ r.m_servers ∨
            (r.m_assets.find? fun it => it.1 == str_instrument_definition_id).isNone then []
        else
          match api.LoadInbox r.m_bRunFast str_notary_id str_nym_id str_account_id with
          | none => []
          | some inbox =>
            [(str_account_id,
              r.accept_account_inbox api str_notary_id str_nym_id str_account_id inbox)]
  else []

end OTRecordList

/-! ## `str_dup2` (`src/core/util/StringUtils.cpp`) -/

/-- The characters of the C string that starts a region of memory: the bytes
before the first zero byte. -/
def c_str (memory : List Nat) : List Nat := memory.takeWhile fun b => b ≠ 0

/-- The library's `strncpy(dest, src, n)`: the first `n` bytes of `dest` become the
characters of the C string `src`, cut off after `n` or filled up with zero bytes
to `n`.  `none` when `dest` has fewer than `n` bytes, which the C standard leaves
undefined. -/
def strncpy (dest src : List Nat) (n : Nat) : Option (List Nat) :=
  if n ≤ dest.length then
    let copied := (c_str src).take n
    some (copied ++ List.replicate (n - copied.length) 0 ++ dest.drop n)
  else none

/-- `str_dup2` (lines 59-92).  `str` is the memory the argument points to and
`length` the `uint32_t` argument; `length + 1` is computed in 32 bits.  The new
array holds whatever `junk` its bytes held before.  The result is the new array,
or `none` when a write goes beyond it. -/
def str_dup2 (junk : Nat) (str : List Nat) (length : Nat) : Option (List Nat) :=
  let str_new := List.replicate ((length + 1) % 2 ^ 32) junk
  match strncpy str_new str length with
  | none => none
  | some str_new =>
    if length < str_new.length then some (str_new.set length 0) else none

/-! ### The deposits of `PerformAutoAccept` and the amounts of `Populate` -/

/-- The OT API with the call the payments part of `PerformAutoAccept` makes to
deposit a payment: `accept_from_paymentbox_overload` gives back whether it
succeeded and the server's response. -/
structure OTAPI_Deposits extends OTAPI where
  accept_from_paymentbox_overload : String → String → String → Bool × String

/-- The calls the payments part of `PerformAutoAccept` makes to deposit a payment,
with their arguments. -/
inductive DepositCall
  | accept_from_paymentbox_overload (account indices purpose : String)
  | notifyOfSuccessfulNotarization (account nym notary response : String)
      (lTransactionNum lTransNumForDisplay : Int)
deriving DecidableEq, Repr

/-- Whether a call is a deposit attempt. -/
def DepositCall.isDeposit : DepositCall → Bool
  | .accept_from_paymentbox_overload _ _ _ => true
  | .notifyOfSuccessfulNotarization _ _ _ _ _ _ => false

/-- Whether a call of the asset-account pass is `Ledger_FinalizeResponse`. -/
def ApiCall.isFinalize : ApiCall → Bool
  | .Ledger_FinalizeResponse _ _ _ _ => true
  | _ => false

/-- Whether a call of the asset-account pass is one the loop over the inbox makes
(`make_sure_enough_trans_nums`, `Ledger_CreateResponse`,
`Transaction_CreateResponse`). -/
def ApiCall.isLoopCall : ApiCall → Bool
  | .make_sure_enough_trans_nums _ _ _ => true
  | .Ledger_CreateResponse _ _ _ _ => true
  | .Transaction_CreateResponse _ _ _ _ _ _ => true
  | _ => false

namespace OTRecordList

variable {R : Type}

/-- The condition of lines 867-873 on an account of the list: it is in the
wallet, is owned by the Nym, is on the server, has the instrument definition of
the payment and is of type `user`.  `String::Compare` is not under src/; it is
taken to be equality of the texts. -/
def account_qualifies (api : OTAPI_Deposits)
    (str_nym_id str_notary_id str_instrument_definition_id str_account_id : String) : Bool :=
  match api.GetAccount str_account_id with
  | none => false
  | some pAccount =>
    pAccount.GetNymID == str_nym_id &&
    pAccount.GetPurportedNotaryID == str_notary_id &&
    pAccount.GetInstrumentDefinitionID == str_instrument_definition_id &&
    pAccount.GetTypeString == "user"

/-- The loop over the accounts that picks one to deposit a payment into (lines
825-927): an account missing from the wallet or not meeting the condition is
passed over; at the first that meets it the deposit is attempted, the lookup is
notified if it succeeds, and the loop is left. -/
def deposit_into_accounts (api : OTAPI_Deposits)
    (str_nym_id str_notary_id str_instrument_definition_id : String) (q : QueuedPayment) :
    List String → List DepositCall
  | [] => []
  | str_account_id :: rest =>
    match api.GetAccount str_account_id with
    | none =>
      deposit_into_accounts api str_nym_id str_notary_id str_instrument_definition_id q rest
    | some pAccount =>
      if pAccount.GetNymID == str_nym_id &&
          pAccount.GetPurportedNotaryID == str_notary_id &&
          pAccount.GetInstrumentDefinitionID == str_instrument_definition_id &&
          pAccount.GetTypeString == "user" then
        let str_indices := toString q.nIndex
        let accepted := api.accept_from_paymentbox_overload str_account_id str_indices "ANY"
        let str_server_response := accepted.2
        if !accepted.1 then
          [.accept_from_paymentbox_overload str_account_id str_indices "ANY"]
        else
          let temp_trans_number : Int :=
            match q.payment.GetTransactionNum with
            | some temp_number => temp_number
            | none => 0
          let temp_display_number : Int :=
            match q.payment.GetTransNumDisplay with
            | some temp_number => temp_number
            | none => 0
          let display_number :=
            if temp_display_number > 0 then temp_display_number else temp_trans_number
          let display_number :=
            if display_number ≤ 0 then q.lPaymentBoxTransNum else display_number
          [.accept_from_paymentbox_overload str_account_id str_indices "ANY",
           .notifyOfSuccessfulNotarization str_account_id pAccount.GetNymID
             pAccount.GetPurportedNotaryID str_server_response q.lPaymentBoxTransNum
             display_number]
      else
        deposit_into_accounts api str_nym_id str_notary_id str_instrument_definition_id q rest

/-- The body of the loop over the acceptance list (lines 762-928) for one queued
payment: the calls made for it. -/
def deposit_payment (api : OTAPI_Deposits) (r : OTRecordList R)
    (str_nym_id str_notary_id : String) (q : QueuedPayment) : List DepositCall :=
  match q.payment.GetPaymentContents with
  | none => []
  | some _ =>
    let str_instrument_definition_id :=
      match q.payment.GetInstrumentDefinitionID with
      | some id => id
      | none => ""
    if str_instrument_definition_id.isEmpty then []
    else
      deposit_into_accounts api str_nym_id str_notary_id str_instrument_definition_id q
        r.m_accounts

/-- The loop over the acceptance list of one payments inbox (lines 756-929), from
its last entry to its first: for every queued payment, in the order they are
gone through, its index and the calls made for it. -/
def deposit_queue (api : OTAPI_Deposits) (r : OTRecordList R)
    (str_nym_id str_notary_id : String) (thePaymentMap : List QueuedPayment) :
    List (Nat × List DepositCall) :=
  thePaymentMap.reverse.map fun q =>
    (q.nIndex, r.deposit_payment api str_nym_id str_notary_id q)

/-- The payments part of `PerformAutoAccept` (lines 569-938): for every Nym and
server of the lists that the wallet knows, what is done with the acceptance list
of the payments inbox. -/
def PerformAutoAccept_payments (api : OTAPI_Deposits) (r : OTRecordList R) :
    List (String × String × List (Nat × List DepositCall)) :=
  (r.PerformAutoAccept_payment_queues api.toOTAPI).map fun entry =>
    (entry.1, entry.2.1, r.deposit_queue api entry.1 entry.2.1 entry.2.2)

end OTRecordList

/-- A value brought into the range of `int64_t`. -/
def int64 (x : Int) : Int := (x + 2 ^ 63) % 2 ^ 64 - 2 ^ 63

/-- The amount of an outbox transaction as `OTRecordList::Populate` computes it
(lines 3786-3791), from what `GetAbbrevDisplayAmount` and `GetReceiptAmount`
give. -/
def outbox_lAmount (GetAbbrevDisplayAmount GetReceiptAmount : Int) : Int :=
  let lAmount := GetAbbrevDisplayAmount
  let lAmount := if 0 = lAmount then GetReceiptAmount else lAmount
  if lAmount > 0 then int64 (lAmount * (-1)) else lAmount

/-- The amount string of an outbox transaction as `OTRecordList::Populate` makes
it (lines 3785-3796).  `String::Format` with `PRId64` is not under src/; it gives
the decimal form of the number. -/
def outbox_str_amount (GetAbbrevDisplayAmount GetReceiptAmount : Int) : String :=
  let str_amount := ""
  let lAmount := outbox_lAmount GetAbbrevDisplayAmount GetReceiptAmount
  if 0 ≠ lAmount then toString lAmount else str_amount

/-! ## Concrete data used by the examples of the later sections -/

/-- A storage driver for the examples: a hash is good when it is not empty, the
write lock is the mutex 1, every index validates, and storing succeeds under the
key `stored`. -/
def exampleDriver : storage.Driver :=
  { check_hash := fun hash => !hash.isEmpty
    BLANK_HASH := "blank"
    verify_write_lock := fun lock => lock.mutex == 1 && lock.owns_lock
    Validate := fun _ => true
    LoadProto := fun _ => none
    StoreProto := fun _ _ => (true, "stored") }

/-- A unit index with one good entry and one entry without a hash. -/
def exampleUnits : storage.Units :=
  { version_ := 2, root_ := "root",
    item_map_ := [("unitA", ⟨"hashA", "dollars", 0, false⟩), ("unitB", ⟨"", "", 0, false⟩)] }

/-- A pool with the numbers 5, 6 and 7 issued, of which 5 is in use. -/
def examplePool : TransactionNumberPool := ⟨[5, 6, 7], [6, 7]⟩

/-- A buffered reply with the given notary ID, Nym ID and request number. -/
def exampleReply (notaryID nymID requestNum : String) : Message :=
  { blankMessage with
    m_strNotaryID := notaryID, m_strNymID := nymID, m_strRequestNum := requestNum }

/-- Reads the request numbers 7 and 8 of the examples. -/
def exampleToLong (s : String) : Int := if s = "7" then 7 else if s = "8" then 8 else 0

/-- Records for the examples: an identifier and a date; a record is less than
another when its date is earlier. -/
def exampleLess (a b : Nat × Nat) : Bool := decide (a.2 < b.2)

/-- A record list that accepts everything automatically, for the Nym `alice`, the
server `notary1`, the asset `usd` and the account `acct1`, with two records of
the same date. -/
def exampleRecordList : OTRecordList (Nat × Nat) :=
  { m_servers := ["notary1"], m_assets := [("usd", "USD")], m_accounts := ["acct1"],
    m_nyms := ["alice"], m_contents := [(1, 10), (2, 10)], m_bRunFast := false,
    m_bAutoAcceptCheques := true, m_bAutoAcceptReceipts := true,
    m_bAutoAcceptTransfers := true, m_bAutoAcceptCash := true }

/-- The record list of the examples with seventeen records of the same date. -/
def exampleTiedList : OTRecordList (Nat × Nat) :=
  { exampleRecordList with
    m_contents :=
      [(1, 10), (2, 10), (3, 10), (4, 10), (5, 10), (6, 10), (7, 10), (8, 10), (9, 10),
       (10, 10), (11, 10), (12, 10), (13, 10), (14, 10), (15, 10), (16, 10), (17, 10)] }

/-- The record list of the examples with three records of different dates. -/
def exampleDatedList : OTRecordList (Nat × Nat) :=
  { exampleRecordList with m_contents := [(1, 10), (2, 30), (3, 20)] }

/-- A valid cheque in `usd`. -/
def exampleCheque : OTPayment :=
  { IsValid := true, SetTempValues := true, GetInstrumentDefinitionID := some "usd",
    GetType := .CHEQUE, GetPaymentContents := some "cheque", GetTransactionNum := some 41,
    GetTransNumDisplay := none }

/-- An OT API for the examples: the wallet holds `alice`, `notary1` and the
account `acct1`; no transaction numbers can be had
(`make_sure_enough_trans_nums` fails); a response ledger is made from an inbox
and grows by the transaction responded to, except that nothing can be added to
an empty ledger; the account inbox holds two receipts. -/
def exampleApi : OTAPI :=
  { GetNym := fun id => id == "alice"
    Server := fun id => id == "notary1"
    LoadPaymentInbox := fun _ _ _ => some [(101, some exampleCheque), (102, none)]
    GetAccount := fun id =>
      if id = "acct1" then some ⟨"alice", "notary1", "usd", "user"⟩ else none
    LoadInbox := fun _ _ _ _ =>
      some ⟨"inbox", [⟨false, "receipt1"⟩, ⟨false, "receipt2"⟩]⟩
    make_sure_enough_trans_nums := fun _ _ _ => false
    Ledger_CreateResponse := fun _ _ _ inbox => "response to " ++ inbox
    Transaction_CreateResponse := fun _ _ _ ledger trans _ =>
      if ledger = "" then "" else ledger ++ " + " ++ trans
    Ledger_FinalizeResponse := fun _ _ _ ledger => "final " ++ ledger
    process_inbox := fun _ _ _ _ => "reply"
    InterpretTransactionMsgReply := fun _ _ _ _ _ => 1
    retrieve_account := fun _ _ _ _ => true }

/-- An OT API for the examples of the deposits: as `exampleApi`, with a second
account `acct2` of `alice` and every deposit succeeding. -/
def exampleDepositApi : OTAPI_Deposits :=
  { exampleApi with
    GetAccount := fun id =>
      if id = "acct1" then some ⟨"alice", "notary1", "usd", "user"⟩
      else if id = "acct2" then some ⟨"alice", "notary1", "usd", "user"⟩
      else if id = "issuer" then some ⟨"alice", "notary1", "usd", "issuer"⟩
      else none
    LoadPaymentInbox := fun _ _ _ =>
      some [(101, some exampleCheque), (102, none), (103, some exampleCheque)]
    accept_from_paymentbox_overload := fun _ _ _ => (true, "deposited") }

/-- The record list of the examples with the accounts `gone` (not in the wallet),
`issuer`, `acct1` and `acct2`. -/
def exampleDepositList : OTRecordList (Nat × Nat) :=
  { exampleRecordList with m_accounts := ["gone", "issuer", "acct1", "acct2"] }

/-- An OT API for the examples of the asset-account pass: as `exampleApi`, with
transaction numbers to be had and with the server's reply to `process_inbox`
read as a failure, so that the inbox is left as it was. -/
def exampleRefusingApi : OTAPI :=
  { exampleApi with
    make_sure_enough_trans_nums := fun _ _ _ => true
    InterpretTransactionMsgReply := fun _ _ _ _ _ => 0 }

/-- A stored unit index of version 1 with one entry. -/
def exampleStoredUnits : storage.StorageUnits := ⟨1, [⟨1, "unitA", "hashA", "dollars"⟩]⟩

/-- A storage driver that holds `exampleStoredUnits` under the hash `root`. -/
def exampleLoadingDriver : storage.Driver :=
  { exampleDriver with
    LoadProto := fun hash => if hash = "root" then some exampleStoredUnits else none }

/-- A node as `Node(storage, hash)` leaves it: version 0 and nothing in the map. -/
def exampleNode : storage.Units := ⟨0, "", []⟩

/-! ## Lemmas on the command tables and on the two whitelists -/

theorem type_of_command (t : MessageType) : Message.Type (Message.Command t) = t := by
  cases t <;> decide

theorem message_names_consistent :
    ∀ p ∈ Message.message_names, p.1 ≠ .badID ∧ Message.Command p.1 = p.2 := by decide

theorem command_of_type (command : String)
    (h : Message.Type command ≠ .badID) :
    Message.Command (Message.Type command) = command := by
  unfold Message.Type at h ⊢
  cases hf : Message.message_names.find? (fun p => p.2 == command) with
  | none => rw [hf] at h; exact absurd rfl h
  | some p =>
    have hmem := List.mem_of_find?_eq_some hf
    have hp := List.find?_some hf
    have hcmd : p.2 = command := by simpa using hp
    simp only []
    rw [(message_names_consistent p hmem).2, hcmd]

theorem attached_commands_known :
    ∀ c ∈ attached_commands, Message.Type c ≠ .badID := by decide

theorem ReplyMessage.attach_request_eq (r : ReplyMessage) :
    r.attach_request =
      if r.original_.m_strCommand ∈ attached_commands then
        { r with message_ :=
            { r.message_ with
              m_ascInReferenceTo := OTASCIIArmor.SetString r.original_.asString } }
      else r := by
  have hc := command_of_type r.original_.m_strCommand
  have hk := attached_commands_known r.original_.m_strCommand
  unfold ReplyMessage.attach_request
  dsimp only
  generalize r.original_.m_strCommand = c at hc hk ⊢
  generalize Message.Type c = t at hc hk ⊢
  cases t
  case badID =>
    have hn : c ∉ attached_commands := fun hmem => hk hmem rfl
    rw [if_neg hn]
  all_goals
    have hcmd := hc (by simp)
    subst hcmd
    first
      | rw [if_pos (by decide)]
      | rw [if_neg (by decide)]

theorem stripped_commands_known :
    ∀ c ∈ stripped_commands, Message.Type c ≠ .badID := by decide

theorem ReplyMessage.clear_request_eq (r : ReplyMessage) :
    r.clear_request =
      if r.original_.m_strCommand ∈ stripped_commands then
        { r with message_ :=
            { r.message_ with m_ascInReferenceTo := OTASCIIArmor.Release } }
      else r := by
  have hc := command_of_type r.original_.m_strCommand
  have hk := stripped_commands_known r.original_.m_strCommand
  unfold ReplyMessage.clear_request
  dsimp only
  generalize r.original_.m_strCommand = c at hc hk ⊢
  generalize Message.Type c = t at hc hk ⊢
  cases t
  case badID =>
    have hn : c ∉ stripped_commands := fun hmem => hk hmem rfl
    rw [if_neg hn]
  all_goals
    have hcmd := hc (by simp)
    subst hcmd
    first
      | rw [if_pos (by decide)]
      | rw [if_neg (by decide)]

theorem ReplyMessage.attach_request_original (r : ReplyMessage) :
    r.attach_request.original_ = r.original_ := by
  rw [ReplyMessage.attach_request_eq]; split <;> rfl

theorem ReplyMessage.ctor_original (E : Env) (notaryID : Identifier) (signer : Nym)
    (input : Message) (server : OTServer) (type : MessageType) (output : Message) :
    (ReplyMessage.ctor E notaryID signer input server type output).original_ = input := by
  simp only [ReplyMessage.ctor, ReplyMessage.attach_request_original]

theorem ReplyMessage.ctor_in_reference_to (E : Env) (notaryID : Identifier) (signer : Nym)
    (input : Message) (server : OTServer) (type : MessageType) (output : Message) :
    (ReplyMessage.ctor E notaryID signer input server type output).message_.m_ascInReferenceTo =
      if input.m_strCommand ∈ attached_commands then OTASCIIArmor.SetString input.asString
      else output.m_ascInReferenceTo := by
  simp only [ReplyMessage.ctor, ReplyMessage.attach_request_eq]
  split <;> rfl

theorem ReplyMessage.SetSuccess_in_reference_to (r : ReplyMessage) (success : Bool) :
    (r.SetSuccess success).message_.m_ascInReferenceTo =
      if success = true ∧ r.original_.m_strCommand ∈ stripped_commands then
        OTASCIIArmor.Release
      else r.message_.m_ascInReferenceTo := by
  cases success
  · simp [ReplyMessage.SetSuccess]
  · simp only [ReplyMessage.SetSuccess, ReplyMessage.clear_request_eq, if_true, true_and]
    split <;> rfl

theorem ReplyMessage.clear_request_frame (r : ReplyMessage) :
    r.clear_request.original_ = r.original_ ∧ r.clear_request.signer_ = r.signer_ ∧
    r.clear_request.server_ = r.server_ ∧ r.clear_request.drop_ = r.drop_ ∧
    r.clear_request.drop_status_ = r.drop_status_ ∧
    r.clear_request.message_.m_bSuccess = r.message_.m_bSuccess := by
  rw [ReplyMessage.clear_request_eq]; split <;> simp

theorem ReplyMessage.LoadContext_frame (E : Env) (r : ReplyMessage) :
    (r.LoadContext E).2.original_ = r.original_ ∧ (r.LoadContext E).2.signer_ = r.signer_ ∧
    (r.LoadContext E).2.server_ = r.server_ ∧ (r.LoadContext E).2.drop_ = r.drop_ ∧
    (r.LoadContext E).2.drop_status_ = r.drop_status_ ∧
    (r.LoadContext E).2.message_ = r.message_ := by
  unfold ReplyMessage.LoadContext ReplyMessage.init_nym
  dsimp only
  split
  · simp
  · split <;> simp

theorem ReplyMessage.InitNymfileCredentials_frame (E : Env) (r : ReplyMessage) :
    (r.InitNymfileCredentials E).2.original_ = r.original_ ∧
    (r.InitNymfileCredentials E).2.signer_ = r.signer_ ∧
    (r.InitNymfileCredentials E).2.server_ = r.server_ ∧
    (r.InitNymfileCredentials E).2.drop_ = r.drop_ ∧
    (r.InitNymfileCredentials E).2.drop_status_ = r.drop_status_ ∧
    (r.InitNymfileCredentials E).2.message_ = r.message_ := by
  unfold ReplyMessage.InitNymfileCredentials
  split <;> simp

theorem ReplyMessage.apply_frame (E : Env) (c : Call) (r s : ReplyMessage)
    (h : ReplyMessage.apply E c r = some s) :
    s.original_ = r.original_ ∧ s.signer_ = r.signer_ ∧ s.server_ = r.server_ ∧
    ((∀ b, c ≠ .DropToNymbox b) → s.drop_ = r.drop_ ∧ s.drop_status_ = r.drop_status_) ∧
    (c ≠ .SetSuccess true → s.message_.m_bSuccess = true → r.message_.m_bSuccess = true) := by
  cases c
  case Context written =>
    unfold ReplyMessage.apply at h
    dsimp only at h
    split at h
    · cases h; simp
    · cases h
  case LoadContext =>
    have hf := ReplyMessage.LoadContext_frame E r
    simp only [ReplyMessage.apply, Option.some.injEq] at h
    subst h
    simp [hf]
  case InitNymfileCredentials =>
    have hf := ReplyMessage.InitNymfileCredentials_frame E r
    simp only [ReplyMessage.apply, Option.some.injEq] at h
    subst h
    simp [hf]
  case SetSuccess success =>
    have hf := ReplyMessage.clear_request_frame
    simp only [ReplyMessage.apply, Option.some.injEq] at h
    subst h
    cases success <;> simp [ReplyMessage.SetSuccess, hf]
  case DropToNymbox success =>
    simp only [ReplyMessage.apply, Option.some.injEq] at h
    subst h
    simp [ReplyMessage.DropToNymbox]
  all_goals
    simp only [ReplyMessage.apply, Option.some.injEq] at h
    subst h
    simp [ReplyMessage.ClearRequest, ReplyMessage.LoadNym, ReplyMessage.OverrideType,
      ReplyMessage.SetAccount, ReplyMessage.SetAcknowledgments, Message.SetAcknowledgments,
      ReplyMessage.SetDepth, ReplyMessage.SetInboxHash, ReplyMessage.SetInstrumentDefinitionID,
      ReplyMessage.SetNymboxHash, ReplyMessage.SetOutboxHash, ReplyMessage.SetPayload,
      ReplyMessage.SetPayloadData, ReplyMessage.SetPayloadArmor, ReplyMessage.SetPayload2,
      ReplyMessage.SetPayload3, ReplyMessage.SetRequestNumber,
      ReplyMessage.SetTransactionNumber, ReplyMessage.SetTargetNym]

theorem ReplyMessage.run_append (E : Env) (cs ds : List Call) (r : ReplyMessage) :
    ReplyMessage.run E (cs ++ ds) r = (ReplyMessage.run E cs r).bind (ReplyMessage.run E ds) := by
  induction cs generalizing r with
  | nil => rfl
  | cons c cs ih =>
    simp only [List.cons_append, ReplyMessage.run]
    cases ReplyMessage.apply E c r with
    | none => rfl
    | some s => simpa using ih s

theorem ReplyMessage.run_frame (E : Env) (cs : List Call) (r s : ReplyMessage)
    (h : ReplyMessage.run E cs r = some s) :
    s.original_ = r.original_ ∧ s.signer_ = r.signer_ ∧ s.server_ = r.server_ := by
  induction cs generalizing r with
  | nil =>
    simp only [ReplyMessage.run, Option.some.injEq] at h
    subst h
    exact ⟨rfl, rfl, rfl⟩
  | cons c cs ih =>
    simp only [ReplyMessage.run] at h
    cases hc : ReplyMessage.apply E c r with
    | none => rw [hc] at h; cases h
    | some m =>
      rw [hc] at h
      obtain ⟨h1, h2, h3, -⟩ := ReplyMessage.apply_frame E c r m hc
      obtain ⟨k1, k2, k3⟩ := ih m h
      exact ⟨k1.trans h1, k2.trans h2, k3.trans h3⟩

theorem ReplyMessage.run_without_drop (E : Env) (cs : List Call) (r s : ReplyMessage)
    (hno : ∀ b, Call.DropToNymbox b ∉ cs)
    (h : ReplyMessage.run E cs r = some s) :
    s.drop_ = r.drop_ ∧ s.drop_status_ = r.drop_status_ := by
  induction cs generalizing r with
  | nil =>
    simp only [ReplyMessage.run, Option.some.injEq] at h
    subst h
    exact ⟨rfl, rfl⟩
  | cons c cs ih =>
    simp only [ReplyMessage.run] at h
    cases hc : ReplyMessage.apply E c r with
    | none => rw [hc] at h; cases h
    | some m =>
      rw [hc] at h
      have hne : ∀ b, c ≠ .DropToNymbox b := fun b hb => hno b (by simp [hb])
      obtain ⟨h1, h2⟩ := (ReplyMessage.apply_frame E c r m hc).2.2.2.1 hne
      obtain ⟨k1, k2⟩ := ih m (fun b hb => hno b (List.mem_cons_of_mem _ hb)) h
      exact ⟨k1.trans h1, k2.trans h2⟩

theorem ReplyMessage.ctor_fields (E : Env) (notaryID : Identifier) (signer : Nym)
    (input : Message) (server : OTServer) (type : MessageType) (output : Message) :
    (ReplyMessage.ctor E notaryID signer input server type output).signer_ = signer ∧
    (ReplyMessage.ctor E notaryID signer input server type output).server_ = server ∧
    (ReplyMessage.ctor E notaryID signer input server type output).drop_ = false ∧
    (ReplyMessage.ctor E notaryID signer input server type output).message_.m_strCommand =
      Message.ReplyCommand type ∧
    (ReplyMessage.ctor E notaryID signer input server type output).message_.m_bSuccess = false ∧
    (ReplyMessage.ctor E notaryID signer input server type output).message_.m_strRequestNum =
      input.m_strRequestNum ∧
    (ReplyMessage.ctor E notaryID signer input server type output).message_.m_strNotaryID =
      input.m_strNotaryID ∧
    (ReplyMessage.ctor E notaryID signer input server type output).message_.m_strNymID =
      input.m_strNymID := by
  simp only [ReplyMessage.ctor, ReplyMessage.attach_request_eq]
  split <;> simp

theorem ReplyMessage.dtor_nymbox (E : Env) (r : ReplyMessage) :
    (r.dtor E).server_.nymbox =
      if r.drop_ = true ∧ r.context_.isSome = true then
        r.server_.nymbox ++
          [⟨((r.message_.SignContract r.signer_).SaveContract E).asString,
            E.ToLong r.original_.m_strRequestNum, r.drop_status_⟩]
      else r.server_.nymbox := by
  unfold ReplyMessage.dtor
  cases hd : r.drop_ <;> cases hc : r.context_ <;>
    simp [hd, hc, UserCommandProcessor.drop_reply_notice_to_nymbox, ReplyMessage.SetNymboxHash] <;>
    split <;> simp

theorem ReplyMessage.dtor_contract (E : Env) (r : ReplyMessage) :
    (r.dtor E).message_.m_listSignatures = (r.message_.SignContract r.signer_).m_listSignatures ∧
    (r.dtor E).message_.m_strRawFile =
      ((r.message_.SignContract r.signer_).SaveContract E).m_strRawFile ∧
    (r.dtor E).message_.m_bSuccess = r.message_.m_bSuccess := by
  unfold ReplyMessage.dtor
  cases hd : r.drop_ <;> cases hc : r.context_ <;>
    simp [hd, hc, UserCommandProcessor.drop_reply_notice_to_nymbox, ReplyMessage.SetNymboxHash,
      Message.SaveContract, Message.SignContract] <;>
    split <;> simp

theorem ReplyMessage.dtor_context (E : Env) (r : ReplyMessage) :
    (r.dtor E).context_ =
      match r.drop_, r.context_ with
      | true, some context =>
        some (E.notice_context ((r.message_.SignContract r.signer_).SaveContract E).asString
          (E.ToLong r.original_.m_strRequestNum) r.drop_status_ context)
      | _, _ => r.context_ := by
  unfold ReplyMessage.dtor
  cases hd : r.drop_ <;> cases hc : r.context_ <;>
    simp [hd, hc, UserCommandProcessor.drop_reply_notice_to_nymbox, ReplyMessage.SetNymboxHash] <;>
    split <;> simp

theorem ReplyMessage.dtor_nymbox_hash (E : Env) (r : ReplyMessage) :
    (r.dtor E).message_.m_strNymboxHash =
      match (r.dtor E).context_ with
      | some context =>
        if context.HaveLocalNymboxHash = true then context.LocalNymboxHash
        else r.message_.m_strNymboxHash
      | none => r.message_.m_strNymboxHash := by
  unfold ReplyMessage.dtor
  cases hd : r.drop_ <;> cases hc : r.context_ <;>
    simp [hd, hc, UserCommandProcessor.drop_reply_notice_to_nymbox, ReplyMessage.SetNymboxHash,
      Message.SaveContract, Message.SignContract] <;>
    split <;> simp [*]

/-! ## The claims -/

/-- C1, refuted as stated: for the `registerAccount` request of the examples, the
reply built for it still echoes the request after `SetSuccess(true)`; its
`m_ascInReferenceTo` is not empty. -/
theorem C1_counterexample :
    (exampleRequest "registerAccount").m_strCommand = "registerAccount" ∧
    ((ReplyMessage.ctor exampleEnv "notary1" exampleSigner (exampleRequest "registerAccount")
        exampleServer .registerAccount blankMessage).SetSuccess true
      ).message_.m_ascInReferenceTo.empty = false := by
  decide

/-- C1, amended: for every reply constructed for a request whose command is
`registerAccount`, after `SetSuccess(true)` the output message's
`m_ascInReferenceTo` still holds the original request attached at construction;
it is empty only when the text of the request is empty. -/
theorem C1_registerAccount_request_kept (E : Env) (notaryID : Identifier) (signer : Nym)
    (input : Message) (server : OTServer) (type : MessageType) (output : Message)
    (h : input.m_strCommand = "registerAccount") :
    ((ReplyMessage.ctor E notaryID signer input server type output).SetSuccess true
      ).message_.m_ascInReferenceTo = OTASCIIArmor.SetString input.asString ∧
    (((ReplyMessage.ctor E notaryID signer input server type output).SetSuccess true
      ).message_.m_ascInReferenceTo.empty = true ↔ input.asString = "") := by
  have hkept :
      ((ReplyMessage.ctor E notaryID signer input server type output).SetSuccess true
        ).message_.m_ascInReferenceTo = OTASCIIArmor.SetString input.asString := by
    rw [ReplyMessage.SetSuccess_in_reference_to, ReplyMessage.ctor_original,
      ReplyMessage.ctor_in_reference_to, h]
    rw [if_neg (by decide), if_pos (by decide)]
  refine ⟨hkept, ?_⟩
  rw [hkept]
  simp [OTASCIIArmor.empty, OTASCIIArmor.SetString]

/-- C1, amended, at the `registerAccount` request of the examples. -/
theorem C1_registerAccount_request_kept_witness :
    (exampleRequest "registerAccount").m_strCommand = "registerAccount" ∧
    ((ReplyMessage.ctor exampleEnv "notary1" exampleSigner (exampleRequest "registerAccount")
        exampleServer .registerAccount blankMessage).SetSuccess true
      ).message_.m_ascInReferenceTo =
        OTASCIIArmor.SetString (exampleRequest "registerAccount").asString :=
  ⟨by decide,
   (C1_registerAccount_request_kept exampleEnv "notary1" exampleSigner
      (exampleRequest "registerAccount") exampleServer .registerAccount blankMessage
      (by decide)).1⟩

/-- C5: immediately after construction the reply's `m_ascInReferenceTo` holds the
original request when the original's command is one of the 24 attached commands,
and otherwise is what the output message had before (nothing is attached); the
six recognised commands `pingNotary`, `usageCredits`, `sendNymMessage`,
`sendNymInstrument`, `getRequestNumber`, `getTransactionNumbers` and every
unrecognised command are not among the 24. -/
theorem C5_request_attached_iff_whitelisted (E : Env) (notaryID : Identifier) (signer : Nym)
    (input : Message) (server : OTServer) (type : MessageType) (output : Message) :
    (ReplyMessage.ctor E notaryID signer input server type output).message_.m_ascInReferenceTo =
      (if input.m_strCommand ∈ attached_commands then OTASCIIArmor.SetString input.asString
       else output.m_ascInReferenceTo) ∧
    attached_commands.length = 24 ∧
    (∀ c ∈ unattached_commands, c ∉ attached_commands) ∧
    (Message.Type input.m_strCommand = .badID → input.m_strCommand ∉ attached_commands) :=
  ⟨ReplyMessage.ctor_in_reference_to E notaryID signer input server type output,
   by decide, by decide,
   fun hbad hmem => attached_commands_known _ hmem hbad⟩

/-- C6: `SetSuccess(true)` empties `m_ascInReferenceTo` when the original command
is `checkNym`, `getNymbox`, `getAccountData`, `getInstrumentDefinition` or
`getMint` and leaves it unchanged for every other command; `SetSuccess(false)`
never changes it; and every command stripped on success is one whose request is
attached at construction. -/
theorem C6_request_stripped_on_success (E : Env) (r : ReplyMessage) (notaryID : Identifier)
    (signer : Nym) (input : Message) (server : OTServer) (type : MessageType)
    (output : Message) :
    (r.SetSuccess true).message_.m_ascInReferenceTo =
      (if r.original_.m_strCommand ∈ stripped_commands then OTASCIIArmor.Release
       else r.message_.m_ascInReferenceTo) ∧
    (r.SetSuccess false).message_.m_ascInReferenceTo = r.message_.m_ascInReferenceTo ∧
    (∀ c ∈ stripped_commands, c ∈ attached_commands) ∧
    (if input.m_strCommand ∈ stripped_commands then
      (ReplyMessage.ctor E notaryID signer input server type output
        ).message_.m_ascInReferenceTo = OTASCIIArmor.SetString input.asString
     else True) := by
  refine ⟨?_, ?_, by decide, ?_⟩
  · rw [ReplyMessage.SetSuccess_in_reference_to]; simp
  · rw [ReplyMessage.SetSuccess_in_reference_to]; simp
  · split
    · rename_i hmem
      have hsub : ∀ c ∈ stripped_commands, c ∈ attached_commands := by decide
      rw [ReplyMessage.ctor_in_reference_to, if_pos (hsub _ hmem)]
    · trivial

/-- C2, refuted as stated: the reply of the examples, on which `DropToNymbox(true)`
is called and for which no context is loaded, is destroyed without any
`replyNotice` being inserted: the sender's Nymbox stays empty. -/
theorem C2_counterexample :
    (ReplyMessage.run exampleEnv [.DropToNymbox true]
        (ReplyMessage.ctor exampleEnv "notary1" exampleSigner (exampleRequest "getNymbox")
          exampleServer .getNymbox blankMessage)).map
      (fun r => (r.drop_, (r.dtor exampleEnv).server_.nymbox)) = some (true, []) := by
  decide

/-- C2, amended: for every reply on which `DropToNymbox(s)` has been called (and
not called again afterwards): if it holds a loaded context when it is destroyed,
destruction appends to the sender's Nymbox exactly one `replyNotice`, carrying
the text of the reply as signed and saved, the original request's request number
and the status `s`; and if it holds no loaded context, destruction leaves the
sender's Nymbox as it was: nothing is inserted. -/
theorem C2_notice_dropped_with_context (E : Env) (notaryID : Identifier) (signer : Nym)
    (input : Message) (server : OTServer) (type : MessageType) (output : Message)
    (before after : List Call) (s : Bool) (r : ReplyMessage)
    (hlast : ∀ b, Call.DropToNymbox b ∉ after)
    (hrun : ReplyMessage.run E (before ++ Call.DropToNymbox s :: after)
      (ReplyMessage.ctor E notaryID signer input server type output) = some r) :
    (r.HaveContext = true →
      (r.dtor E).server_.nymbox =
        server.nymbox ++
          [⟨((r.message_.SignContract signer).SaveContract E).asString,
            E.ToLong input.m_strRequestNum, s⟩]) ∧
    (r.HaveContext = false → (r.dtor E).server_.nymbox = server.nymbox) := by
  obtain ⟨horig, hsigner, hserver⟩ := ReplyMessage.run_frame E _ _ _ hrun
  rw [ReplyMessage.run_append] at hrun
  cases hb : ReplyMessage.run E before
      (ReplyMessage.ctor E notaryID signer input server type output) with
  | none => rw [hb] at hrun; cases hrun
  | some m =>
    rw [hb] at hrun
    simp only [Option.some_bind, ReplyMessage.run, ReplyMessage.apply] at hrun
    obtain ⟨hdrop, hstatus⟩ := ReplyMessage.run_without_drop E after _ r hlast hrun
    constructor
    · intro hctx
      unfold ReplyMessage.HaveContext at hctx
      rw [ReplyMessage.dtor_nymbox, hdrop, hstatus, hctx, horig, hsigner, hserver,
        ReplyMessage.ctor_original, (ReplyMessage.ctor_fields E notaryID signer input server type
          output).1, (ReplyMessage.ctor_fields E notaryID signer input server type output).2.1]
      simp [ReplyMessage.DropToNymbox]
    · intro hctx
      unfold ReplyMessage.HaveContext at hctx
      rw [ReplyMessage.dtor_nymbox, hctx, hserver,
        (ReplyMessage.ctor_fields E notaryID signer input server type output).2.1]
      simp

/-- C2, amended, at the reply of the examples: the handler calls
`DropToNymbox(true)` and then `SetSuccess(true)`; with the context loaded before,
the notice is in the Nymbox after destruction, and without a context loaded the
Nymbox stays empty. -/
theorem C2_notice_dropped_with_context_witness :
    (∀ b, Call.DropToNymbox b ∉ [Call.SetSuccess true]) ∧
    (((((ReplyMessage.ctor exampleEnv "notary1" exampleSigner (exampleRequest "getNymbox")
        exampleServer .getNymbox blankMessage).LoadContext exampleEnv).2.DropToNymbox true
      ).SetSuccess true).dtor exampleEnv).server_.nymbox =
      [⟨"getNymboxResponse success signed by serverNym", 7, true⟩] ∧
    ((((ReplyMessage.ctor exampleEnv "notary1" exampleSigner (exampleRequest "getNymbox")
        exampleServer .getNymbox blankMessage).DropToNymbox true
      ).SetSuccess true).dtor exampleEnv).server_.nymbox = [] :=
  ⟨by decide,
   ((C2_notice_dropped_with_context exampleEnv "notary1" exampleSigner
      (exampleRequest "getNymbox") exampleServer .getNymbox blankMessage
      [.LoadContext] [.SetSuccess true] true
      ((((ReplyMessage.ctor exampleEnv "notary1" exampleSigner (exampleRequest "getNymbox")
        exampleServer .getNymbox blankMessage).LoadContext exampleEnv).2.DropToNymbox true
      ).SetSuccess true)
      (by decide) (by decide)).1 (by decide)).trans (by decide),
   (C2_notice_dropped_with_context exampleEnv "notary1" exampleSigner
      (exampleRequest "getNymbox") exampleServer .getNymbox blankMessage
      [] [.SetSuccess true] true
      (((ReplyMessage.ctor exampleEnv "notary1" exampleSigner (exampleRequest "getNymbox")
        exampleServer .getNymbox blankMessage).DropToNymbox true
      ).SetSuccess true)
      (by decide) (by decide)).2 (by decide)⟩

/-- C3: for every reply on which `DropToNymbox` was never called, whatever the
command type, the other calls made on it (so whatever the Success flag and
whether a context was loaded), destruction leaves the server's Nymbox of the
sender as it was when the reply was constructed: no `replyNotice` is dropped. -/
theorem C3_no_notice_without_drop (E : Env) (notaryID : Identifier) (signer : Nym)
    (input : Message) (server : OTServer) (type : MessageType) (output : Message)
    (calls : List Call) (r : ReplyMessage)
    (hnever : ∀ b, Call.DropToNymbox b ∉ calls)
    (hrun : ReplyMessage.run E calls
      (ReplyMessage.ctor E notaryID signer input server type output) = some r) :
    (r.dtor E).server_.nymbox = server.nymbox := by
  obtain ⟨-, -, hserver⟩ := ReplyMessage.run_frame E _ _ _ hrun
  obtain ⟨hdrop, -⟩ := ReplyMessage.run_without_drop E calls _ r hnever hrun
  rw [ReplyMessage.dtor_nymbox, hdrop, hserver,
    (ReplyMessage.ctor_fields E notaryID signer input server type output).2.1,
    (ReplyMessage.ctor_fields E notaryID signer input server type output).2.2.1]
  simp

/-- C3, at the `registerAccount` reply of the examples: the context is loaded and
Success is set, `DropToNymbox` is not called. -/
theorem C3_no_notice_without_drop_witness :
    (∀ b, Call.DropToNymbox b ∉ [Call.LoadContext, Call.SetSuccess true]) ∧
    ((((ReplyMessage.ctor exampleEnv "notary1" exampleSigner (exampleRequest "registerAccount")
        exampleServer .registerAccount blankMessage).LoadContext exampleEnv).2.SetSuccess true
      ).dtor exampleEnv).server_.nymbox = exampleServer.nymbox :=
  ⟨by decide,
   C3_no_notice_without_drop exampleEnv "notary1" exampleSigner
      (exampleRequest "registerAccount") exampleServer .registerAccount blankMessage
      [.LoadContext, .SetSuccess true]
      (((ReplyMessage.ctor exampleEnv "notary1" exampleSigner (exampleRequest "registerAccount")
        exampleServer .registerAccount blankMessage).LoadContext exampleEnv).2.SetSuccess true)
      (by decide) (by decide)⟩

/-- C4: for every request, `Init()` is true after construction exactly when all
three validations pass: the server-lock check on the sender Nym, the check of the
message's NotaryID against this server's notary ID, and the check that the sender
Nym is not the server's signing Nym; in the words of the spec, exactly when the
sender Nym is not server-locked, the NotaryID of the message equals this server's
and the sender Nym is not the signer.  Construction itself always succeeds, and
the reply message it builds does not depend on the outcome of the validations. -/
theorem C4_init_iff_validations_pass (E : Env) (notaryID : Identifier) (signer : Nym)
    (input : Message) (server : OTServer) (type : MessageType) (output : Message) :
    ((ReplyMessage.ctor E notaryID signer input server type output).Init = true ↔
      (UserCommandProcessor.check_server_lock E input.m_strNymID = true ∧
       UserCommandProcessor.check_message_notary input.m_strNotaryID notaryID = true ∧
       UserCommandProcessor.check_client_isnt_server input.m_strNymID signer = true)) ∧
    ((ReplyMessage.ctor E notaryID signer input server type output).Init = true ↔
      (E.server_locked input.m_strNymID = false ∧
       input.m_strNotaryID = notaryID ∧
       signer.ID ≠ input.m_strNymID)) ∧
    (∀ (E2 : Env) (notaryID2 : Identifier) (signer2 : Nym),
      (ReplyMessage.ctor E2 notaryID2 signer2 input server type output).message_ =
        (ReplyMessage.ctor E notaryID signer input server type output).message_) := by
  have hchecks :
      (ReplyMessage.ctor E notaryID signer input server type output).Init = true ↔
        (UserCommandProcessor.check_server_lock E input.m_strNymID = true ∧
         UserCommandProcessor.check_message_notary input.m_strNotaryID notaryID = true ∧
         UserCommandProcessor.check_client_isnt_server input.m_strNymID signer = true) := by
    simp only [ReplyMessage.Init, ReplyMessage.ctor, ReplyMessage.init,
      ReplyMessage.attach_request_eq]
    split <;>
      cases UserCommandProcessor.check_server_lock E input.m_strNymID <;>
      cases UserCommandProcessor.check_message_notary input.m_strNotaryID notaryID <;>
      cases UserCommandProcessor.check_client_isnt_server input.m_strNymID signer <;>
      simp
  refine ⟨hchecks, ?_, ?_⟩
  · rw [hchecks]
    simp [UserCommandProcessor.check_server_lock, UserCommandProcessor.check_message_notary,
      UserCommandProcessor.check_client_isnt_server]
  · intro E2 notaryID2 signer2
    simp only [ReplyMessage.ctor, ReplyMessage.attach_request_eq]
    split <;> rfl

/-- C8: for every input request and message type, immediately after construction
the reply has Success false and the RequestNum, NotaryID and NymID of the
original request; afterwards no call other than `SetSuccess(true)` turns Success
from false to true, and destruction leaves Success as it is. -/
theorem C8_reply_matches_request (E : Env) (notaryID : Identifier) (signer : Nym)
    (input : Message) (server : OTServer) (type : MessageType) (output : Message) :
    (ReplyMessage.ctor E notaryID signer input server type output).Success = false ∧
    (ReplyMessage.ctor E notaryID signer input server type output).message_.m_strRequestNum =
      input.m_strRequestNum ∧
    (ReplyMessage.ctor E notaryID signer input server type output).message_.m_strNotaryID =
      input.m_strNotaryID ∧
    (ReplyMessage.ctor E notaryID signer input server type output).message_.m_strNymID =
      input.m_strNymID ∧
    (∀ (c : Call) (r s : ReplyMessage), ReplyMessage.apply E c r = some s →
      r.Success = false → s.Success = true → c = .SetSuccess true) ∧
    (∀ r : ReplyMessage, (r.SetSuccess true).Success = true) ∧
    (∀ r : ReplyMessage, (r.dtor E).Success = r.Success) := by
  obtain ⟨-, -, -, -, h1, h2, h3, h4⟩ :=
    ReplyMessage.ctor_fields E notaryID signer input server type output
  refine ⟨h1, h2, h3, h4, ?_, ?_, ?_⟩
  · intro c r s happly hfalse htrue
    by_contra hne
    have := (ReplyMessage.apply_frame E c r s happly).2.2.2.2 hne htrue
    simp only [ReplyMessage.Success] at hfalse
    rw [hfalse] at this
    cases this
  · intro r
    simp [ReplyMessage.Success, ReplyMessage.SetSuccess,
      (ReplyMessage.clear_request_frame _).2.2.2.2.2]
  · intro r
    exact (ReplyMessage.dtor_contract E r).2.2

/-- C9: when a reply is destroyed, the NymboxHash field of the output message is
the `LocalNymboxHash()` of the context if a context is loaded and has a local
Nymbox hash when the destructor reads it, and is otherwise what the handler left
there.  The context the destructor reads is the loaded one, as left by the notice
routine when a notice is dropped; without a drop it is the context as loaded. -/
theorem C9_nymbox_hash_stamped (E : Env) (r : ReplyMessage) :
    (r.dtor E).message_.m_strNymboxHash =
      (match (r.dtor E).context_ with
       | some context =>
         if context.HaveLocalNymboxHash = true then context.LocalNymboxHash
         else r.message_.m_strNymboxHash
       | none => r.message_.m_strNymboxHash) ∧
    ((r.dtor E).context_.isSome = r.context_.isSome) ∧
    (r.drop_ = false → (r.dtor E).context_ = r.context_) := by
  refine ⟨ReplyMessage.dtor_nymbox_hash E r, ?_, ?_⟩
  · rw [ReplyMessage.dtor_context]
    cases r.drop_ <;> cases r.context_ <;> rfl
  · intro hd
    rw [ReplyMessage.dtor_context, hd]

/-- C10: every destruction of a reply, whatever its state (also with `Init()` false
or Success false), puts the signer Nym's signature over the message on the output
message and saves it with that signature; and the Nymbox gains a `replyNotice`
exactly when `drop_` is set and a context is loaded, whose copy of the reply is
the text of the message as signed and saved. -/
theorem C10_signed_and_saved (E : Env) (r : ReplyMessage) :
    (r.dtor E).message_.m_listSignatures =
      r.message_.m_listSignatures ++ [⟨r.signer_.ID, r.message_.toMessageData⟩] ∧
    (r.dtor E).message_.m_strRawFile =
      E.RewriteContract r.message_.toMessageData
        (r.message_.m_listSignatures ++ [⟨r.signer_.ID, r.message_.toMessageData⟩]) ∧
    (r.dtor E).server_.nymbox =
      (if r.drop_ = true ∧ r.context_.isSome = true then
        r.server_.nymbox ++
          [⟨(r.dtor E).message_.asString, E.ToLong r.original_.m_strRequestNum,
            r.drop_status_⟩]
       else r.server_.nymbox) := by
  obtain ⟨hsig, hraw, -⟩ := ReplyMessage.dtor_contract E r
  refine ⟨?_, ?_, ?_⟩
  · rw [hsig]; rfl
  · rw [hraw]; rfl
  · rw [ReplyMessage.dtor_nymbox, Message.asString, Message.asString, hraw]

/-! ## Lemmas for the storage tree, the number pool and the message buffer -/

theorem mem_number_union (numbers more : List Int) (n : Int) :
    n ∈ number_union numbers more ↔ n ∈ numbers ∨ n ∈ more := by
  unfold number_union
  by_cases h : n ∈ numbers <;> simp [h]

theorem OTMessageBuffer.Pop_spec (ToLong : String → Int) (requestNumber : Int)
    (notaryID nymID : String) (buffer : List Message) :
    (∀ m, (OTMessageBuffer.Pop ToLong requestNumber notaryID nymID buffer).1 = some m →
      m ∈ buffer ∧ m.m_strNotaryID = notaryID ∧ m.m_strNymID = nymID ∧
      ToLong m.m_strRequestNum = requestNumber ∧
      buffer.count m =
        (OTMessageBuffer.Pop ToLong requestNumber notaryID nymID buffer).2.count m + 1) ∧
    (OTMessageBuffer.Pop ToLong requestNumber notaryID nymID buffer).2.filter
        (fun m => decide (m.m_strNotaryID ≠ notaryID ∨ m.m_strNymID ≠ nymID)) =
      buffer.filter (fun m => decide (m.m_strNotaryID ≠ notaryID ∨ m.m_strNymID ≠ nymID)) ∧
    (OTMessageBuffer.Pop ToLong requestNumber notaryID nymID buffer).2.Sublist buffer := by
  induction buffer with
  | nil => simp [OTMessageBuffer.Pop]
  | cons b rest ih =>
    obtain ⟨ih1, ih2, ih3⟩ := ih
    unfold OTMessageBuffer.Pop
    by_cases hmis : b.m_strNotaryID ≠ notaryID ∨ b.m_strNymID ≠ nymID
    · rw [if_pos hmis]
      refine ⟨?_, ?_, ?_⟩
      · intro m hm
        obtain ⟨h1, h2, h3, h4, h5⟩ := ih1 m hm
        refine ⟨List.mem_cons_of_mem _ h1, h2, h3, h4, ?_⟩
        simp only [List.count_cons, h5]
        omega
      · simp only [List.filter_cons, hmis, decide_True, if_true, ih2]
      · exact ih3.cons₂ b
    · rw [if_neg hmis]
      have hmatch : b.m_strNotaryID = notaryID ∧ b.m_strNymID = nymID := by
        constructor <;> by_contra hne <;> exact hmis (by simp [hne])
      by_cases hreq : ToLong b.m_strRequestNum = requestNumber
      · rw [if_pos hreq]
        refine ⟨?_, ?_, ?_⟩
        · intro m hm
          simp only [Option.some.injEq] at hm
          subst hm
          exact ⟨List.mem_cons_self _ _, hmatch.1, hmatch.2, hreq, by simp⟩
        · simp [List.filter_cons, hmis]
        · exact List.sublist_cons_self b rest
      · rw [if_neg hreq]
        refine ⟨?_, ?_, ?_⟩
        · intro m hm
          obtain ⟨h1, h2, h3, h4, h5⟩ := ih1 m hm
          refine ⟨List.mem_cons_of_mem _ h1, h2, h3, h4, ?_⟩
          have hne : b ≠ m := fun hbm => hreq (hbm ▸ h4)
          simp [List.count_cons, h5, hne]
        · simp only [List.filter_cons, hmis, decide_False, ih2]
          simp
        · exact ih3.cons b

theorem TransactionNumberPool.after_invariant (p : TransactionNumberPool)
    (op : PoolOperation) (hinv : p.Invariant) : (p.after op).Invariant := by
  unfold TransactionNumberPool.Invariant at hinv ⊢
  cases op with
  | Issue numbers elsewhere =>
    simp only [TransactionNumberPool.after, TransactionNumberPool.Issue]
    split
    · rename_i q hq
      split at hq
      · cases hq
      · cases hq
        intro n hn
        rw [mem_number_union] at hn ⊢
        rcases hn with hn | hn
        · exact Or.inl (hinv hn)
        · exact Or.inr hn
    · exact hinv
  | Reserve count =>
    simp only [TransactionNumberPool.after, TransactionNumberPool.Reserve]
    split
    · rename_i chosen q hq
      split at hq
      · cases hq
      · cases hq
        intro n hn
        exact hinv (List.mem_filter.mp hn).1
    · exact hinv
  | Harvest numbers forRetry =>
    cases forRetry with
    | false => simpa [TransactionNumberPool.after, TransactionNumberPool.Harvest] using hinv
    | true =>
      simp only [TransactionNumberPool.after, TransactionNumberPool.Harvest, if_true]
      intro n hn
      rw [mem_number_union] at hn
      rcases hn with hn | hn
      · exact hinv hn
      · simpa using (List.mem_filter.mp hn).2
  | Close number =>
    simp only [TransactionNumberPool.after, TransactionNumberPool.Close]
    intro n hn
    rw [List.mem_filter] at hn ⊢
    exact ⟨hinv hn.1, hn.2⟩

/-! ## The claims on the storage tree, the number pool and the message buffer -/

/-- C11: `storage::Units::save` never hands the unit index to the storage driver
without a verified write lock: if the lock does not verify it aborts; if the
serialised index does not validate it returns false and `StoreProto` is not
called; otherwise it returns what `StoreProto` returns, called once with the
serialised index. -/
theorem C11_save_needs_verified_lock (D : storage.Driver) (u : storage.Units)
    (lock : storage.Lock) :
    (D.verify_write_lock lock = false → u.save D lock = none) ∧
    (D.verify_write_lock lock = true → D.Validate (u.serialize D) = false →
      u.save D lock = some ⟨false, u.root_, []⟩) ∧
    (D.verify_write_lock lock = true → D.Validate (u.serialize D) = true →
      u.save D lock =
        some ⟨(D.StoreProto (u.serialize D) u.root_).1, (D.StoreProto (u.serialize D) u.root_).2,
          [u.serialize D]⟩) ∧
    (∀ out, u.save D lock = some out → out.stored ≠ [] →
      D.verify_write_lock lock = true ∧ D.Validate (u.serialize D) = true ∧
      out.stored = [u.serialize D] ∧ out.result = (D.StoreProto (u.serialize D) u.root_).1) := by
  refine ⟨?_, ?_, ?_, ?_⟩
  · intro h; simp [storage.Units.save, h]
  · intro h1 h2; simp [storage.Units.save, h1, h2]
  · intro h1 h2; simp [storage.Units.save, h1, h2]
  · intro out hout hne
    cases h1 : D.verify_write_lock lock <;> cases h2 : D.Validate (u.serialize D) <;>
      simp [storage.Units.save, h1, h2] at hout
    · subst hout; simp at hne
    · subst hout; simp

/-- C12: a pool whose available numbers are all issued keeps that property after
every operation (issue, reserve, harvest, close), whether the operation succeeds
or fails, and so after every sequence of operations; in particular every sequence
of operations on the empty pool leaves the available numbers among the issued
ones. -/
theorem C12_invariant_preserved (p : TransactionNumberPool) (op : PoolOperation)
    (hinv : p.Invariant) :
    (p.after op).Invariant ∧
    (∀ ops : List PoolOperation, (ops.foldl TransactionNumberPool.after p).Invariant) ∧
    (∀ ops : List PoolOperation,
      (ops.foldl TransactionNumberPool.after ⟨[], []⟩).Invariant) := by
  have hseq : ∀ (ops : List PoolOperation) (q : TransactionNumberPool), q.Invariant →
      (ops.foldl TransactionNumberPool.after q).Invariant := by
    intro ops
    induction ops with
    | nil => intro q hq; exact hq
    | cons o rest ih =>
      intro q hq
      exact ih (q.after o) (TransactionNumberPool.after_invariant q o hq)
  refine ⟨TransactionNumberPool.after_invariant p op hinv, fun ops => hseq ops p hinv,
    fun ops => hseq ops ⟨[], []⟩ ?_⟩
  intro n hn
  cases hn

/-- C12, at the pool of the examples: the number 5, issued and in use, is
harvested for a retry and is available again; harvested after it was closed, it
stays out. -/
theorem C12_invariant_preserved_witness :
    examplePool.Invariant ∧
    (examplePool.after (.Harvest [5] true)).Invariant ∧
    (examplePool.after (.Harvest [5] true)).available = [6, 7, 5] ∧
    ((examplePool.after (.Close 5)).after (.Harvest [5] true)).available = [6, 7] :=
  ⟨by decide, (C12_invariant_preserved examplePool (.Harvest [5] true) (by decide)).1,
   by decide, by decide⟩

/-- C13: for every sent message that loads and every Nym that is found, when the
reply was a failure at message level `Msg_HarvestTransactionNumbers` returns true
and leaves a pool with the same issued numbers, in which a number is available
exactly when it was available before or is an opening or closing number of the
message that is issued to the Nym; so when the numbers the message used are the
Nym's own, all of them are available again; and the available numbers stay among
the issued ones.  With 5 used by the failed message, 5 is available again and
still issued; a number of the message that is not issued to the Nym (42) is not
made available; with no numbers to harvest the result is true and the pool is
unchanged; and the result is false only when the message does not load or the Nym
is not found. -/
theorem C13_failed_reply_harvests (message : SentNumbers) (p : TransactionNumberPool)
    (bHarvestingForRetry bReplyWasSuccess bTransactionWasSuccess bTransactionWasFailure
      openingUnconsumed : Bool) :
    (∃ q : TransactionNumberPool,
      Msg_HarvestTransactionNumbers (some message) (some p) bHarvestingForRetry
          bReplyWasSuccess true bTransactionWasSuccess bTransactionWasFailure
          openingUnconsumed = (true, some q) ∧
      q.issued = p.issued ∧
      (∀ n, n ∈ q.available ↔
        n ∈ p.available ∨ (n ∈ p.issued ∧ (n ∈ message.opening ∨ n ∈ message.closing))) ∧
      ((∀ n, n ∈ message.opening ∨ n ∈ message.closing → n ∈ p.issued) →
        ∀ n, n ∈ message.opening ∨ n ∈ message.closing → n ∈ q.available) ∧
      (p.Invariant → q.Invariant)) ∧
    Msg_HarvestTransactionNumbers (some ⟨[5], []⟩) (some examplePool) bHarvestingForRetry
        bReplyWasSuccess true bTransactionWasSuccess bTransactionWasFailure openingUnconsumed =
      (true, some ⟨[5, 6, 7], [6, 7, 5]⟩) ∧
    Msg_HarvestTransactionNumbers (some ⟨[5], [42]⟩) (some examplePool) bHarvestingForRetry
        bReplyWasSuccess true bTransactionWasSuccess bTransactionWasFailure openingUnconsumed =
      (true, some ⟨[5, 6, 7], [6, 7, 5]⟩) ∧
    Msg_HarvestTransactionNumbers (some ⟨[], []⟩) (some p) bHarvestingForRetry bReplyWasSuccess
        true bTransactionWasSuccess bTransactionWasFailure openingUnconsumed = (true, some p) ∧
    (∀ (THE_MESSAGE : Option SentNumbers) (pool : Option TransactionNumberPool)
        (b1 b2 b3 b4 b5 b6 : Bool),
      (Msg_HarvestTransactionNumbers THE_MESSAGE pool b1 b2 b3 b4 b5 b6).1 = false →
        THE_MESSAGE = none ∨ pool = none) := by
  have hmem : ∀ n, n ∈ (p.Harvest (message.opening ++ message.closing) true).available ↔
      n ∈ p.available ∨ (n ∈ p.issued ∧ (n ∈ message.opening ∨ n ∈ message.closing)) := by
    intro n
    simp only [TransactionNumberPool.Harvest, if_true, mem_number_union, List.mem_filter,
      List.mem_append, decide_eq_true_eq]
    tauto
  refine ⟨⟨p.Harvest (message.opening ++ message.closing) true, ?_, ?_, hmem, ?_, ?_⟩,
    ?_, ?_, ?_, ?_⟩
  · simp [Msg_HarvestTransactionNumbers]
  · simp [TransactionNumberPool.Harvest]
  · intro hown n hn
    exact (hmem n).mpr (Or.inr ⟨hown n hn, hn⟩)
  · intro hinv
    exact TransactionNumberPool.after_invariant p
      (.Harvest (message.opening ++ message.closing) true) hinv
  · simp [Msg_HarvestTransactionNumbers, TransactionNumberPool.Harvest, examplePool]
    decide
  · simp [Msg_HarvestTransactionNumbers, TransactionNumberPool.Harvest, examplePool]
    decide
  · simp [Msg_HarvestTransactionNumbers, TransactionNumberPool.Harvest, number_union]
  · intro THE_MESSAGE pool b1 b2 b3 b4 b5 b6 h
    cases THE_MESSAGE with
    | none => exact Or.inl rfl
    | some message =>
      cases pool with
      | none => exact Or.inr rfl
      | some q =>
        exfalso
        simp only [Msg_HarvestTransactionNumbers] at h
        split_ifs at h

/-- C14: popping the incoming message buffer with a request number, a notary ID
and a Nym ID returns only a buffered reply whose notary ID, Nym ID and request
number all match, and that reply is removed from the buffer; every buffered reply
whose notary ID or Nym ID does not match stays in the buffer, in its order, and
nothing is added to the buffer. -/
theorem C14_pop_matches_ids (ToLong : String → Int) (requestNumber : Int)
    (notaryID nymID : String) (buffer : List Message) :
    (∀ m, (OTMessageBuffer.Pop ToLong requestNumber notaryID nymID buffer).1 = some m →
      m ∈ buffer ∧ m.m_strNotaryID = notaryID ∧ m.m_strNymID = nymID ∧
      ToLong m.m_strRequestNum = requestNumber ∧
      buffer.count m =
        (OTMessageBuffer.Pop ToLong requestNumber notaryID nymID buffer).2.count m + 1) ∧
    (OTMessageBuffer.Pop ToLong requestNumber notaryID nymID buffer).2.filter
        (fun m => decide (m.m_strNotaryID ≠ notaryID ∨ m.m_strNymID ≠ nymID)) =
      buffer.filter (fun m => decide (m.m_strNotaryID ≠ notaryID ∨ m.m_strNymID ≠ nymID)) ∧
    (OTMessageBuffer.Pop ToLong requestNumber notaryID nymID buffer).2.Sublist buffer ∧
    OTMessageBuffer.Pop exampleToLong 7 "notary1" "alice"
        [exampleReply "notary1" "bob" "7", exampleReply "notary1" "alice" "8",
         exampleReply "notary1" "alice" "7", exampleReply "notary2" "alice" "7"] =
      (some (exampleReply "notary1" "alice" "7"),
       [exampleReply "notary1" "bob" "7", exampleReply "notary2" "alice" "7"]) := by
  obtain ⟨h1, h2, h3⟩ := OTMessageBuffer.Pop_spec ToLong requestNumber notaryID nymID buffer
  exact ⟨h1, h2, h3, by decide⟩

/-! ## Lemmas for the record list -/

theorem set_of_get {R : Type} (a : R) : ∀ (l : List R) (i : Nat), l[i]? = some a → l.set i a = l
  | [], _, h => by simp at h
  | x :: t, 0, h => by
    simp only [List.getElem?_cons_zero, Option.some.injEq] at h
    simp [h]
  | x :: t, i + 1, h => by
    simp only [List.getElem?_cons_succ] at h
    simp [set_of_get a t i h]

theorem cons_set_perm {R : Type} (a v : R) :
    ∀ (t : List R) (j : Nat), t[j]? = some a → (a :: t.set j v).Perm (v :: t)
  | [], _, h => by simp at h
  | y :: t, 0, h => by
    simp only [List.getElem?_cons_zero, Option.some.injEq] at h
    subst h
    exact List.Perm.swap _ _ _
  | y :: t, j + 1, h => by
    simp only [List.getElem?_cons_succ] at h
    have ih := cons_set_perm a v t j h
    simp only [List.set_cons_succ]
    exact (List.Perm.swap y a _).trans ((List.Perm.cons y ih).trans (List.Perm.swap v y t))

theorem cons_set_perm_cons_set {R : Type} (x v : R) :
    ∀ (t : List R) (i : Nat), i < t.length → (v :: t.set i x).Perm (x :: t.set i v)
  | [], _, h => by simp at h
  | y :: t, 0, _ => List.Perm.swap _ _ _
  | y :: t, i + 1, h => by
    have ih := cons_set_perm_cons_set x v t i (by simpa using h)
    simp only [List.set_cons_succ]
    exact (List.Perm.swap y v _).trans ((List.Perm.cons y ih).trans (List.Perm.swap x y _))

theorem set_set_perm {R : Type} (a v : R) :
    ∀ (l : List R) (i j : Nat), l[j]? = some a → i ≠ j → i < l.length →
      ((l.set i a).set j v).Perm (l.set i v)
  | [], _, _, h, _, _ => by simp at h
  | x :: t, 0, 0, _, hne, _ => absurd rfl hne
  | x :: t, 0, j + 1, h, _, _ => by
    simp only [List.getElem?_cons_succ] at h
    simpa using cons_set_perm a v t j h
  | x :: t, i + 1, 0, h, _, hi => by
    simp only [List.getElem?_cons_zero, Option.some.injEq] at h
    subst h
    simpa using cons_set_perm_cons_set x v t i (by simpa using hi)
  | x :: t, i + 1, j + 1, h, hne, hi => by
    simp only [List.getElem?_cons_succ] at h
    simpa using List.Perm.cons x
      (set_set_perm a v t i j h (fun hij => hne (by rw [hij])) (by simpa using hi))

theorem std.iter_swap_perm {R : Type} (l : List R) (i j : Nat) : (std.iter_swap l i j).Perm l := by
  unfold std.iter_swap
  cases hi : l[i]? with
  | none => exact List.Perm.refl _
  | some a =>
    cases hj : l[j]? with
    | none => exact List.Perm.refl _
    | some b =>
      dsimp only
      by_cases hij : i = j
      · subst hij
        rw [hi] at hj
        cases hj
        rw [set_of_get a l i hi, set_of_get a l i hi]
      · have hlen : i < l.length := by
          by_contra hnot
          rw [List.getElem?_eq_none (by omega)] at hi
          cases hi
        have h := set_set_perm b a l i j hj hij hlen
        rw [set_of_get a l i hi] at h
        exact h

theorem std.move_median_to_first_perm {R : Type} (comp : R → R → Bool) (l : List R)
    (result a b c : Nat) : (std.move_median_to_first comp l result a b c).Perm l := by
  unfold std.move_median_to_first
  split_ifs <;> exact std.iter_swap_perm _ _ _

theorem std.partition_up_le {R : Type} (comp : R → R → Bool) (l : List R) (pivot : Nat) :
    ∀ (fuel first : Nat), first ≤ l.length →
      std.partition_up comp l pivot fuel first ≤ l.length
  | 0, first, h => h
  | fuel + 1, first, h => by
    unfold std.partition_up
    split
    · rename_i hc
      apply std.partition_up_le comp l pivot fuel (first + 1)
      by_contra hnot
      have : l[first]? = none := List.getElem?_eq_none (by omega)
      simp [std.comp_at, this] at hc
    · exact h

theorem std.partition_down_le {R : Type} (comp : R → R → Bool) (l : List R) (pivot : Nat) :
    ∀ last : Nat, std.partition_down comp l pivot last ≤ last
  | 0 => Nat.le_refl _
  | last + 1 => by
    unfold std.partition_down
    split
    · exact Nat.le_succ_of_le (std.partition_down_le comp l pivot last)
    · exact Nat.le_refl _

theorem std.unguarded_partition_spec {R : Type} (comp : R → R → Bool) (pivot : Nat) :
    ∀ (fuel : Nat) (l : List R) (first last : Nat), first ≤ l.length → last ≤ l.length →
      (std.unguarded_partition comp pivot fuel l first last).2.Perm l ∧
      (std.unguarded_partition comp pivot fuel l first last).1 ≤ l.length
  | 0, l, first, last, hf, _ => ⟨List.Perm.refl _, hf⟩
  | fuel + 1, l, first, last, hf, hl => by
    unfold std.unguarded_partition
    dsimp only
    have hup := std.partition_up_le comp l pivot l.length first hf
    have hdown := std.partition_down_le comp l pivot (last - 1)
    split
    · exact ⟨List.Perm.refl _, hup⟩
    · rename_i hlt
      have hlt2 : std.partition_up comp l pivot l.length first <
          std.partition_down comp l pivot (last - 1) := by simpa using hlt
      have hperm := std.iter_swap_perm l (std.partition_up comp l pivot l.length first)
        (std.partition_down comp l pivot (last - 1))
      have hlen := hperm.length_eq
      obtain ⟨h1, h2⟩ := std.unguarded_partition_spec comp pivot fuel
        (std.iter_swap l (std.partition_up comp l pivot l.length first)
          (std.partition_down comp l pivot (last - 1)))
        (std.partition_up comp l pivot l.length first + 1)
        (std.partition_down comp l pivot (last - 1)) (by omega) (by omega)
      exact ⟨h1.trans hperm, by omega⟩

theorem std.unguarded_partition_pivot_spec {R : Type} (comp : R → R → Bool) (l : List R)
    (first last : Nat) (hf : first + 1 ≤ l.length) (hl : last ≤ l.length) :
    (std.unguarded_partition_pivot comp l first last).2.Perm l ∧
    (std.unguarded_partition_pivot comp l first last).1 ≤ l.length := by
  unfold std.unguarded_partition_pivot
  dsimp only
  have hperm := std.move_median_to_first_perm comp l first (first + 1)
    (first + (last - first) / 2) (last - 1)
  have hlen := hperm.length_eq
  obtain ⟨h1, h2⟩ := std.unguarded_partition_spec comp first
    (std.move_median_to_first comp l first (first + 1) (first + (last - first) / 2)
      (last - 1)).length
    (std.move_median_to_first comp l first (first + 1) (first + (last - first) / 2) (last - 1))
    (first + 1) last (by omega) (by omega)
  exact ⟨h1.trans hperm, by omega⟩

theorem std.assign_eq {R : Type} (l : List R) (dst src : Nat) (a : R) (h : l[src]? = some a) :
    std.assign l dst src = l.set dst a := by
  unfold std.assign
  rw [h]

theorem get_of_lt {R : Type} (l : List R) (i : Nat) (h : i < l.length) :
    ∃ a, l[i]? = some a :=
  ⟨l[i], List.getElem?_eq_getElem h⟩

theorem std.push_heap_perm {R : Type} (comp : R → R → Bool) (first topIndex : Nat) (value : R) :
    ∀ (fuel : Nat) (l : List R) (holeIndex : Nat), first + holeIndex < l.length →
      (std.push_heap comp first topIndex value fuel l holeIndex).Perm
        (l.set (first + holeIndex) value)
  | 0, l, holeIndex, _ => List.Perm.refl _
  | fuel + 1, l, holeIndex, hlt => by
    unfold std.push_heap
    dsimp only
    cases hp : l[first + (holeIndex - 1) / 2]? with
    | none => exact List.Perm.refl _
    | some above =>
      dsimp only
      split
      · rename_i hc
        have hgt : holeIndex > topIndex := by
          simp only [Bool.and_eq_true, decide_eq_true_eq] at hc
          exact hc.1
        have hne : first + holeIndex ≠ first + (holeIndex - 1) / 2 := by omega
        have ih := std.push_heap_perm comp first topIndex value fuel
          (l.set (first + holeIndex) above) ((holeIndex - 1) / 2)
          (by rw [List.length_set]; omega)
        exact ih.trans (set_set_perm above value l (first + holeIndex)
          (first + (holeIndex - 1) / 2) hp hne hlt)
      · exact List.Perm.refl _

theorem std.adjust_heap_down_spec {R : Type} (comp : R → R → Bool) (first len : Nat) :
    ∀ (fuel : Nat) (l : List R) (holeIndex : Nat), first + len ≤ l.length → holeIndex < len →
      (std.adjust_heap_down comp first len fuel l holeIndex holeIndex).2.1 < len ∧
      (std.adjust_heap_down comp first len fuel l holeIndex holeIndex).2.2 =
        (std.adjust_heap_down comp first len fuel l holeIndex holeIndex).2.1 ∧
      (std.adjust_heap_down comp first len fuel l holeIndex holeIndex).1.length = l.length ∧
      ∀ v, ((std.adjust_heap_down comp first len fuel l holeIndex holeIndex).1.set
          (first + (std.adjust_heap_down comp first len fuel l holeIndex holeIndex).2.1) v).Perm
        (l.set (first + holeIndex) v)
  | 0, l, holeIndex, _, h2 => ⟨h2, rfl, rfl, fun _ => List.Perm.refl _⟩
  | fuel + 1, l, holeIndex, h1, h2 => by
    unfold std.adjust_heap_down
    split
    · rename_i hlt
      dsimp only
      have hchild : ∃ child, child < len ∧ child ≠ holeIndex ∧
          (if std.comp_at comp l (first + 2 * (holeIndex + 1))
              (first + (2 * (holeIndex + 1) - 1)) = true
            then 2 * (holeIndex + 1) - 1 else 2 * (holeIndex + 1)) = child := by
        split
        · exact ⟨_, by omega, by omega, rfl⟩
        · exact ⟨_, by omega, by omega, rfl⟩
      obtain ⟨child, hc1, hc2, hc3⟩ := hchild
      rw [hc3]
      obtain ⟨a, ha⟩ := get_of_lt l (first + child) (by omega)
      rw [std.assign_eq l _ _ a ha]
      obtain ⟨k1, k2, k3, k4⟩ := std.adjust_heap_down_spec comp first len fuel
        (l.set (first + holeIndex) a) child (by rw [List.length_set]; exact h1) hc1
      refine ⟨k1, k2, by rw [k3, List.length_set], fun v => (k4 v).trans ?_⟩
      exact set_set_perm a v l (first + holeIndex) (first + child) ha (by omega) (by omega)
    · exact ⟨h2, rfl, rfl, fun _ => List.Perm.refl _⟩

theorem std.adjust_heap_perm {R : Type} (comp : R → R → Bool) (l : List R)
    (first holeIndex len : Nat) (value : R) (h1 : first + len ≤ l.length)
    (h2 : holeIndex < len) :
    (std.adjust_heap comp l first holeIndex len value).Perm (l.set (first + holeIndex) value) := by
  unfold std.adjust_heap
  dsimp only
  obtain ⟨k1, k2, k3, k4⟩ := std.adjust_heap_down_spec comp first len len l holeIndex h1 h2
  generalize std.adjust_heap_down comp first len len l holeIndex holeIndex = down at k1 k2 k3 k4
  split
  · rename_i hcond
    obtain ⟨heven, hne, hsc⟩ := hcond
    rw [k2] at hsc
    obtain ⟨a, ha⟩ := get_of_lt down.1 (first + (2 * (down.2.2 + 1) - 1)) (by rw [k2]; omega)
    rw [std.assign_eq _ _ _ a ha]
    refine (std.push_heap_perm comp first holeIndex value _ _ _
      (by rw [List.length_set, k2]; omega)).trans ?_
    refine (set_set_perm a value down.1 (first + down.2.1) (first + (2 * (down.2.2 + 1) - 1))
      ha (by rw [k2]; omega) (by omega)).trans (k4 value)
  · exact (std.push_heap_perm comp first holeIndex value _ _ _ (by omega)).trans (k4 value)

theorem std.pop_heap_perm {R : Type} (comp : R → R → Bool) (l : List R)
    (first last result : Nat) (h1 : first < last) (h2 : last ≤ l.length)
    (h3 : result < l.length) :
    (std.pop_heap comp l first last result).Perm l := by
  unfold std.pop_heap
  obtain ⟨value, hv⟩ := get_of_lt l result h3
  obtain ⟨top, ht⟩ := get_of_lt l first (by omega)
  rw [hv]
  dsimp only
  rw [std.assign_eq l _ _ top ht]
  refine (std.adjust_heap_perm comp _ first 0 (last - first) value
    (by rw [List.length_set]; omega) (by omega)).trans ?_
  by_cases hne : result = first
  · subst hne
    rw [hv] at ht
    cases ht
    rw [Nat.add_zero, set_of_get value l result hv, set_of_get value l result hv]
  · have h := set_set_perm top value l result first ht hne h3
    rw [set_of_get value l result hv] at h
    exact h

theorem std.make_heap_from_perm {R : Type} (comp : R → R → Bool) (first len : Nat) :
    ∀ (parent : Nat) (l : List R), first + len ≤ l.length → parent < len →
      (std.make_heap_from comp first len parent l).Perm l
  | 0, l, h1, h2 => by
    unfold std.make_heap_from
    obtain ⟨value, hv⟩ := get_of_lt l first (by omega)
    rw [hv]
    dsimp only
    have h := std.adjust_heap_perm comp l first 0 len value h1 h2
    rw [Nat.add_zero, set_of_get value l first hv] at h
    exact h
  | parent + 1, l, h1, h2 => by
    unfold std.make_heap_from
    obtain ⟨value, hv⟩ := get_of_lt l (first + (parent + 1)) (by omega)
    rw [hv]
    dsimp only
    have h := std.adjust_heap_perm comp l first (parent + 1) len value h1 h2
    rw [set_of_get value l _ hv] at h
    exact (std.make_heap_from_perm comp first len parent _
      (by rw [h.length_eq]; exact h1) (by omega)).trans h

theorem std.make_heap_perm {R : Type} (comp : R → R → Bool) (l : List R) (first last : Nat)
    (h : last ≤ l.length) : (std.make_heap comp l first last).Perm l := by
  unfold std.make_heap
  split
  · exact List.Perm.refl _
  · dsimp only
    exact std.make_heap_from_perm comp first (last - first) _ l (by omega) (by omega)

theorem std.sort_heap_from_perm {R : Type} (comp : R → R → Bool) (first : Nat) :
    ∀ (n : Nat) (l : List R), first + n ≤ l.length →
      (std.sort_heap_from comp first n l).Perm l
  | 0, l, _ => List.Perm.refl _
  | n + 1, l, h => by
    unfold std.sort_heap_from
    split
    · have hpop := std.pop_heap_perm comp l first (first + n) (first + n) (by omega) (by omega)
        (by omega)
      exact (std.sort_heap_from_perm comp first n _ (by rw [hpop.length_eq]; omega)).trans hpop
    · exact List.Perm.refl _

theorem std.partial_sort_range_perm {R : Type} (comp : R → R → Bool) (l : List R)
    (first last : Nat) (h : last ≤ l.length) :
    (std.partial_sort_range comp l first last last).Perm l := by
  unfold std.partial_sort_range std.heap_select std.sort_heap
  simp only [Nat.sub_self, List.range'_zero, List.foldl_nil]
  have hheap := std.make_heap_perm comp l first last h
  by_cases hle : first ≤ last
  · exact (std.sort_heap_from_perm comp first (last - first) _
      (by rw [hheap.length_eq]; omega)).trans hheap
  · have hzero : last - first = 0 := by omega
    rw [hzero]
    exact hheap

theorem std.introsort_loop_perm {R : Type} (comp : R → R → Bool) :
    ∀ (depth_limit : Nat) (l : List R) (first last : Nat), last ≤ l.length →
      (std.introsort_loop comp depth_limit l first last).Perm l
  | 0, l, first, last, h => by
    unfold std.introsort_loop
    split
    · exact std.partial_sort_range_perm comp l first last h
    · exact List.Perm.refl _
  | depth_limit + 1, l, first, last, h => by
    unfold std.introsort_loop
    split
    · dsimp only
      obtain ⟨hperm, hcut⟩ := std.unguarded_partition_pivot_spec comp l first last (by omega) h
      have hright := std.introsort_loop_perm comp depth_limit
        (std.unguarded_partition_pivot comp l first last).2
        (std.unguarded_partition_pivot comp l first last).1 last
        (by rw [hperm.length_eq]; exact h)
      have hleft := std.introsort_loop_perm comp depth_limit
        (std.introsort_loop comp depth_limit (std.unguarded_partition_pivot comp l first last).2
          (std.unguarded_partition_pivot comp l first last).1 last)
        first (std.unguarded_partition_pivot comp l first last).1
        (by rw [hright.length_eq, hperm.length_eq]; exact hcut)
      exact hleft.trans (hright.trans hperm)
    · exact List.Perm.refl _

theorem get_append_length {R : Type} (pre : List R) (x : R) (rest : List R) :
    (pre ++ x :: rest)[pre.length]? = some x := by
  induction pre with
  | nil => simp
  | cons a pre ih => simpa using ih

theorem std.unguarded_linear_insert_value_spec {R : Type} (comp : R → R → Bool) (val : R)
    (pre : List R) :
    ∀ (hole : R) (rest : List R),
      ∃ p1 p2, pre = p1 ++ p2 ∧ (∀ y ∈ p2, comp val y = true) ∧
        (∀ b, p1.getLast? = some b → comp val b = false) ∧
        std.unguarded_linear_insert_value comp val (pre ++ hole :: rest) pre.length =
          p1 ++ val :: (p2 ++ rest) := by
  induction pre using List.reverseRecOn with
  | nil =>
    intro hole rest
    exact ⟨[], [], rfl, by simp, by simp, by simp [std.unguarded_linear_insert_value]⟩
  | append_singleton pre b ih =>
    intro hole rest
    have hget : (pre ++ [b] ++ hole :: rest)[pre.length]? = some b := by
      rw [List.append_assoc]
      exact get_append_length pre b (hole :: rest)
    rw [List.length_append, List.length_singleton]
    unfold std.unguarded_linear_insert_value
    rw [hget]
    dsimp only
    by_cases hc : comp val b = true
    · rw [if_pos hc]
      have hset : (pre ++ [b] ++ hole :: rest).set (pre.length + 1) b = pre ++ b :: (b :: rest) := by
        simp [List.set_append]
      rw [hset]
      obtain ⟨p1, p2, h1, h2, h3, h4⟩ := ih b (b :: rest)
      refine ⟨p1, p2 ++ [b], by rw [h1, List.append_assoc], ?_, h3, ?_⟩
      · intro y hy
        rcases List.mem_append.mp hy with h | h
        · exact h2 y h
        · rw [List.mem_singleton.mp h]; exact hc
      · rw [h4]; simp
    · rw [if_neg hc]
      refine ⟨pre ++ [b], [], by simp, by simp, ?_, ?_⟩
      · intro b2 hb2
        simp only [List.getLast?_append, List.getLast?_singleton, Option.some_orElse,
          Option.some.injEq, Option.or_some] at hb2
        rw [← hb2]
        simpa using hc
      · simp [List.set_append]

theorem std.unguarded_linear_insert_sorted {R : Type} (comp : R → R → Bool)
    (hirr : ∀ a, comp a a = false)
    (htrans : ∀ a b c, comp a b = true → comp b c = true → comp a c = true)
    (hneg : ∀ a b c, comp a b = false → comp b c = false → comp a c = false)
    (pre : List R) (x : R) (rest : List R)
    (hs : pre.Pairwise (fun a b => comp b a = false)) :
    ∃ sorted, std.unguarded_linear_insert comp (pre ++ x :: rest) pre.length = sorted ++ rest ∧
      sorted.Perm (x :: pre) ∧ sorted.Pairwise (fun a b => comp b a = false) := by
  have hget : (pre ++ x :: rest)[pre.length]? = some x := get_append_length pre x rest
  unfold std.unguarded_linear_insert
  rw [hget]
  dsimp only
  obtain ⟨p1, p2, h1, h2, h3, h4⟩ :=
    std.unguarded_linear_insert_value_spec comp x pre x rest
  refine ⟨p1 ++ x :: p2, by rw [h4]; simp, ?_, ?_⟩
  · rw [h1]
    exact List.perm_middle
  · rw [h1, List.pairwise_append] at hs
    obtain ⟨hs1, hs2, hs3⟩ := hs
    have hbelow : ∀ a ∈ p1, comp x a = false := by
      rcases List.eq_nil_or_concat p1 with hnil | ⟨init, b, hcat⟩
      · rw [hnil]; simp
      · rw [List.concat_eq_append] at hcat
        intro a ha
        have hb : comp x b = false := h3 b (by rw [hcat]; simp)
        rw [hcat] at ha hs1
        rcases List.mem_append.mp ha with hin | hlast
        · rw [List.pairwise_append] at hs1
          exact hneg x b a hb (hs1.2.2 a hin b (by simp))
        · rw [List.mem_singleton.mp hlast]; exact hb
    rw [List.pairwise_append]
    refine ⟨hs1, List.pairwise_cons.mpr ⟨?_, hs2⟩, ?_⟩
    · intro y hy
      by_contra hyx
      have hyx2 : comp y x = true := by simpa using hyx
      have := htrans x y x (h2 y hy) hyx2
      rw [hirr x] at this
      cases this
    · intro a ha b hb
      rcases List.mem_cons.mp hb with hbx | hb2
      · rw [hbx]; exact hbelow a ha
      · exact hs3 a ha b hb2

theorem std.insertion_step_sorted {R : Type} (comp : R → R → Bool)
    (hirr : ∀ a, comp a a = false)
    (htrans : ∀ a b c, comp a b = true → comp b c = true → comp a c = true)
    (hneg : ∀ a b c, comp a b = false → comp b c = false → comp a c = false)
    (pre : List R) (x : R) (rest : List R)
    (hs : pre.Pairwise (fun a b => comp b a = false)) :
    ∃ sorted,
      (if std.comp_at comp (pre ++ x :: rest) pre.length 0 = true
        then std.move_to_first (pre ++ x :: rest) 0 pre.length
        else std.unguarded_linear_insert comp (pre ++ x :: rest) pre.length) = sorted ++ rest ∧
      sorted.Perm (x :: pre) ∧ sorted.Pairwise (fun a b => comp b a = false) := by
  have hget : (pre ++ x :: rest)[pre.length]? = some x := get_append_length pre x rest
  split
  · rename_i hc
    cases pre with
    | nil => simp [std.comp_at, hirr] at hc
    | cons p0 pre =>
      have hx : comp x p0 = true := by
        have h0 : (p0 :: pre ++ x :: rest)[0]? = some p0 := by simp
        unfold std.comp_at at hc
        rw [hget, h0] at hc
        exact hc
      refine ⟨x :: p0 :: pre, ?_, List.Perm.refl _, List.pairwise_cons.mpr ⟨?_, hs⟩⟩
      · unfold std.move_to_first
        rw [hget]
        simp
      · intro a ha
        by_contra hax
        have hax2 : comp a x = true := by simpa using hax
        have hap : comp a p0 = true := htrans a x p0 hax2 hx
        rcases List.mem_cons.mp ha with h | h
        · rw [h, hirr p0] at hap; cases hap
        · rw [(List.pairwise_cons.mp hs).1 a h] at hap; cases hap
  · exact std.unguarded_linear_insert_sorted comp hirr htrans hneg pre x rest hs

theorem std.insertion_loop_sorted {R : Type} (comp : R → R → Bool)
    (step : List R → Nat → List R)
    (hstep : ∀ (pre : List R) (x : R) (rest : List R),
      pre.Pairwise (fun a b => comp b a = false) →
      ∃ sorted, step (pre ++ x :: rest) pre.length = sorted ++ rest ∧
        sorted.Perm (x :: pre) ∧ sorted.Pairwise (fun a b => comp b a = false)) :
    ∀ (n s : Nat) (l : List R), s + n ≤ l.length →
      (l.take s).Pairwise (fun a b => comp b a = false) →
      ((List.range' s n).foldl step l).Perm l ∧
      (((List.range' s n).foldl step l).take (s + n)).Pairwise (fun a b => comp b a = false)
  | 0, s, l, _, hs => by simpa using hs
  | n + 1, s, l, hlen, hs => by
    have hsplit : l = l.take s ++ l[s] :: l.drop (s + 1) := by
      rw [← List.drop_eq_getElem_cons (by omega), List.take_append_drop]
    have htake : (l.take s).length = s := by
      rw [List.length_take]; omega
    obtain ⟨sorted, h1, h2, h3⟩ := hstep (l.take s) l[s] (l.drop (s + 1)) hs
    rw [← hsplit, htake] at h1
    have hperm : (step l s).Perm l := by
      rw [h1]
      exact ((List.Perm.append_right _ h2).trans List.perm_middle.symm).trans
        (List.Perm.of_eq hsplit.symm)
    have hsl : sorted.length = s + 1 := by
      rw [h2.length_eq, List.length_cons, htake]
    have hnext : ((step l s).take (s + 1)).Pairwise (fun a b => comp b a = false) := by
      rw [h1, List.take_left' hsl]
      exact h3
    obtain ⟨k1, k2⟩ := std.insertion_loop_sorted comp step hstep n (s + 1) (step l s)
      (by rw [hperm.length_eq]; omega) hnext
    rw [List.range'_succ, List.foldl_cons]
    refine ⟨k1.trans hperm, ?_⟩
    have : s + (n + 1) = s + 1 + n := by omega
    rw [this]
    exact k2

theorem std.final_insertion_sort_spec {R : Type} (comp : R → R → Bool)
    (hirr : ∀ a, comp a a = false)
    (htrans : ∀ a b c, comp a b = true → comp b c = true → comp a c = true)
    (hneg : ∀ a b c, comp a b = false → comp b c = false → comp a c = false)
    (l : List R) :
    (std.final_insertion_sort comp l 0 l.length).Perm l ∧
    (std.final_insertion_sort comp l 0 l.length).Pairwise (fun a b => comp b a = false) := by
  have hguarded := std.insertion_loop_sorted comp
    (fun l i => if std.comp_at comp l i 0 = true then std.move_to_first l 0 i
      else std.unguarded_linear_insert comp l i)
    (std.insertion_step_sorted comp hirr htrans hneg)
  have hunguarded := std.insertion_loop_sorted comp
    (fun l i => std.unguarded_linear_insert comp l i)
    (std.unguarded_linear_insert_sorted comp hirr htrans hneg)
  have hone : ∀ m : List R, (m.take 1).Pairwise (fun a b => comp b a = false) := by
    intro m
    cases m with
    | nil => simp
    | cons a m => simp
  unfold std.final_insertion_sort
  split
  · rename_i hlong
    dsimp only
    unfold std.insertion_sort std.unguarded_insertion_sort
    rw [if_neg (by omega)]
    obtain ⟨h1, h2⟩ := hguarded 15 1 l (by omega) (hone l)
    simp only [Nat.zero_add, Nat.reduceSub] at h1 h2 ⊢
    obtain ⟨k1, k2⟩ := hunguarded (l.length - 16) 16 _ (by rw [h1.length_eq]; omega) h2
    refine ⟨k1.trans h1, ?_⟩
    have hall : 16 + (l.length - 16) = l.length := by omega
    rw [hall, List.take_of_length_le (by rw [k1.length_eq, h1.length_eq])] at k2
    exact k2
  · rename_i hshort
    unfold std.insertion_sort
    split
    · rename_i hzero
      have : l = [] := List.length_eq_zero.mp hzero.symm
      subst this
      exact ⟨List.Perm.refl _, List.Pairwise.nil⟩
    · rename_i hpos
      obtain ⟨h1, h2⟩ := hguarded (l.length - 1) 1 l (by omega) (hone l)
      simp only [Nat.zero_add] at h1 h2 ⊢
      refine ⟨h1, ?_⟩
      have hall : 1 + (l.length - 1) = l.length := by omega
      rw [hall, List.take_of_length_le (by rw [h1.length_eq])] at h2
      exact h2

theorem std.sort_contract {R : Type} : StdSortContract (@std.sort R) := by
  intro comp hirr htrans hneg l
  unfold std.sort
  split
  · dsimp only
    have hloop := std.introsort_loop_perm comp (std.lg l.length * 2) l 0 l.length
      (Nat.le_refl _)
    obtain ⟨h1, h2⟩ := std.final_insertion_sort_spec comp hirr htrans hneg
      (std.introsort_loop comp (std.lg l.length * 2) l 0 l.length)
    exact ⟨h1.trans hloop, h2⟩
  · rename_i hzero
    have : l = [] := by
      by_contra hne
      exact hzero (fun h => hne (List.length_eq_zero.mp h))
    subst this
    exact ⟨List.Perm.refl _, List.Pairwise.nil⟩

theorem eq_of_perm_of_sorted_on {R : Type} (rel : R → R → Prop) :
    ∀ (l₁ l₂ : List R), (∀ a ∈ l₁, ∀ b ∈ l₁, rel a b → rel b a → a = b) → l₁.Perm l₂ →
      l₁.Pairwise rel → l₂.Pairwise rel → l₁ = l₂
  | [], l₂, _, hp, _, _ => hp.nil_eq
  | a :: l₁, l₂, hanti, hp, hs₁, hs₂ => by
    have ha : a ∈ l₂ := hp.subset (List.mem_cons_self _ _)
    obtain ⟨u₂, v₂, rfl⟩ := List.append_of_mem ha
    have hp2 : l₁.Perm (u₂ ++ v₂) := (List.perm_cons a).1 (hp.trans List.perm_middle)
    have hs₂2 : (u₂ ++ v₂).Pairwise rel := hs₂.sublist (by simp)
    have heq := eq_of_perm_of_sorted_on rel l₁ (u₂ ++ v₂)
      (fun x hx y hy => hanti x (List.mem_cons_of_mem _ hx) y (List.mem_cons_of_mem _ hy))
      hp2 (List.pairwise_cons.mp hs₁).2 hs₂2
    subst heq
    have hall : ∀ x ∈ u₂, x = a := by
      intro x hx
      have hxa : rel x a := (List.pairwise_append.mp hs₂).2.2 x hx a (List.mem_cons_self _ _)
      have hax : rel a x := (List.pairwise_cons.mp hs₁).1 x (List.mem_append_left _ hx)
      exact hanti x (List.mem_cons_of_mem _ (List.mem_append_left _ hx)) a
        (List.mem_cons_self _ _) hxa hax
    have hu : a :: u₂ = u₂ ++ [a] := by
      clear hanti hp hs₁ hs₂ ha hp2 hs₂2
      induction u₂ with
      | nil => rfl
      | cons x u ih =>
        have hx : x = a := hall x (List.mem_cons_self _ _)
        subst hx
        rw [List.cons_append, ← ih (fun y hy => hall y (List.mem_cons_of_mem _ hy))]
    calc a :: (u₂ ++ v₂) = (a :: u₂) ++ v₂ := rfl
      _ = (u₂ ++ [a]) ++ v₂ := by rw [hu]
      _ = u₂ ++ a :: v₂ := by simp

theorem OTRecordList.asset_cared_about_iff {R : Type} (r : OTRecordList R)
    (payment : OTPayment) :
    r.asset_cared_about payment = true ↔
      ∀ id, payment.GetInstrumentDefinitionID = some id → id ∈ r.m_assets.map Prod.fst := by
  unfold OTRecordList.asset_cared_about
  cases payment.GetInstrumentDefinitionID with
  | none => simp
  | some id =>
    simp only [Option.some.injEq, forall_eq', List.find?_isSome, beq_iff_eq, List.mem_map]

theorem OTRecordList.type_enabled_iff {R : Type} (r : OTRecordList R) (type : paymentType) :
    r.type_enabled (GetTypeString type.toNat) = true ↔
      ((r.m_bAutoAcceptCheques = true ∧ (type = .CHEQUE ∨ type = .VOUCHER)) ∨
       (r.m_bAutoAcceptCash = true ∧ type = .PURSE)) := by
  unfold OTRecordList.type_enabled
  cases r.m_bAutoAcceptCheques <;> cases r.m_bAutoAcceptCash <;> cases type <;> decide

theorem OTRecordList.payment_to_accept_eq_some {R : Type} (r : OTRecordList R)
    (pPayment : Option OTPayment) (payment : OTPayment) :
    r.payment_to_accept pPayment = some payment ↔
      pPayment = some payment ∧ payment.IsValid = true ∧ payment.SetTempValues = true ∧
      (∀ id, payment.GetInstrumentDefinitionID = some id → id ∈ r.m_assets.map Prod.fst) ∧
      ((r.m_bAutoAcceptCheques = true ∧
          (payment.GetType = .CHEQUE ∨ payment.GetType = .VOUCHER)) ∨
       (r.m_bAutoAcceptCash = true ∧ payment.GetType = .PURSE)) := by
  cases pPayment with
  | none => simp [OTRecordList.payment_to_accept]
  | some q =>
    rw [← OTRecordList.asset_cared_about_iff, ← OTRecordList.type_enabled_iff]
    unfold OTRecordList.payment_to_accept
    dsimp only
    constructor
    · intro h
      split_ifs at h with h1 h2 h3
      · simp only [Option.some.injEq] at h
        subst h
        simp only [Bool.and_eq_true] at h1
        have h2b : r.asset_cared_about q = true := by
          cases hc : r.asset_cared_about q
          · rw [hc] at h2; exact absurd rfl h2
          · rfl
        exact ⟨rfl, h1.1, h1.2, h2b, h3⟩
    · rintro ⟨hq, hv, ht, hcare, hty⟩
      simp only [Option.some.injEq] at hq
      subst hq
      simp [hv, ht, hcare, hty]

theorem OTRecordList.mem_payment_queue {R : Type} (r : OTRecordList R) (inbox : PaymentInbox)
    (q : QueuedPayment) :
    q ∈ r.payment_queue inbox ↔
      inbox[q.nIndex]? = some (q.lPaymentBoxTransNum, some q.payment) ∧
      q.payment.IsValid = true ∧ q.payment.SetTempValues = true ∧
      (∀ id, q.payment.GetInstrumentDefinitionID = some id → id ∈ r.m_assets.map Prod.fst) ∧
      ((r.m_bAutoAcceptCheques = true ∧
          (q.payment.GetType = .CHEQUE ∨ q.payment.GetType = .VOUCHER)) ∨
       (r.m_bAutoAcceptCash = true ∧ q.payment.GetType = .PURSE)) := by
  unfold OTRecordList.payment_queue
  rw [List.mem_filterMap]
  constructor
  · rintro ⟨⟨i, n, pPayment⟩, hmem, hf⟩
    rw [List.mk_mem_enum_iff_getElem?] at hmem
    dsimp only at hf
    cases hacc : r.payment_to_accept pPayment with
    | none => rw [hacc] at hf; cases hf
    | some payment =>
      rw [hacc] at hf
      simp only [Option.some.injEq] at hf
      subst hf
      obtain ⟨hp, hrest⟩ := (r.payment_to_accept_eq_some pPayment payment).mp hacc
      subst hp
      exact ⟨hmem, hrest⟩
  · rintro ⟨hget, hrest⟩
    refine ⟨(q.nIndex, q.lPaymentBoxTransNum, some q.payment), ?_, ?_⟩
    · rw [List.mk_mem_enum_iff_getElem?]; exact hget
    · have hacc := (r.payment_to_accept_eq_some (some q.payment) q.payment).mpr ⟨rfl, hrest⟩
      dsimp only
      rw [hacc]

theorem take_while_nonzero_append (l rest : List Nat) (h : ∀ x ∈ l, x ≠ 0) :
    (l ++ 0 :: rest).takeWhile (fun b => decide (b ≠ 0)) = l := by
  induction l with
  | nil => simp [List.takeWhile]
  | cons a l ih =>
    have ha : a ≠ 0 := h a (List.mem_cons_self _ _)
    have hl : ∀ x ∈ l, x ≠ 0 := fun x hx => h x (List.mem_cons_of_mem _ hx)
    rw [List.cons_append, List.takeWhile_cons, if_pos (by simp [ha]), ih hl]

theorem c_str_nonzero (memory : List Nat) : ∀ x ∈ c_str memory, x ≠ 0 := by
  intro x hx
  have := List.mem_takeWhile_imp hx
  simpa using this

theorem str_dup2_in_range (junk : Nat) (str : List Nat) (length : Nat)
    (h : length + 1 < 2 ^ 32) :
    ∃ str_new, str_dup2 junk str length = some str_new ∧ str_new.length = length + 1 ∧
      c_str str_new = (c_str str).take length ∧ str_new[length]? = some 0 := by
  have hmod : (length + 1) % 2 ^ 32 = length + 1 := Nat.mod_eq_of_lt h
  have hlen : ((c_str str).take length).length ≤ length := by
    rw [List.length_take]; exact Nat.min_le_left _ _
  have hdrop : (List.replicate (length + 1) junk).drop length = [junk] := by
    rw [List.drop_replicate]; simp
  have hbuf : strncpy (List.replicate (length + 1) junk) str length =
      some ((c_str str).take length ++
        List.replicate (length - ((c_str str).take length).length) 0 ++ [junk]) := by
    unfold strncpy
    rw [if_pos (by simp)]
    simp only [hdrop]
  have hpre : ((c_str str).take length ++
      List.replicate (length - ((c_str str).take length).length) 0).length = length := by
    rw [List.length_append, List.length_replicate]; omega
  have hset : ((c_str str).take length ++
        List.replicate (length - ((c_str str).take length).length) 0 ++ [junk]).set length 0 =
      (c_str str).take length ++
        List.replicate (length - ((c_str str).take length).length) 0 ++ [0] := by
    rw [List.set_append_right _ _ (by omega), hpre]
    simp
  refine ⟨(c_str str).take length ++
      List.replicate (length - ((c_str str).take length).length) 0 ++ [0], ?_, ?_, ?_, ?_⟩
  · unfold str_dup2
    simp only [hmod, hbuf]
    rw [if_pos (by simp only [List.length_append, hpre, List.length_singleton]; omega), hset]
  · rw [List.length_append, hpre]; rfl
  · have hzeros : List.replicate (length - ((c_str str).take length).length) 0 ++ [0] =
        0 :: List.replicate (length - ((c_str str).take length).length) 0 := by
      rw [← List.replicate_succ, List.replicate_succ']
    rw [List.append_assoc, hzeros]
    unfold c_str
    exact take_while_nonzero_append _ _
      (fun x hx => c_str_nonzero str x (List.mem_of_mem_take hx))
  · rw [List.getElem?_append_right (by omega), hpre]
    simp

/-! ## The claims on the record list and on `str_dup2` -/

/-- C15: `OTRecordList::setAddrBookCaller` returns false and leaves the registered
caller as it is when the given caller has no callback set, and returns true and
registers the given caller when it has one, whether or not a caller was
registered before; `OT_API_Set_AddrBookCallback` gives the same result and the
same registered caller; a caller has a callback set exactly when its pointer is
not null, which `setCallback` with an object achieves and `setCallback` with
`nullptr` leaves as it was. -/
theorem C15_setAddrBookCaller (s_pCaller : Option Nat) (theCaller : OTLookupCaller) :
    OTRecordList.setAddrBookCaller s_pCaller theCaller =
      (if theCaller.isCallbackSet = true then (true, some theCaller.address)
       else (false, s_pCaller)) ∧
    OT_API_Set_AddrBookCallback s_pCaller theCaller =
      OTRecordList.setAddrBookCaller s_pCaller theCaller ∧
    (theCaller.isCallbackSet = true ↔ theCaller._callback ≠ none) ∧
    (∀ cb : Nat, (theCaller.setCallback (some cb)).isCallbackSet = true) ∧
    theCaller.setCallback none = theCaller := by
  refine ⟨?_, ?_, ?_, ?_, ?_⟩
  · unfold OTRecordList.setAddrBookCaller
    cases theCaller.isCallbackSet <;> simp
  · unfold OT_API_Set_AddrBookCallback OTRecordList.setAddrBookCaller
    cases theCaller.isCallbackSet <;> simp
  · unfold OTLookupCaller.isCallbackSet
    cases theCaller._callback <;> simp
  · intro cb
    simp [OTLookupCaller.setCallback, OTLookupCaller.delCallback,
      OTLookupCaller.isCallbackSet]
  · rfl

/-- C16: `SetNotaryID`, `SetNymID` and `SetAccountID` leave their list equal to the
one-element list of the given ID, empty the record contents and leave the other
lists as they are; `AddNotaryID`, `AddNymID` and `AddAccountID` append the ID at
the end of their list, duplicates kept, and change neither the records nor the
other lists. -/
theorem C16_set_and_add_ids {R : Type} (r : OTRecordList R) (id : String) :
    ((r.SetNotaryID id).m_servers = [id] ∧ (r.SetNotaryID id).m_contents = [] ∧
      (r.SetNotaryID id).m_nyms = r.m_nyms ∧ (r.SetNotaryID id).m_accounts = r.m_accounts ∧
      (r.SetNotaryID id).m_assets = r.m_assets) ∧
    ((r.SetNymID id).m_nyms = [id] ∧ (r.SetNymID id).m_contents = [] ∧
      (r.SetNymID id).m_servers = r.m_servers ∧ (r.SetNymID id).m_accounts = r.m_accounts ∧
      (r.SetNymID id).m_assets = r.m_assets) ∧
    ((r.SetAccountID id).m_accounts = [id] ∧ (r.SetAccountID id).m_contents = [] ∧
      (r.SetAccountID id).m_servers = r.m_servers ∧ (r.SetAccountID id).m_nyms = r.m_nyms ∧
      (r.SetAccountID id).m_assets = r.m_assets) ∧
    ((r.AddNotaryID id).m_servers = r.m_servers ++ [id] ∧
      (r.AddNotaryID id).m_contents = r.m_contents ∧ (r.AddNotaryID id).m_nyms = r.m_nyms ∧
      (r.AddNotaryID id).m_accounts = r.m_accounts ∧
      (r.AddNotaryID id).m_assets = r.m_assets) ∧
    ((r.AddNymID id).m_nyms = r.m_nyms ++ [id] ∧
      (r.AddNymID id).m_contents = r.m_contents ∧ (r.AddNymID id).m_servers = r.m_servers ∧
      (r.AddNymID id).m_accounts = r.m_accounts ∧ (r.AddNymID id).m_assets = r.m_assets) ∧
    ((r.AddAccountID id).m_accounts = r.m_accounts ++ [id] ∧
      (r.AddAccountID id).m_contents = r.m_contents ∧
      (r.AddAccountID id).m_servers = r.m_servers ∧ (r.AddAccountID id).m_nyms = r.m_nyms ∧
      (r.AddAccountID id).m_assets = r.m_assets) ∧
    ((r.AddNotaryID id).AddNotaryID id).m_servers = r.m_servers ++ [id, id] := by
  simp [OTRecordList.SetNotaryID, OTRecordList.SetNymID, OTRecordList.SetAccountID,
    OTRecordList.AddNotaryID, OTRecordList.AddNymID, OTRecordList.AddAccountID,
    OTRecordList.ClearServers, OTRecordList.ClearNyms, OTRecordList.ClearAccounts,
    OTRecordList.ClearContents]

/-- C17, refuted as stated: with `std::sort` as the GNU C++ library implements it
and records ordered by date, `SortRecords` puts a list of seventeen records of the
same date into another order, and calling it a second time changes the order
again.  (The two records of the same date of `exampleRecordList` are left in
their order: up to 16 records the library sorts by insertion.) -/
theorem C17_counterexample :
    ((∀ a, exampleLess a a = false) ∧
     (∀ a b c, exampleLess a b = true → exampleLess b c = true → exampleLess a c = true) ∧
     (∀ a b c, exampleLess a b = false → exampleLess b c = false →
        exampleLess a c = false)) ∧
    (exampleRecordList.SortRecords std.sort exampleLess).m_contents = [(1, 10), (2, 10)] ∧
    (exampleTiedList.SortRecords std.sort exampleLess).m_contents =
      [(9, 10), (17, 10), (16, 10), (15, 10), (14, 10), (13, 10), (12, 10), (11, 10),
       (10, 10), (1, 10), (8, 10), (7, 10), (6, 10), (5, 10), (4, 10), (3, 10), (2, 10)] ∧
    ((exampleTiedList.SortRecords std.sort exampleLess).SortRecords
        std.sort exampleLess).m_contents =
      [(10, 10), (2, 10), (3, 10), (4, 10), (5, 10), (6, 10), (7, 10), (8, 10), (1, 10),
       (9, 10), (11, 10), (12, 10), (13, 10), (14, 10), (15, 10), (16, 10), (17, 10)] ∧
    ((exampleTiedList.SortRecords std.sort exampleLess).SortRecords
        std.sort exampleLess).m_contents ≠
      (exampleTiedList.SortRecords std.sort exampleLess).m_contents := by
  refine ⟨⟨?_, ?_, ?_⟩, by decide, by decide, by decide, by decide⟩
  · intro a; simp [exampleLess]
  · intro a b c; simp only [exampleLess, decide_eq_true_eq]; omega
  · intro a b c; simp only [exampleLess, decide_eq_false_iff_not]; omega

/-- C17, amended: for every record list, every strict weak order used as
`OTRecord`'s less-than and every `std::sort` that meets the contract of the C++
standard, `SortRecords` leaves a permutation of the previous records in which no
record is less than a record that follows it; after a second call the list is
again such a permutation, and it is the same list when no two different records
of the list are equivalent under the order. -/
theorem C17_sorted_permutation {R : Type}
    (std_sort : (R → R → Bool) → List R → List R) (less : R → R → Bool)
    (r : OTRecordList R)
    (hsort : StdSortContract std_sort)
    (hirr : ∀ a, less a a = false)
    (htrans : ∀ a b c, less a b = true → less b c = true → less a c = true)
    (hneg : ∀ a b c, less a b = false → less b c = false → less a c = false) :
    (r.SortRecords std_sort less).m_contents.Perm r.m_contents ∧
    (r.SortRecords std_sort less).m_contents.Pairwise (fun a b => less a b = false) ∧
    ((r.SortRecords std_sort less).SortRecords std_sort less).m_contents.Perm r.m_contents ∧
    ((r.SortRecords std_sort less).SortRecords std_sort less).m_contents.Pairwise
      (fun a b => less a b = false) ∧
    ((∀ a ∈ r.m_contents, ∀ b ∈ r.m_contents,
        less a b = false → less b a = false → a = b) →
      ((r.SortRecords std_sort less).SortRecords std_sort less).m_contents =
        (r.SortRecords std_sort less).m_contents) := by
  have hcontract := hsort (fun i j => less j i) hirr
    (fun a b c hab hbc => htrans c b a hbc hab)
    (fun a b c hab hbc => hneg c b a hbc hab)
  obtain ⟨hp1, hs1⟩ := hcontract r.m_contents
  obtain ⟨hp2, hs2⟩ := hcontract (std_sort (fun i j => less j i) r.m_contents)
  refine ⟨hp1, hs1, hp2.trans hp1, hs2, ?_⟩
  intro hties
  refine eq_of_perm_of_sorted_on (fun a b => less a b = false) _ _ ?_ hp2 hs2 hs1
  intro a ha b hb hab hba
  exact hties a ((hp2.trans hp1).subset ha) b ((hp2.trans hp1).subset hb) hab hba

/-- C17, amended, with `std::sort` as the GNU C++ library implements it, which
meets the contract, at a record list of three records of different dates: the
records are put in the order of their dates, the latest first, and a second call
leaves them so. -/
theorem C17_sorted_permutation_witness :
    StdSortContract (@std.sort (Nat × Nat)) ∧
    (∀ a ∈ exampleDatedList.m_contents, ∀ b ∈ exampleDatedList.m_contents,
      exampleLess a b = false → exampleLess b a = false → a = b) ∧
    (exampleDatedList.SortRecords std.sort exampleLess).m_contents =
      [(2, 30), (3, 20), (1, 10)] ∧
    ((exampleDatedList.SortRecords std.sort exampleLess).SortRecords
        std.sort exampleLess).m_contents =
      (exampleDatedList.SortRecords std.sort exampleLess).m_contents :=
  ⟨std.sort_contract, by decide, by decide,
   (C17_sorted_permutation std.sort exampleLess exampleDatedList std.sort_contract
      (fun a => by simp [exampleLess])
      (fun a b c => by simp only [exampleLess, decide_eq_true_eq]; omega)
      (fun a b c => by simp only [exampleLess, decide_eq_false_iff_not]; omega)).2.2.2.2
     (by decide)⟩

/-- C18: in `PerformAutoAccept`, the instrument at an index of a loaded payments
inbox is put on the acceptance list, with that index and the transaction number
of its receipt, exactly when it loads, is valid with its temporary values set,
its instrument definition (when it has one) is on the map of assets cared about,
and either cheques are accepted automatically and its type is cheque or voucher,
or cash is accepted automatically and its type is cash; so an invoice, a payment
plan, a smart contract or an agreement notice is never on the list.  The lists
the payments pass works on are these lists, one for every inbox it loads. -/
theorem C18_queued_iff_acceptable {R : Type} (api : OTAPI) (r : OTRecordList R)
    (inbox : PaymentInbox) (q : QueuedPayment) :
    (q ∈ r.payment_queue inbox ↔
      inbox[q.nIndex]? = some (q.lPaymentBoxTransNum, some q.payment) ∧
      q.payment.IsValid = true ∧ q.payment.SetTempValues = true ∧
      (∀ id, q.payment.GetInstrumentDefinitionID = some id → id ∈ r.m_assets.map Prod.fst) ∧
      ((r.m_bAutoAcceptCheques = true ∧
          (q.payment.GetType = .CHEQUE ∨ q.payment.GetType = .VOUCHER)) ∨
       (r.m_bAutoAcceptCash = true ∧ q.payment.GetType = .PURSE))) ∧
    (q ∈ r.payment_queue inbox →
      q.payment.GetType ≠ .INVOICE ∧ q.payment.GetType ≠ .PAYMENT_PLAN ∧
      q.payment.GetType ≠ .SMART_CONTRACT ∧ q.payment.GetType ≠ .NOTICE ∧
      q.payment.GetType ≠ .ERROR_STATE) ∧
    (∀ nym server queue, (nym, server, queue) ∈ r.PerformAutoAccept_payment_queues api →
      queue = [] ∨
      ∃ loaded, api.LoadPaymentInbox r.m_bRunFast server nym = some loaded ∧
        queue = r.payment_queue loaded) := by
  refine ⟨r.mem_payment_queue inbox q, ?_, ?_⟩
  · intro hq
    obtain ⟨-, -, -, -, hty⟩ := (r.mem_payment_queue inbox q).mp hq
    rcases hty with ⟨-, h | h⟩ | ⟨-, h⟩ <;> rw [h] <;> decide
  · intro nym server queue hmem
    unfold OTRecordList.PerformAutoAccept_payment_queues at hmem
    split at hmem
    · simp only [List.mem_flatMap] at hmem
      obtain ⟨n, -, hn⟩ := hmem
      split at hn
      · cases hn
      · simp only [List.mem_flatMap] at hn
        obtain ⟨sv, -, hsv⟩ := hn
        split at hsv
        · cases hsv
        · split at hsv
          · rename_i loaded hload
            simp only [List.mem_singleton, Prod.mk.injEq] at hsv
            obtain ⟨rfl, rfl, rfl⟩ := hsv
            exact Or.inr ⟨loaded, hload, rfl⟩
          · simp only [List.mem_singleton, Prod.mk.injEq] at hsv
            exact Or.inl hsv.2.2
    · cases hmem

/-- C19, evaluated where it fails: for the one-character string `a` and the length
4294967295 the size `length + 1` of the new array wraps to 0 in 32 bits, and the
copy of `length` bytes goes beyond the array; no buffer of `length + 1` bytes is
returned. -/
theorem C19_length_wraps :
    (4294967295 + 1) % 2 ^ 32 = 0 ∧
    str_dup2 0 [97, 0] 4294967295 = none := by
  decide

/-- C20, evaluated where it fails: with receipts accepted automatically, an inbox
of two receipts and `make_sure_enough_trans_nums` returning false, the calls made
for the account are that one and then `Transaction_CreateResponse` for the second
receipt, on the empty response ledger. -/
theorem C20_second_receipt_not_skipped :
    exampleApi.make_sure_enough_trans_nums 20 "notary1" "alice" = false ∧
    exampleRecordList.PerformAutoAccept_accounts exampleApi =
      [("acct1",
        [.make_sure_enough_trans_nums 20 "notary1" "alice",
         .Transaction_CreateResponse "notary1" "alice" "acct1" "" "receipt2" true])] := by
  decide

/-! ## Lemmas for the passes of `PerformAutoAccept`, the amounts and the unit index -/

theorem OTRecordList.inbox_step_calls {R : Type} (api : OTAPI) (r : OTRecordList R)
    (str_notary_id str_nym_id str_account_id str_inbox : String)
    (st : OTRecordList.InboxLoop) (t : InboxTransaction) (c : ApiCall)
    (hc : c ∈ (OTRecordList.inbox_step api r str_notary_id str_nym_id str_account_id str_inbox
        st t).calls) :
    c ∈ st.calls ∨ c.isLoopCall = true := by
  unfold OTRecordList.inbox_step at hc
  dsimp only at hc
  split_ifs at hc <;> (try simp at hc) <;>
    first
      | exact Or.inl hc
      | (rcases hc with hc | hc | hc | hc <;>
          first | exact Or.inl hc | (subst hc; exact Or.inr rfl))
      | (rcases hc with hc | hc | hc <;>
          first | exact Or.inl hc | (subst hc; exact Or.inr rfl))
      | (rcases hc with hc | hc <;>
          first | exact Or.inl hc | (subst hc; exact Or.inr rfl))

theorem OTRecordList.inbox_step_skip {R : Type} (api : OTAPI) (r : OTRecordList R)
    (str_notary_id str_nym_id str_account_id str_inbox : String)
    (st : OTRecordList.InboxLoop) (t : InboxTransaction)
    (hq : ((r.m_bAutoAcceptReceipts && !t.isPending) ||
      (r.m_bAutoAcceptTransfers && t.isPending)) = false) :
    OTRecordList.inbox_step api r str_notary_id str_nym_id str_account_id str_inbox st t = st := by
  unfold OTRecordList.inbox_step
  dsimp only
  rw [if_neg (by simp [hq])]

theorem OTRecordList.inbox_loop_calls {R : Type} (api : OTAPI) (r : OTRecordList R)
    (str_notary_id str_nym_id str_account_id str_inbox : String)
    (transactions : List InboxTransaction) (st : OTRecordList.InboxLoop) (c : ApiCall)
    (hc : c ∈ (transactions.foldl
      (OTRecordList.inbox_step api r str_notary_id str_nym_id str_account_id str_inbox) st).calls) :
    c ∈ st.calls ∨ c.isLoopCall = true := by
  induction transactions generalizing st with
  | nil => exact Or.inl hc
  | cons t rest ih =>
    rcases ih _ hc with h | h
    · exact OTRecordList.inbox_step_calls api r _ _ _ _ st t c h
    · exact Or.inr h

theorem OTRecordList.inbox_loop_skip {R : Type} (api : OTAPI) (r : OTRecordList R)
    (str_notary_id str_nym_id str_account_id str_inbox : String)
    (transactions : List InboxTransaction) (st : OTRecordList.InboxLoop)
    (hq : ∀ t ∈ transactions, ((r.m_bAutoAcceptReceipts && !t.isPending) ||
      (r.m_bAutoAcceptTransfers && t.isPending)) = false) :
    transactions.foldl
      (OTRecordList.inbox_step api r str_notary_id str_nym_id str_account_id str_inbox) st =
      st := by
  induction transactions generalizing st with
  | nil => rfl
  | cons t rest ih =>
    rw [List.foldl_cons,
      OTRecordList.inbox_step_skip api r _ _ _ _ st t (hq t (List.mem_cons_self _ _))]
    exact ih st (fun u hu => hq u (List.mem_cons_of_mem _ hu))

theorem OTRecordList.accept_account_inbox_shape {R : Type} (api : OTAPI)
    (r : OTRecordList R) (str_notary_id str_nym_id str_account_id : String)
    (inbox : AccountInbox) :
    ∃ looped sending,
      r.accept_account_inbox api str_notary_id str_nym_id str_account_id inbox =
        looped ++ sending ∧
      (∀ c ∈ looped, c.isLoopCall = true) ∧
      (sending = [] ∨
        ∃ ledger after, ledger ≠ "" ∧
          ledger = (inbox.transactions.foldl
            (OTRecordList.inbox_step api r str_notary_id str_nym_id str_account_id
              inbox.str_inbox) ⟨false, "", []⟩).strResponseLedger ∧
          sending =
            .Ledger_FinalizeResponse str_notary_id str_nym_id str_account_id ledger :: after ∧
          (∀ c ∈ after, c.isFinalize = false ∧ c.isLoopCall = false) ∧
          (∀ n y a f, ApiCall.process_inbox n y a f ∈ after →
            f ≠ "" ∧
            f = api.Ledger_FinalizeResponse str_notary_id str_nym_id str_account_id ledger)) := by
  have hloop := OTRecordList.inbox_loop_calls api r str_notary_id str_nym_id str_account_id
    inbox.str_inbox inbox.transactions ⟨false, "", []⟩
  unfold OTRecordList.accept_account_inbox
  dsimp only
  generalize inbox.transactions.foldl
    (OTRecordList.inbox_step api r str_notary_id str_nym_id str_account_id inbox.str_inbox)
    ⟨false, "", []⟩ = st at hloop ⊢
  have hlooped : ∀ c ∈ st.calls, c.isLoopCall = true := by
    intro c hc
    rcases hloop c hc with h | h
    · simp at h
    · exact h
  by_cases hsend : (st.bFoundAnyToAccept && !st.strResponseLedger.isEmpty) = true
  · rw [if_pos hsend]
    have hledger : st.strResponseLedger ≠ "" := by
      intro he
      have hempty : ("" : String).isEmpty = true := by decide
      rw [he, hempty] at hsend
      simp at hsend
    by_cases hfinal : (api.Ledger_FinalizeResponse str_notary_id str_nym_id str_account_id
        st.strResponseLedger).isEmpty = true
    · rw [if_pos hfinal]
      exact ⟨st.calls, _, rfl, hlooped, Or.inr ⟨st.strResponseLedger, [], hledger, rfl, rfl,
        by simp, by simp⟩⟩
    · rw [if_neg hfinal]
      have hne : api.Ledger_FinalizeResponse str_notary_id str_nym_id str_account_id
          st.strResponseLedger ≠ "" := by
        intro he
        have hempty : ("" : String).isEmpty = true := by decide
        rw [he] at hfinal
        exact hfinal hempty
      split
      · refine ⟨st.calls, _, by simp only [List.append_assoc]; rfl, hlooped,
          Or.inr ⟨st.strResponseLedger, _, hledger, rfl, rfl, ?_, ?_⟩⟩
        · intro c hc
          simp at hc
          rcases hc with hc | hc | hc <;> subst hc <;> exact ⟨rfl, rfl⟩
        · intro n y a f hf
          simp at hf
          obtain ⟨-, -, -, hf⟩ := hf
          subst hf
          exact ⟨hne, rfl⟩
      · refine ⟨st.calls, _, by simp only [List.append_assoc]; rfl, hlooped,
          Or.inr ⟨st.strResponseLedger, _, hledger, rfl, rfl, ?_, ?_⟩⟩
        · intro c hc
          simp at hc
          rcases hc with hc | hc <;> subst hc <;> exact ⟨rfl, rfl⟩
        · intro n y a f hf
          simp at hf
          obtain ⟨-, -, -, hf⟩ := hf
          subst hf
          exact ⟨hne, rfl⟩
  · rw [if_neg hsend]
    exact ⟨st.calls, [], by simp, hlooped, Or.inl rfl⟩

theorem ApiCall.loop_call_not_finalize (c : ApiCall) (h : c.isLoopCall = true) :
    c.isFinalize = false := by
  cases c <;> simp [ApiCall.isLoopCall] at h <;> rfl

theorem OTRecordList.accept_account_inbox_finalize {R : Type} (api : OTAPI)
    (r : OTRecordList R) (str_notary_id str_nym_id str_account_id : String)
    (inbox : AccountInbox) :
    ((r.accept_account_inbox api str_notary_id str_nym_id str_account_id inbox).filter
        ApiCall.isFinalize).length ≤ 1 := by
  obtain ⟨looped, sending, heq, hlooped, hsending⟩ :=
    r.accept_account_inbox_shape api str_notary_id str_nym_id str_account_id inbox
  have hnone : looped.filter ApiCall.isFinalize = [] := by
    rw [List.filter_eq_nil_iff]
    intro c hc
    rw [ApiCall.loop_call_not_finalize c (hlooped c hc)]
    simp
  rw [heq, List.filter_append, hnone, List.nil_append]
  rcases hsending with h | ⟨ledger, after, -, -, h, hafter, -⟩
  · rw [h]; simp
  · have hnone2 : after.filter ApiCall.isFinalize = [] := by
      rw [List.filter_eq_nil_iff]
      intro c hc
      rw [(hafter c hc).1]
      simp
    rw [h, List.filter_cons, hnone2]
    simp [ApiCall.isFinalize]

theorem OTRecordList.accounts_pass_finalize {R : Type} (api : OTAPI) (r : OTRecordList R)
    (account : String) :
    ((((r.PerformAutoAccept_accounts api).filter fun entry => entry.1 == account).flatMap
        Prod.snd).filter ApiCall.isFinalize).length ≤ r.m_accounts.count account := by
  unfold OTRecordList.PerformAutoAccept_accounts
  split
  · generalize r.m_accounts = accounts
    induction accounts with
    | nil => simp
    | cons a rest ih =>
      rw [List.flatMap_cons, List.filter_append, List.flatMap_append, List.filter_append,
        List.length_append, List.count_cons, Nat.add_comm]
      refine Nat.add_le_add ih ?_
      split
      · simp
      · rename_i pAccount hacct
        dsimp only
        split
        · simp
        · split
          · simp
          · rename_i loaded hload
            by_cases ha : a = account
            · subst ha
              simpa using r.accept_account_inbox_finalize api pAccount.GetPurportedNotaryID
                pAccount.GetNymID a loaded
            · simp [ha]
  · simp

theorem OTRecordList.deposit_into_accounts_spec (api : OTAPI_Deposits)
    (str_nym_id str_notary_id str_instrument_definition_id : String) (q : QueuedPayment)
    (accounts : List String) :
    match accounts.find?
        (OTRecordList.account_qualifies api str_nym_id str_notary_id
          str_instrument_definition_id) with
    | none =>
      OTRecordList.deposit_into_accounts api str_nym_id str_notary_id
        str_instrument_definition_id q accounts = []
    | some account =>
      ∃ after,
        OTRecordList.deposit_into_accounts api str_nym_id str_notary_id
            str_instrument_definition_id q accounts =
          .accept_from_paymentbox_overload account (toString q.nIndex) "ANY" :: after ∧
        ∀ c ∈ after, c.isDeposit = false := by
  induction accounts with
  | nil => simp [OTRecordList.deposit_into_accounts]
  | cons a rest ih =>
    unfold OTRecordList.deposit_into_accounts
    rw [List.find?_cons]
    unfold OTRecordList.account_qualifies
    cases hacct : api.GetAccount a with
    | none => simpa [OTRecordList.account_qualifies] using ih
    | some pAccount =>
      dsimp only
      by_cases hq : (pAccount.GetNymID == str_nym_id &&
          pAccount.GetPurportedNotaryID == str_notary_id &&
          pAccount.GetInstrumentDefinitionID == str_instrument_definition_id &&
          pAccount.GetTypeString == "user") = true
      · rw [if_pos hq, hq]
        dsimp only
        split
        · exact ⟨[], rfl, by simp⟩
        · exact ⟨_, rfl, by simp [DepositCall.isDeposit]⟩
      · rw [if_neg hq]
        have hq2 : (pAccount.GetNymID == str_nym_id &&
          pAccount.GetPurportedNotaryID == str_notary_id &&
          pAccount.GetInstrumentDefinitionID == str_instrument_definition_id &&
          pAccount.GetTypeString == "user") = false := by simpa using hq
        rw [hq2]
        simpa [OTRecordList.account_qualifies] using ih

theorem OTRecordList.payment_queue_indices {R : Type} (r : OTRecordList R)
    (inbox : PaymentInbox) (n : Nat) :
    ((inbox.enumFrom n).filterMap fun entry =>
        match r.payment_to_accept entry.2.2 with
        | some payment => some (QueuedPayment.mk entry.1 entry.2.1 payment)
        | none => none).Pairwise (fun p q => p.nIndex < q.nIndex) ∧
    ∀ p ∈ (inbox.enumFrom n).filterMap fun entry =>
        match r.payment_to_accept entry.2.2 with
        | some payment => some (QueuedPayment.mk entry.1 entry.2.1 payment)
        | none => none, n ≤ p.nIndex := by
  induction inbox generalizing n with
  | nil => simp
  | cons e rest ih =>
    obtain ⟨ih1, ih2⟩ := ih (n + 1)
    rw [List.enumFrom_cons, List.filterMap_cons]
    cases hacc : r.payment_to_accept e.2 with
    | none =>
      exact ⟨ih1, fun p hp => Nat.le_of_succ_le (ih2 p hp)⟩
    | some payment =>
      refine ⟨List.pairwise_cons.mpr ⟨fun p hp => ih2 p hp, ih1⟩, ?_⟩
      intro p hp
      rcases List.mem_cons.mp hp with h | h
      · rw [h]
      · exact Nat.le_of_succ_le (ih2 p h)

theorem foldl_keeps {α β γ : Type} (f : β → α → β) (g : β → γ)
    (hf : ∀ acc item, g (f acc item) = g acc) (items : List α) (acc : β) :
    g (items.foldl f acc) = g acc := by
  induction items generalizing acc with
  | nil => rfl
  | cons item rest ih => rw [List.foldl_cons, ih, hf]

theorem storage.Units.serialize_version (D : storage.Driver) (u : storage.Units) :
    (u.serialize D).version = u.version_ := by
  unfold storage.Units.serialize
  dsimp only
  rw [foldl_keeps _ storage.StorageUnits.version]
  intro acc item
  split <;> rfl

theorem storage.Units.init_version (D : storage.Driver) (node : storage.Units) (hash : String)
    (stored : storage.StorageUnits) (hload : D.LoadProto hash = some stored) :
    ∃ u, storage.Units.init D node hash = some u ∧ u.version_ = max stored.version 2 := by
  unfold storage.Units.init
  rw [hload]
  dsimp only
  refine ⟨_, rfl, ?_⟩
  refine (foldl_keeps _ storage.Units.version_ ?_ _ _).trans ?_
  · intro acc item; rfl
  · split
    · rename_i h
      dsimp only at h ⊢
      omega
    · rename_i h
      dsimp only at h ⊢
      omega

theorem int64_of_range (x : Int) (h1 : -2 ^ 63 ≤ x) (h2 : x < 2 ^ 63) : int64 x = x := by
  unfold int64
  omega

/-! ## The claims on the passes of `PerformAutoAccept`, the amounts and the unit index -/

/-- C21, refuted as stated: the record list of the examples with the account
`acct1` added a second time passes over that account twice, and, the reply to the
first `process_inbox` being a failure, `Ledger_FinalizeResponse` is called twice
for `acct1`, on the same response ledger. -/
theorem C21_counterexample :
    (exampleRecordList.AddAccountID "acct1").m_accounts = ["acct1", "acct1"] ∧
    ((exampleRecordList.AddAccountID "acct1").PerformAutoAccept_accounts
        exampleRefusingApi).map Prod.fst = ["acct1", "acct1"] ∧
    (((exampleRecordList.AddAccountID "acct1").PerformAutoAccept_accounts
        exampleRefusingApi).flatMap Prod.snd).filter ApiCall.isFinalize =
      [.Ledger_FinalizeResponse "notary1" "alice" "acct1"
          "response to inbox + receipt1 + receipt2",
       .Ledger_FinalizeResponse "notary1" "alice" "acct1"
          "response to inbox + receipt1 + receipt2"] := by
  decide

/-- C21, amended: in the asset-account pass of `PerformAutoAccept`, the calls made
for one listing of an account are the calls of the loop over its inbox followed
by the sending: the sending is empty or starts with the one
`Ledger_FinalizeResponse`, made on the response ledger as the loop leaves it,
which is not empty; after it no call of the loop and no second
`Ledger_FinalizeResponse` follows; `process_inbox` is sent only with the
finalized response, which is not empty; and when no transaction of the inbox
qualifies for acceptance no call is made at all.  Every listing of an account the
pass works on is worked on this way, so that over the whole pass
`Ledger_FinalizeResponse` is called for an account at most as many times as the
account is listed: at most once for an account listed once. -/
theorem C21_finalize_once_after_loop {R : Type} (api : OTAPI) (r : OTRecordList R)
    (str_notary_id str_nym_id str_account_id : String) (inbox : AccountInbox) :
    (∃ looped sending,
      r.accept_account_inbox api str_notary_id str_nym_id str_account_id inbox =
        looped ++ sending ∧
      (∀ c ∈ looped, c.isLoopCall = true) ∧
      (sending = [] ∨
        ∃ ledger after, ledger ≠ "" ∧
          ledger = (inbox.transactions.foldl
            (OTRecordList.inbox_step api r str_notary_id str_nym_id str_account_id
              inbox.str_inbox) ⟨false, "", []⟩).strResponseLedger ∧
          sending =
            .Ledger_FinalizeResponse str_notary_id str_nym_id str_account_id ledger :: after ∧
          (∀ c ∈ after, c.isFinalize = false ∧ c.isLoopCall = false) ∧
          (∀ n y a f, ApiCall.process_inbox n y a f ∈ after →
            f ≠ "" ∧
            f = api.Ledger_FinalizeResponse str_notary_id str_nym_id str_account_id
              ledger))) ∧
    ((r.accept_account_inbox api str_notary_id str_nym_id str_account_id inbox).filter
        ApiCall.isFinalize).length ≤ 1 ∧
    ((∀ t ∈ inbox.transactions, ((r.m_bAutoAcceptReceipts && !t.isPending) ||
        (r.m_bAutoAcceptTransfers && t.isPending)) = false) →
      r.accept_account_inbox api str_notary_id str_nym_id str_account_id inbox = []) ∧
    (∀ account calls, (account, calls) ∈ r.PerformAutoAccept_accounts api →
      ∃ pAccount loaded, api.GetAccount account = some pAccount ∧
        api.LoadInbox r.m_bRunFast pAccount.GetPurportedNotaryID pAccount.GetNymID account =
          some loaded ∧
        calls = r.accept_account_inbox api pAccount.GetPurportedNotaryID pAccount.GetNymID
          account loaded) ∧
    (∀ account,
      ((((r.PerformAutoAccept_accounts api).filter fun entry => entry.1 == account).flatMap
          Prod.snd).filter ApiCall.isFinalize).length ≤ r.m_accounts.count account) ∧
    (∀ account, r.m_accounts.count account ≤ 1 →
      ((((r.PerformAutoAccept_accounts api).filter fun entry => entry.1 == account).flatMap
          Prod.snd).filter ApiCall.isFinalize).length ≤ 1) := by
  have hshape := r.accept_account_inbox_shape api str_notary_id str_nym_id str_account_id inbox
  refine ⟨hshape,
    r.accept_account_inbox_finalize api str_notary_id str_nym_id str_account_id inbox,
    ?_, ?_, fun account => r.accounts_pass_finalize api account,
    fun account hcount => (r.accounts_pass_finalize api account).trans hcount⟩
  · intro hq
    unfold OTRecordList.accept_account_inbox
    dsimp only
    rw [OTRecordList.inbox_loop_skip api r _ _ _ _ inbox.transactions _ hq]
    simp
  · intro account calls hmem
    unfold OTRecordList.PerformAutoAccept_accounts at hmem
    split at hmem
    · simp only [List.mem_flatMap] at hmem
      obtain ⟨a, -, ha⟩ := hmem
      split at ha
      · cases ha
      · rename_i pAccount hacct
        split at ha
        · cases ha
        · split at ha
          · cases ha
          · rename_i loaded hload
            simp only [List.mem_singleton, Prod.mk.injEq] at ha
            obtain ⟨rfl, rfl⟩ := ha
            exact ⟨pAccount, loaded, hacct, hload, rfl⟩
    · cases hmem

/-- C22: in `PerformAutoAccept`, the queued payments of one payments inbox are gone
through in strictly decreasing box index, each of them once; a queued payment
triggers at most one deposit attempt; an attempt is made with the index of the
payment into the first account of the list, in list order, that is in the wallet,
is owned by the Nym, is on the server, has the instrument definition of the
payment and is of type `user`; when no account of the list qualifies nothing is
done for the payment; and when an account qualifies, for a payment whose contents
and instrument definition are read, the attempt is made: it is the first call for
the payment, into the first qualifying account, and no other attempt follows.
With the accounts `gone`, `issuer`, `acct1` and `acct2` listed, the payments at
the indices 2 and 0 are deposited in that order, both into `acct1`. -/
theorem C22_deposit_into_first_account {R : Type} (api : OTAPI_Deposits)
    (r : OTRecordList R) (str_nym_id str_notary_id : String) (inbox : PaymentInbox)
    (q : QueuedPayment) :
    (r.deposit_queue api str_nym_id str_notary_id (r.payment_queue inbox)).map Prod.fst =
      ((r.payment_queue inbox).map QueuedPayment.nIndex).reverse ∧
    ((r.deposit_queue api str_nym_id str_notary_id (r.payment_queue inbox)).map
      Prod.fst).Pairwise (fun i j => j < i) ∧
    ((r.deposit_payment api str_nym_id str_notary_id q).filter
      DepositCall.isDeposit).length ≤ 1 ∧
    (∀ account indices purpose,
      DepositCall.accept_from_paymentbox_overload account indices purpose ∈
          r.deposit_payment api str_nym_id str_notary_id q →
        ∃ id, q.payment.GetInstrumentDefinitionID = some id ∧
          r.m_accounts.find? (OTRecordList.account_qualifies api str_nym_id str_notary_id id) =
            some account ∧
          indices = toString q.nIndex) ∧
    ((∀ id, q.payment.GetInstrumentDefinitionID = some id →
        r.m_accounts.find? (OTRecordList.account_qualifies api str_nym_id str_notary_id id) =
          none) →
      r.deposit_payment api str_nym_id str_notary_id q = []) ∧
    (∀ id account, q.payment.GetPaymentContents ≠ none →
      q.payment.GetInstrumentDefinitionID = some id → id.isEmpty = false →
      r.m_accounts.find? (OTRecordList.account_qualifies api str_nym_id str_notary_id id) =
        some account →
      ∃ after, r.deposit_payment api str_nym_id str_notary_id q =
          .accept_from_paymentbox_overload account (toString q.nIndex) "ANY" :: after ∧
        ∀ c ∈ after, c.isDeposit = false) ∧
    r.deposit_queue api str_nym_id str_notary_id (r.payment_queue inbox) =
      (r.payment_queue inbox).reverse.map
        (fun p => (p.nIndex, r.deposit_payment api str_nym_id str_notary_id p)) ∧
    (exampleDepositList.PerformAutoAccept_payments exampleDepositApi).map
        (fun entry => (entry.1, entry.2.1,
          entry.2.2.map fun d => (d.1, d.2.filter DepositCall.isDeposit))) =
      [("alice", "notary1",
        [(2, [.accept_from_paymentbox_overload "acct1" "2" "ANY"]),
         (0, [.accept_from_paymentbox_overload "acct1" "0" "ANY"])])] := by
  have horder : (r.deposit_queue api str_nym_id str_notary_id (r.payment_queue inbox)).map
      Prod.fst = ((r.payment_queue inbox).map QueuedPayment.nIndex).reverse := by
    unfold OTRecordList.deposit_queue
    rw [List.map_map, List.map_reverse]
    rfl
  have hcases : ∀ id, q.payment.GetInstrumentDefinitionID = some id →
      q.payment.GetPaymentContents ≠ none → id.isEmpty = false →
      r.deposit_payment api str_nym_id str_notary_id q =
        OTRecordList.deposit_into_accounts api str_nym_id str_notary_id id q r.m_accounts := by
    intro id hid hcontents hempty
    unfold OTRecordList.deposit_payment
    cases hc : q.payment.GetPaymentContents with
    | none => exact absurd hc hcontents
    | some contents => simp [hid, hempty]
  have hnothing : (∀ id, q.payment.GetInstrumentDefinitionID = some id →
      q.payment.GetPaymentContents ≠ none → id.isEmpty = false → False) →
      r.deposit_payment api str_nym_id str_notary_id q = [] := by
    intro h
    unfold OTRecordList.deposit_payment
    cases hc : q.payment.GetPaymentContents with
    | none => rfl
    | some contents =>
      cases hid : q.payment.GetInstrumentDefinitionID with
      | none =>
        dsimp only
        rw [if_pos (by decide)]
      | some id =>
        cases hempty : id.isEmpty with
        | true => simp [hempty]
        | false => exact (h id hid (by rw [hc]; simp) hempty).elim
  refine ⟨horder, ?_, ?_, ?_, ?_, ?_, rfl, by decide⟩
  · rw [horder, List.pairwise_reverse, List.pairwise_map]
    exact (r.payment_queue_indices inbox 0).1
  · by_cases hdo : ∃ id, q.payment.GetInstrumentDefinitionID = some id ∧
        q.payment.GetPaymentContents ≠ none ∧ id.isEmpty = false
    · obtain ⟨id, hid, hcontents, hempty⟩ := hdo
      rw [hcases id hid hcontents hempty]
      have hspec := OTRecordList.deposit_into_accounts_spec api str_nym_id str_notary_id id q
        r.m_accounts
      split at hspec
      · rw [hspec]; simp
      · obtain ⟨after, heq, hafter⟩ := hspec
        have hnone : after.filter DepositCall.isDeposit = [] := by
          rw [List.filter_eq_nil_iff]
          intro c hc
          rw [hafter c hc]
          simp
        rw [heq, List.filter_cons, hnone]
        simp [DepositCall.isDeposit]
    · rw [hnothing (fun id hid hcontents hempty => hdo ⟨id, hid, hcontents, hempty⟩)]
      simp
  · intro account indices purpose hmem
    by_cases hdo : ∃ id, q.payment.GetInstrumentDefinitionID = some id ∧
        q.payment.GetPaymentContents ≠ none ∧ id.isEmpty = false
    · obtain ⟨id, hid, hcontents, hempty⟩ := hdo
      rw [hcases id hid hcontents hempty] at hmem
      have hspec := OTRecordList.deposit_into_accounts_spec api str_nym_id str_notary_id id q
        r.m_accounts
      split at hspec
      · rw [hspec] at hmem; cases hmem
      · rename_i first hfind
        obtain ⟨after, heq, hafter⟩ := hspec
        rw [heq] at hmem
        rcases List.mem_cons.mp hmem with h | h
        · simp only [DepositCall.accept_from_paymentbox_overload.injEq] at h
          exact ⟨id, hid, by rw [hfind, h.1], h.2.1⟩
        · have := hafter _ h
          simp [DepositCall.isDeposit] at this
    · rw [hnothing (fun id hid hcontents hempty => hdo ⟨id, hid, hcontents, hempty⟩)] at hmem
      cases hmem
  · intro hnone
    by_cases hdo : ∃ id, q.payment.GetInstrumentDefinitionID = some id ∧
        q.payment.GetPaymentContents ≠ none ∧ id.isEmpty = false
    · obtain ⟨id, hid, hcontents, hempty⟩ := hdo
      rw [hcases id hid hcontents hempty]
      have hspec := OTRecordList.deposit_into_accounts_spec api str_nym_id str_notary_id id q
        r.m_accounts
      rw [hnone id hid] at hspec
      exact hspec
    · exact hnothing (fun id hid hcontents hempty => hdo ⟨id, hid, hcontents, hempty⟩)
  · intro id account hcontents hid hempty hfind
    rw [hcases id hid hcontents hempty]
    have hspec := OTRecordList.deposit_into_accounts_spec api str_nym_id str_notary_id id q
      r.m_accounts
    rw [hfind] at hspec
    exact hspec

/-- C23: for an outbox transaction listed by `Populate`, with `a` the abbreviated
display amount or, when that is 0, the receipt amount, both 64-bit values, the
amount computed is `-|a|`, which is never positive, and the amount string is its
decimal form when `a` is not 0 and is the empty string when `a` is 0. -/
theorem C23_outbox_amount_never_positive (GetAbbrevDisplayAmount GetReceiptAmount : Int)
    (habbrev : -2 ^ 63 ≤ GetAbbrevDisplayAmount ∧ GetAbbrevDisplayAmount < 2 ^ 63)
    (hreceipt : -2 ^ 63 ≤ GetReceiptAmount ∧ GetReceiptAmount < 2 ^ 63) :
    outbox_lAmount GetAbbrevDisplayAmount GetReceiptAmount =
      -|if GetAbbrevDisplayAmount = 0 then GetReceiptAmount else GetAbbrevDisplayAmount| ∧
    outbox_lAmount GetAbbrevDisplayAmount GetReceiptAmount ≤ 0 ∧
    outbox_str_amount GetAbbrevDisplayAmount GetReceiptAmount =
      (if (if GetAbbrevDisplayAmount = 0 then GetReceiptAmount else GetAbbrevDisplayAmount) = 0
       then ""
       else toString
        (-|if GetAbbrevDisplayAmount = 0 then GetReceiptAmount else GetAbbrevDisplayAmount|)) := by
  have hamount : outbox_lAmount GetAbbrevDisplayAmount GetReceiptAmount =
      -|if GetAbbrevDisplayAmount = 0 then GetReceiptAmount else GetAbbrevDisplayAmount| := by
    have hcond : (if 0 = GetAbbrevDisplayAmount then GetReceiptAmount
        else GetAbbrevDisplayAmount) =
        (if GetAbbrevDisplayAmount = 0 then GetReceiptAmount else GetAbbrevDisplayAmount) := by
      by_cases h : GetAbbrevDisplayAmount = 0
      · rw [if_pos h, if_pos h.symm]
      · rw [if_neg h, if_neg (fun h2 => h h2.symm)]
    unfold outbox_lAmount
    dsimp only
    rw [hcond]
    have hrange : -2 ^ 63 ≤
        (if GetAbbrevDisplayAmount = 0 then GetReceiptAmount else GetAbbrevDisplayAmount) ∧
        (if GetAbbrevDisplayAmount = 0 then GetReceiptAmount else GetAbbrevDisplayAmount) <
          2 ^ 63 := by
      split <;> assumption
    generalize (if GetAbbrevDisplayAmount = 0 then GetReceiptAmount
      else GetAbbrevDisplayAmount) = a at hrange ⊢
    by_cases hpos : a > 0
    · rw [if_pos hpos, int64_of_range _ (by omega) (by omega), abs_of_pos hpos]
      omega
    · rw [if_neg hpos, abs_of_nonpos (by omega)]
      omega
  refine ⟨hamount, ?_, ?_⟩
  · rw [hamount]
    exact neg_nonpos.mpr (abs_nonneg _)
  · unfold outbox_str_amount
    dsimp only
    rw [hamount]
    by_cases hzero :
        (if GetAbbrevDisplayAmount = 0 then GetReceiptAmount else GetAbbrevDisplayAmount) = 0
    · rw [if_pos hzero, hzero]
      simp
    · rw [if_neg hzero, if_pos]
      intro h
      exact hzero (abs_eq_zero.mp (neg_eq_zero.mp h.symm))

/-- C23, at an outbox transfer of 250 with no abbreviated display amount: the
amount string is `-250`. -/
theorem C23_outbox_amount_never_positive_witness :
    (-2 ^ 63 ≤ (0 : Int) ∧ (0 : Int) < 2 ^ 63) ∧
    (-2 ^ 63 ≤ (250 : Int) ∧ (250 : Int) < 2 ^ 63) ∧
    outbox_lAmount 0 250 = -250 ∧
    outbox_str_amount 0 250 = "-250" :=
  ⟨by decide, by decide,
   (C23_outbox_amount_never_positive 0 250 (by decide) (by decide)).1.trans (by decide),
   (C23_outbox_amount_never_positive 0 250 (by decide) (by decide)).2.2.trans (by decide)⟩

/-- C24: a `storage::Units` node that has been constructed has a version of at
least 2, and so has every index `serialize` makes of it: a node made for a hash
that is not a good one is blank with version 2; a node made for a good hash whose
index loads has the greater of the stored version and 2; and when the index does
not load the constructor aborts and there is no node. -/
theorem C24_version_at_least_two (D : storage.Driver) (node : storage.Units)
    (hash : String) :
    (∀ u, storage.Units.ctor D node hash = some u →
      2 ≤ u.version_ ∧ 2 ≤ (u.serialize D).version) ∧
    (D.check_hash hash = false →
      storage.Units.ctor D node hash =
        some ⟨2, D.BLANK_HASH, node.item_map_⟩) ∧
    (∀ stored, D.check_hash hash = true → D.LoadProto hash = some stored →
      ∃ u, storage.Units.ctor D node hash = some u ∧ u.version_ = max stored.version 2) ∧
    (D.check_hash hash = true → D.LoadProto hash = none →
      storage.Units.ctor D node hash = none) ∧
    (storage.Units.ctor exampleLoadingDriver exampleNode "root").map
        (fun u => (u.version_, (u.serialize exampleLoadingDriver).version)) = some (2, 2) := by
  have hblank : D.check_hash hash = false →
      storage.Units.ctor D node hash = some ⟨2, D.BLANK_HASH, node.item_map_⟩ := by
    intro h
    simp [storage.Units.ctor, h]
  have hload : ∀ stored, D.check_hash hash = true → D.LoadProto hash = some stored →
      ∃ u, storage.Units.ctor D node hash = some u ∧ u.version_ = max stored.version 2 := by
    intro stored h hl
    obtain ⟨u, hu, hv⟩ := storage.Units.init_version D node hash stored hl
    exact ⟨u, by simp [storage.Units.ctor, h, hu], hv⟩
  have habort : D.check_hash hash = true → D.LoadProto hash = none →
      storage.Units.ctor D node hash = none := by
    intro h hl
    simp [storage.Units.ctor, h, storage.Units.init, hl]
  refine ⟨?_, hblank, hload, habort, by decide⟩
  intro u hu
  have hversion : 2 ≤ u.version_ := by
    cases hc : D.check_hash hash with
    | false =>
      rw [hblank hc] at hu
      simp only [Option.some.injEq] at hu
      rw [← hu]
    | true =>
      cases hl : D.LoadProto hash with
      | none => rw [habort hc hl] at hu; cases hu
      | some stored =>
        obtain ⟨v, hv, hmax⟩ := hload stored hc hl
        rw [hv] at hu
        simp only [Option.some.injEq] at hu
        rw [← hu, hmax]
        exact le_max_right _ _
  exact ⟨hversion, by rw [storage.Units.serialize_version]; exact hversion⟩

end opentxs
